import Mathlib

/-!
# cobalt-daemon: a shallow embedding of `cobalt_daemon` and of the example caller

The C function `cobalt_daemon` (src/cobalt-daemon.c) is a straight sequence of
system calls with an early return after each failure and one tail call to
itself (stale PID file).  It is embedded as a Lean function over an explicit
process/filesystem state `World`.  Everything the operating system decides
(whether a call fails, which pid `fork` hands out, what the stack held before
`read` filled `pid_buf`) comes from an environment `Env`, one record `Sys` per
nesting depth of the self call.  Every call is appended to `World.trace`
together with the pid of the process that made it.

Conventions:
* a C `char` is a Lean `Char`, so `strlen` is `String.length`;
* file contents and `pid_buf` are lists of byte values (`10` is the newline,
  `48 .. 57` the digits, `0` the terminator);
* `fprintf (stderr, ...)` diagnostics are not recorded;
* after `fork` the parent branch (clear `pidfile_name`, `exit`, the handlers
  registered with `atexit`) is run to its end first, then the child goes on
  with its own copy of the descriptor table and of the two globals.
-/

namespace CobaltDaemon

/-! ## Constants of the source -/

/-- The directory where the PID file is created (`#define PID_DIRECTORY`). -/
def PID_DIRECTORY : String := "/var/run"

/-- The ceiling of the descriptor closing loop (`#define MAX_OPEN_FDS`). -/
def MAX_OPEN_FDS : Nat := 64

/-- The directory separator character (`#define DIRECTORY_SEPARATOR`). -/
def DIRECTORY_SEPARATOR : Char := '/'

/-- The `umask` of the daemon: `S_IWGRP | S_IWOTH`, octal 022. -/
def DAEMON_UMASK : Nat := 18

/-- The account of the example program (`#define DAEMON_USERNAME`). -/
def DAEMON_USERNAME : String := "nobody"

/-- The path length limit of `limits.h` on Linux. -/
def PATH_MAX : Nat := 4096

/-- The size of `char pid_buf[32U]`. -/
def PID_BUF_SIZE : Nat := 32

/-- The largest `unsigned long long`. -/
def ULLONG_MAX : Nat := 2 ^ 64 - 1

/-! ## Text of a pid: `snprintf "%d\n"`, `strtoull`, conversion to `pid_t` -/

/-- The digit loop of `%d`: the digits of `n`, most significant first, put in
front of `acc`; `fuel` bounds the number of digits. -/
def decimal_digits : Nat → Nat → List Nat → List Nat
  | 0, _, acc => acc
  | fuel + 1, n, acc =>
    if n < 10 then (48 + n) :: acc
    else decimal_digits fuel (n / 10) ((48 + n % 10) :: acc)

/-- Decimal digits of a natural number, most significant first, as bytes. -/
def decimal (p : Nat) : List Nat := decimal_digits (p + 1) p []

/-- The text `snprintf (pid_buf, sizeof pid_buf, "%d\n", getpid ())` wants to
produce (before truncation to the buffer). -/
def snprintf_pid (p : Nat) : List Nat := decimal p ++ [10]

/-- The `isspace` of the C locale. -/
def isspace (c : Nat) : Bool := c == 32 || (9 ≤ c && c ≤ 13)

/-- The `isdigit` of C. -/
def isdigit (c : Nat) : Bool := 48 ≤ c && c ≤ 57

/-- The digit loop of `strtoull`: accumulate until the first byte that is not
a digit.  `none`: the scan ran off the end of the buffer without meeting such
a byte (a read past `pid_buf`, undefined in C). -/
def strtoull_digits : List Nat → Nat → Option Nat
  | [], _ => none
  | c :: cs, acc => if isdigit c then strtoull_digits cs (acc * 10 + (c - 48)) else some acc

/-- Skip the leading white space of `strtoull`. -/
def skip_space : List Nat → List Nat
  | [] => []
  | c :: cs => if isspace c then skip_space cs else c :: cs

/-- Clamp the magnitude and apply the sign the way `strtoull` does: overflow
gives `ULLONG_MAX`, a minus sign negates modulo `2 ^ 64`. -/
def strtoull_value (neg : Bool) (v : Nat) : Nat :=
  if v > ULLONG_MAX then ULLONG_MAX else if neg then (2 ^ 64 - v) % 2 ^ 64 else v

/-- The call `strtoull (pid_buf, NULL, 10)` on the bytes of the buffer. -/
def strtoull (buf : List Nat) : Option Nat :=
  match skip_space buf with
  | [] => none
  | c :: cs =>
    if c = 45 then (strtoull_digits cs 0).map (strtoull_value true)
    else if c = 43 then (strtoull_digits cs 0).map (strtoull_value false)
    else (strtoull_digits (c :: cs) 0).map (strtoull_value false)

/-- Conversion of an `unsigned long long` to the 32-bit signed `pid_t`. -/
def to_pid_t (v : Nat) : Int :=
  let m : Nat := v % 2 ^ 32
  if m < 2 ^ 31 then (m : Int) else (m : Int) - 2 ^ 32

/-- The buffer `pid_buf` after `read` stored `data` in it: the bytes read,
then whatever the buffer held before (`stack`). -/
def read_into (stack data : List Nat) : List Nat :=
  (data ++ stack.drop data.length).take PID_BUF_SIZE

/-- The trim of the existing-file routine: a newline in the last byte read is
replaced by the terminator. -/
def trim_newline (buf : List Nat) (i : Nat) : List Nat :=
  if buf.getD (i - 1) 0 = 10 then buf.set (i - 1) 0 else buf

/-- The existing-file routine on the bytes `data` that `read` returned
(`data.length > 0`): fill the buffer, trim, parse, convert to `pid_t`. -/
def parse_pid (stack data : List Nat) : Option Int :=
  (strtoull (trim_newline (read_into stack data) data.length)).map to_pid_t

/-! ## The state -/

/-- What an open descriptor refers to. -/
inductive Obj where
  | file (path : String)
  | devnull
  | other
  deriving DecidableEq, Repr

/-- Outcome of the probe `kill (pid, 0)`. -/
inductive KillResult where
  | ok
  | esrch
  | eother
  deriving DecidableEq, Repr

/-- Outcome of `getpwnam_r`. -/
inductive PwResult where
  | error
  | notFound
  | found (uid gid : Nat)
  deriving DecidableEq, Repr

/-- The calls `cobalt_daemon` and `clean_up` make, with their arguments and
results. -/
inductive Event where
  | geteuid
  | sysconf
  | malloc (size : Nat) (ok : Bool)
  | getpwnam_r (name : String) (res : PwResult)
  | stat (path : String) (ok : Bool)
  | mkdir (path : String) (ok : Bool)
  | chown (path : String) (uid gid : Nat) (ok : Bool)
  | chdir (path : String) (ok : Bool)
  | fork (ret : Int)
  | procExit (status : Nat)
  | openExcl (path : String) (ret : Int)
  | openRdonly (path : String) (ret : Int)
  | read (fd : Int) (ret : Int)
  | kill (pid : Int) (sig : Nat) (res : KillResult)
  | close (fd : Int) (inLoop : Bool)
  | unlink (path : String) (ok : Bool)
  | fchown (fd : Int) (uid gid : Nat) (ok : Bool)
  | setlk (fd : Int) (ok : Bool)
  | ftruncate (fd : Int) (ok : Bool)
  | getpid
  | write (fd : Int) (bytes : List Nat) (ret : Int)
  | setsid (ok : Bool)
  | umask (mask : Nat)
  | openlog (ident : String)
  | setresgid (r e s : Nat) (ok : Bool)
  | setresuid (r e s : Nat) (ok : Bool)
  | openNull (ret : Int)
  | dup (fd : Int) (ret : Int)
  | closelog
  deriving DecidableEq, Repr

/-- What the operating system answers during one activation of
`cobalt_daemon`; one field per call site. -/
structure Sys where
  /-- value of `sysconf (_SC_GETPW_R_SIZE_MAX)` -/
  sysconf : Int
  /-- whether `malloc (size)` returns a buffer -/
  malloc : Nat → Bool
  /-- the account database, queried with a buffer of the given size -/
  getpwnam_r : String → Nat → PwResult
  /-- `stat` of the pid directory succeeds -/
  stat : Bool
  mkdir : Bool
  chown : Bool
  chdir : Bool
  /-- `none`: `fork` fails; `some c`: the child gets pid `c` -/
  fork : Option Nat
  /-- content another process stores at the PID path between `fork` and the
  exclusive create of this activation (`none`: nobody interferes) -/
  racer : Option (List Nat)
  /-- the exclusive create is not refused for a reason other than existence -/
  creat : Bool
  open_rdonly : Bool
  read : Bool
  /-- prior content of `pid_buf` (an uninitialised automatic array) -/
  stack : List Nat
  /-- answer of `kill (pid, 0)` for a pid other than 0 -/
  probe : Int → KillResult
  unlink : Bool
  fchown : Bool
  setlk : Bool
  ftruncate : Bool
  /-- return value of `write` asked for the given number of bytes -/
  write : Nat → Int
  setsid : Bool
  setresgid : Bool
  setresuid : Bool
  open_null : Bool
  dup_stdout : Bool
  dup_stderr : Bool

/-- The environment: the answers for the activation at each nesting depth. -/
abbrev Env := Nat → Sys

/-- State of the running process and of the filesystem it shares. -/
structure World where
  /-- value of `getpid ()` -/
  pid : Nat
  /-- effective user id -/
  euid : Nat
  /-- effective group id -/
  egid : Nat
  /-- descriptor table -/
  fds : Nat → Option Obj
  /-- number of slots of the descriptor table (`RLIMIT_NOFILE`) -/
  nofile : Nat
  /-- the global `int pidfile_fd` -/
  pidfile_fd : Int
  /-- the global `char pidfile_name[PATH_MAX]` -/
  pidfile_name : String
  /-- regular files: content by path -/
  fs : String → Option (List Nat)
  /-- every call made so far, with the pid of the caller -/
  trace : List (Nat × Event)

/-- How an activation ends. -/
inductive Outcome where
  /-- the function returned `code` in state `w` -/
  | ret (code : Int) (w : World)
  /-- `strtoull` read past the end of `pid_buf` -/
  | undef (w : World)

/-- Scan `n` slots of a descriptor table from slot `k` on for a free one. -/
def firstFree (fds : Nat → Option Obj) : Nat → Nat → Option Nat
  | 0, _ => none
  | n + 1, k => if (fds k).isNone then some k else firstFree fds n (k + 1)

namespace World

/-- Record a call. -/
def log (w : World) (e : Event) : World :=
  { w with trace := w.trace ++ [(w.pid, e)] }

/-- Assign the global `pidfile_fd`. -/
def setFd (w : World) (fd : Int) : World := { w with pidfile_fd := fd }

/-- Assign the global `pidfile_name`. -/
def setName (w : World) (name : String) : World := { w with pidfile_name := name }

/-- The effective user id after a successful `setresuid`. -/
def setEuid (w : World) (uid : Nat) : World := { w with euid := uid }

/-- The effective group id after a successful `setresgid`. -/
def setEgid (w : World) (gid : Nat) : World := { w with egid := gid }

/-- The child of `fork`: a copy of the process `w` with the pid `child`, in
the filesystem and after the calls of `parent`. -/
def asChild (w : World) (child : Nat) (parent : World) : World :=
  { w with pid := child, fs := parent.fs, trace := parent.trace }

/-- The lowest descriptor number that is free, if the table has one. -/
def lowestFree (w : World) : Option Nat := firstFree w.fds w.nofile 0

/-- Store `o` in slot `k` of the descriptor table. -/
def install (w : World) (k : Nat) (o : Option Obj) : World :=
  { w with fds := fun n => if n = k then o else w.fds n }

/-- Replace the content of the file at `path`. -/
def setFile (w : World) (path : String) (c : Option (List Nat)) : World :=
  { w with fs := fun p => if p = path then c else w.fs p }

/-- The call `close (fd)`; the call is made (and recorded) also for a
descriptor that is not open. -/
def close (w : World) (fd : Int) (inLoop : Bool) : World :=
  let w := w.log (.close fd inLoop)
  if 0 ≤ fd then w.install fd.toNat none else w

/-- The call `unlink (path)`, `ok` being whether the system permits it; it
fails also when there is no such file. -/
def unlink (w : World) (path : String) (ok : Bool) : Bool × World :=
  let done := ok && (w.fs path).isSome
  (done, (if done then w.setFile path none else w).log (.unlink path done))

/-- The loop `for (i = 0; i <= MAX_OPEN_FDS; i++) if (i != pidfile_fd) close (i);`. -/
def closeLoop (w : World) : World :=
  (List.range (MAX_OPEN_FDS + 1)).foldl
    (fun (w : World) (i : Nat) => if (i : Int) ≠ w.pidfile_fd then w.close i true else w) w

/-- An open that allocates the lowest free descriptor for `o`; `-1` when the
system refuses or the table is full. -/
def allocate (w : World) (ok : Bool) (o : Obj) : Int × World :=
  if ok then
    match w.lowestFree with
    | some k => ((k : Int), w.install k (some o))
    | none => (-1, w)
  else (-1, w)

end World

/-- The call `kill (pid, 0)`: pid 0 addresses the process group of the caller,
which contains the caller, so the probe succeeds; any other pid is answered by
the environment. -/
def kill (s : Sys) (pid : Int) : KillResult :=
  if pid = 0 then .ok else s.probe pid

/-- The destructor of the example program (src/example.c), registered with
`atexit`; `unlink_ok` is whether the system permits the `unlink`. -/
def clean_up (unlink_ok : Bool) (w : World) : World :=
  let w := if w.pidfile_fd ≠ -1 then w.close w.pidfile_fd false else w
  let w := if w.pidfile_name.length ≠ 0 then (w.unlink w.pidfile_name unlink_ok).2 else w
  w.log .closelog

/-- What the caller of `cobalt_daemon` registered with `atexit`: nothing, or
the `clean_up` of the example program. -/
inductive AtExit where
  | nothing
  | clean_up (unlink_ok : Bool)
  deriving DecidableEq, Repr

/-- The handlers run by `exit`. -/
def AtExit.run : AtExit → World → World
  | .nothing, w => w
  | .clean_up ok, w => CobaltDaemon.clean_up ok w

/-! ## The function `cobalt_daemon`

The body is cut into its consecutive segments; each segment either returns
`-1` from the function (`Res.fail`, with the state at that point) or hands its
state to the next segment (`Res.next`). -/

/-- Result of a segment of `cobalt_daemon`. -/
inductive Res (α : Type) where
  /-- the function returns `-1` here -/
  | fail (w : World)
  /-- control reaches the next segment -/
  | next (a : α)

/-- The identity of the target account: `uid`, `gid` of `struct passwd`. -/
structure Identity where
  uid : Nat
  gid : Nat
  deriving DecidableEq, Repr

/-- Lines 74-136: argument checks, the `geteuid` check, the account lookup,
the rejection of uid 0. -/
def resolve_identity (s : Sys) (w : World) (username daemonname : Option String) :
    Res (World × String × Identity) :=
  match username with
  | none => .fail w
  | some username =>
  if username.length = 0 then .fail w else
  match daemonname with
  | none => .fail w
  | some daemonname =>
  if daemonname.length = 0 then .fail w else
  let w := w.log .geteuid
  if w.euid ≠ 0 then .fail w else
  let w := w.log .sysconf
  let buf_size : Nat := if s.sysconf ≤ 0 then 16384 else s.sysconf.toNat
  let w := w.log (.malloc buf_size (s.malloc buf_size))
  if s.malloc buf_size = false then .fail w else
  let w := w.log (.getpwnam_r username (s.getpwnam_r username buf_size))
  match s.getpwnam_r username buf_size with
  | .error => .fail w
  | .notFound => .fail w
  | .found uid gid =>
  if uid < 1 then .fail w else .next (w, daemonname, ⟨uid, gid⟩)

/-- Lines 138-188: the directory part of `pidfile_name`, `stat` / `mkdir` and
`chown` of the pid directory, the full PID file name, `chdir ("/")`.
`snprintf` stores the truncated text also when it reports that the text did
not fit. -/
def prepare_directory (s : Sys) (w : World) (daemonname : String) (id : Identity) :
    Res World :=
  let i := PID_DIRECTORY.length
  let w := w.setName (String.mk (PID_DIRECTORY.toList.take (PATH_MAX - 1)))
  if i ≥ PATH_MAX then .fail w else
  if i ≤ 0 then .fail w else
  let n := w.pidfile_name.length
  if n ≥ PATH_MAX then .fail w else
  let w := if w.pidfile_name.back ≠ DIRECTORY_SEPARATOR
    then w.setName (w.pidfile_name.push DIRECTORY_SEPARATOR) else w
  let n := w.pidfile_name.length
  -- create the pid directory if it does not exist
  let w := w.log (.stat w.pidfile_name s.stat)
  let w := if s.stat = false then w.log (.mkdir w.pidfile_name s.mkdir) else w
  if s.stat = false ∧ s.mkdir = false then .fail w else
  -- set a new owner for the pid directory
  let w := w.log (.chown w.pidfile_name id.uid id.gid s.chown)
  if s.chown = false then .fail w else
  -- generate the full pidfile name
  let tail := daemonname ++ ".pid"
  let w := w.setName
    (w.pidfile_name ++ String.mk (tail.toList.take (PATH_MAX - n - 1)))
  if tail.length ≥ PATH_MAX - n then .fail w else
  -- set the working directory to the root directory
  let w := w.log (.chdir "/" s.chdir)
  if s.chdir = false then .fail w else .next w

/-- Lines 190-204: `fork`.  The parent clears `pidfile_name` and leaves through
`exit (EXIT_SUCCESS)`, which runs `hook`; the state handed on is the one of the
child. -/
def fork_child (s : Sys) (hook : AtExit) (w : World) : Res World :=
  match s.fork with
  | none => .fail (w.log (.fork (-1)))
  | some child =>
    let parent := hook.run (((w.setName "").log (.fork child)).log (.procExit 0))
    .next ((w.asChild child parent).log (.fork 0))

/-- Lines 206-208: `open (pidfile_name, O_RDWR | O_CREAT | O_EXCL, 0644)`,
after whatever another process did to the path in the meantime. -/
def create_pidfile (s : Sys) (w : World) : World :=
  let w := match s.racer with
    | some c => w.setFile w.pidfile_name (some c)
    | none => w
  let r := if (w.fs w.pidfile_name).isSome then ((-1 : Int), w)
    else w.allocate s.creat (.file w.pidfile_name)
  let w := if r.1 = -1 then r.2 else r.2.setFile r.2.pidfile_name (some [])
  let w := w.setFd r.1
  w.log (.openExcl w.pidfile_name w.pidfile_fd)

/-- How the inspection of an existing PID file ends. -/
inductive Inspect where
  /-- `return -1` -/
  | fail (w : World)
  /-- `strtoull` read past the end of `pid_buf` -/
  | undef (w : World)
  /-- the stale file was unlinked: `return cobalt_daemon (username, daemonname)` -/
  | again (w : World)

/-- Lines 210-268: the branch taken when the exclusive create failed. -/
def inspect_existing (s : Sys) (w : World) : Inspect :=
  -- perhaps the pidfile already exists, try to open it
  let r := if (w.fs w.pidfile_name).isSome
    then w.allocate s.open_rdonly (.file w.pidfile_name) else ((-1 : Int), w)
  let w := r.2.setFd r.1
  let w := w.log (.openRdonly w.pidfile_name w.pidfile_fd)
  if w.pidfile_fd = -1 then .fail w else
  -- find out what that pid is
  let data := if s.read then ((w.fs w.pidfile_name).getD []).take PID_BUF_SIZE else []
  let i : Int := if s.read then (data.length : Int) else -1
  let w := w.log (.read w.pidfile_fd i)
  if i > 0 then
    match parse_pid s.stack data with
    | none => .undef w
    | some pid =>
    let w := w.log (.kill pid 0 (kill s pid))
    match kill s pid with
    | .ok =>
      .fail (if w.pidfile_fd ≠ -1 then w.close w.pidfile_fd false else w)
    | .esrch =>
      -- non-existent process
      let w := w.close w.pidfile_fd false
      let w := w.setFd (-1)
      let u := w.unlink w.pidfile_name s.unlink
      if u.1 then .again u.2
      else .fail (if u.2.pidfile_fd ≠ -1 then u.2.close u.2.pidfile_fd false else u.2)
    | .eother =>
      .fail (if w.pidfile_fd ≠ -1 then w.close w.pidfile_fd false else w)
  else
    .fail (if w.pidfile_fd ≠ -1 then w.close w.pidfile_fd false else w)

/-- Lines 270-308: `fchown`, the exclusive lock, `ftruncate`, the pid text and
its `write`. -/
def lock_and_write (s : Sys) (w : World) (id : Identity) : Res World :=
  -- set the pidfile's ownership
  let w := w.log (.fchown w.pidfile_fd id.uid id.gid s.fchown)
  if s.fchown = false then .fail w else
  let w := w.log (.setlk w.pidfile_fd s.setlk)
  if s.setlk = false then .fail (w.close w.pidfile_fd false) else
  let w := w.log (.ftruncate w.pidfile_fd s.ftruncate)
  if s.ftruncate = false then .fail (w.close w.pidfile_fd false) else
  let w := w.setFile w.pidfile_name (some [])
  let w := w.log .getpid
  let text := snprintf_pid w.pid
  let i := text.length
  if i ≥ PID_BUF_SIZE then .fail (w.close w.pidfile_fd false) else
  if i > 0 then
    let written := s.write i
    let w := if written > 0
      then w.setFile w.pidfile_name (some (text.take written.toNat)) else w
    let w := w.log (.write w.pidfile_fd text written)
    if written ≠ (i : Int) then .fail (w.close w.pidfile_fd false) else .next w
  else .fail (w.close w.pidfile_fd false)

/-- Lines 310-334: `setsid`, `umask`, `openlog`, `setresgid`, `setresuid`. -/
def detach_and_drop (s : Sys) (w : World) (daemonname : String) (id : Identity) :
    Res World :=
  -- create new session and process group
  let w := w.log (.setsid s.setsid)
  if s.setsid = false then .fail (w.close w.pidfile_fd false) else
  let w := w.log (.umask DAEMON_UMASK)
  let w := w.log (.openlog daemonname)
  -- drop group privileges
  let w := w.log (.setresgid id.gid id.gid id.gid s.setresgid)
  if s.setresgid = false then .fail (w.close w.pidfile_fd false) else
  let w := w.setEgid id.gid
  -- drop user privileges
  let w := w.log (.setresuid id.uid id.uid id.uid s.setresuid)
  if s.setresuid = false then .fail (w.close w.pidfile_fd false) else
  .next (w.setEuid id.uid)

/-- One of the two `dup (0)` calls. -/
def dup0 (w : World) (ok : Bool) : Int × World :=
  let r := if (w.fds 0).isSome then w.allocate ok ((w.fds 0).getD .other)
    else ((-1 : Int), w)
  (r.1, r.2.log (.dup 0 r.1))

/-- The failure exit of a redirection: `if (fd) close (fd); close (pidfile_fd);`. -/
def redirect_failed (w : World) (fd : Int) : World :=
  let w := if fd ≠ 0 then w.close fd false else w
  w.close w.pidfile_fd false

/-- The call `open ("/dev/null", O_RDWR)`. -/
def open_null (s : Sys) (w : World) : Int × World :=
  let r := w.allocate s.open_null .devnull
  (r.1, r.2.log (.openNull r.1))

/-- Lines 336-380: the descriptor closing loop and the redirection of the
descriptors 0, 1 and 2 to `/dev/null`. -/
def redirect_streams (s : Sys) (w : World) : Res World :=
  -- close open file descriptors, then stdin
  match open_null s w.closeLoop with
  | (fd, w) =>
    if fd ≠ 0 then .fail (redirect_failed w fd) else
    -- stdout
    match dup0 w s.dup_stdout with
    | (fd, w) =>
      if fd ≠ 1 then .fail (redirect_failed w fd) else
      -- stderror
      match dup0 w s.dup_stderr with
      | (fd, w) =>
        if fd ≠ 2 then .fail (redirect_failed w fd) else .next w

/-- Lines 270-380, the part after a successful exclusive create. -/
def finish (s : Sys) (w : World) (daemonname : String) (id : Identity) : Res World :=
  match lock_and_write s w id with
  | .fail w => .fail w
  | .next w =>
  match detach_and_drop s w daemonname id with
  | .fail w => .fail w
  | .next w => redirect_streams s w

/-- Lines 74-208, the part up to and including the exclusive create. -/
def start (s : Sys) (hook : AtExit) (w : World) (username daemonname : Option String) :
    Res (World × String × Identity) :=
  match resolve_identity s w username daemonname with
  | .fail w => .fail w
  | .next (w, name, id) =>
  match prepare_directory s w name id with
  | .fail w => .fail w
  | .next w =>
  match fork_child s hook w with
  | .fail w => .fail w
  | .next w => .next (create_pidfile s w, name, id)

/-- The function `cobalt_daemon` of src/cobalt-daemon.c.  `hook` is what the
caller registered with `atexit` (run by the `exit` of the parent branch),
`fuel` bounds the nesting of the self call, `depth` is the current nesting
depth.  `none`: the fuel ran out. -/
def cobalt_daemon (env : Env) (hook : AtExit) :
    Nat → Nat → World → Option String → Option String → Option Outcome
  | 0, _, _, _, _ => none
  | fuel + 1, depth, w, username, daemonname =>
    match start (env depth) hook w username daemonname with
    | .fail w => some (.ret (-1) w)
    | .next (w, name, id) =>
      if w.pidfile_fd = -1 then
        match inspect_existing (env depth) w with
        | .fail w => some (.ret (-1) w)
        | .undef w => some (.undef w)
        | .again w => cobalt_daemon env hook fuel (depth + 1) w username daemonname
      else
        match finish (env depth) w name id with
        | .fail w => some (.ret (-1) w)
        | .next w => some (.ret 0 w)

/-- The `main` of the example program (src/example.c) from the call of
`cobalt_daemon` on, `daemonname` being the value of `basename (argv0_dup)`:
`clean_up` is registered with `atexit`, the process leaves through
`exit (EXIT_FAILURE)` when `cobalt_daemon` fails and through the return of
`EXIT_SUCCESS` otherwise; either way `clean_up` runs.  The result is the exit
status and the final state. -/
def main (env : Env) (unlink_ok : Bool) (fuel : Nat) (w : World) (daemonname : String) :
    Option Outcome :=
  match cobalt_daemon env (.clean_up unlink_ok) fuel 0 w (some DAEMON_USERNAME) (some daemonname) with
  | none => none
  | some (.undef w) => some (.undef w)
  | some (.ret code w) =>
    if code ≠ 0 then some (.ret 1 (clean_up unlink_ok (w.log (.procExit 1))))
    else some (.ret 0 (clean_up unlink_ok (w.log (.procExit 0))))

/-! ## Definitions used to state the properties -/

/-- Value of a run of digit bytes read after the value `a`. -/
def digits_value (a : Nat) (l : List Nat) : Nat :=
  l.foldl (fun a c => a * 10 + (c - 48)) a

namespace World

/-- The loop of `closeLoop` over an arbitrary list of descriptor numbers. -/
def closeList (l : List Nat) (w : World) : World :=
  l.foldl (fun (w : World) (i : Nat) => if (i : Int) ≠ w.pidfile_fd then w.close i true else w) w

/-- The events of the descriptor closing loop. -/
def loopEvents (w : World) : List (Nat × Event) :=
  ((List.range (MAX_OPEN_FDS + 1)).filter (fun i => decide ((i : Int) ≠ w.pidfile_fd))).map
    (fun i => (w.pid, Event.close (i : Int) true))

end World

/-- The part of `cobalt_daemon` a call belongs to: 1 the identity lookup,
2 the pid directory, 3 the fork (with the exit of the parent), 4 the PID file,
5 the detachment (`setsid`, `umask`, `openlog`), 6 the privilege drop, 7 the
descriptor loop and the redirections; 0 for a `close` outside the loop, which
occurs on the failure exits of several parts. -/
def Event.phase : Event → Nat
  | .geteuid => 1
  | .sysconf => 1
  | .malloc _ _ => 1
  | .getpwnam_r _ _ => 1
  | .stat _ _ => 2
  | .mkdir _ _ => 2
  | .chown _ _ _ _ => 2
  | .chdir _ _ => 2
  | .fork _ => 3
  | .procExit _ => 3
  | .closelog => 3
  | .openExcl _ _ => 4
  | .openRdonly _ _ => 4
  | .read _ _ => 4
  | .kill _ _ _ => 4
  | .unlink _ _ => 4
  | .fchown _ _ _ _ => 4
  | .setlk _ _ => 4
  | .ftruncate _ _ => 4
  | .getpid => 4
  | .write _ _ _ => 4
  | .setsid _ => 5
  | .umask _ => 5
  | .openlog _ => 5
  | .setresgid _ _ _ _ => 6
  | .setresuid _ _ _ _ => 6
  | .close _ true => 7
  | .close _ false => 0
  | .openNull _ => 7
  | .dup _ _ => 7

/-- The account lookup found an account other than root. -/
def Event.isResolved : Event → Bool
  | .getpwnam_r _ (.found uid _) => decide (1 ≤ uid)
  | _ => false

/-- A successful `chown` of the pid directory. -/
def Event.isChownOk : Event → Bool
  | .chown _ _ _ ok => ok
  | _ => false

/-- The call `fork`, in whichever process it returns. -/
def Event.isFork : Event → Bool
  | .fork _ => true
  | _ => false

/-- The return of `fork` in the child. -/
def Event.isForkChild : Event → Bool
  | .fork r => decide (r = 0)
  | _ => false

/-- A call that creates, opens, locks, truncates or writes the PID file. -/
def Event.isPidFileCall : Event → Bool
  | .openExcl _ _ => true
  | .openRdonly _ _ => true
  | .read _ _ => true
  | .fchown _ _ _ _ => true
  | .setlk _ _ => true
  | .ftruncate _ _ => true
  | .write _ _ _ => true
  | _ => false

/-- A successful exclusive lock of the PID file. -/
def Event.isLockOk : Event → Bool
  | .setlk _ ok => ok
  | _ => false

/-- A `write` that stored the whole text. -/
def Event.isWriteDone : Event → Bool
  | .write _ bytes ret => decide (ret = (bytes.length : Int))
  | _ => false

def Event.isSetsid : Event → Bool
  | .setsid _ => true
  | _ => false

def Event.isSetsidOk : Event → Bool
  | .setsid ok => ok
  | _ => false

def Event.isOpenlog : Event → Bool
  | .openlog _ => true
  | _ => false

/-- A privilege-drop call: `setresgid` or `setresuid`. -/
def Event.isPrivDrop : Event → Bool
  | .setresgid _ _ _ _ => true
  | .setresuid _ _ _ _ => true
  | _ => false

def Event.isSetresgidOk : Event → Bool
  | .setresgid _ _ _ ok => ok
  | _ => false

def Event.isSetresuid : Event → Bool
  | .setresuid _ _ _ _ => true
  | _ => false

def Event.isSetresuidOk : Event → Bool
  | .setresuid _ _ _ ok => ok
  | _ => false

/-- A `close` made by the descriptor closing loop. -/
def Event.isLoopClose : Event → Bool
  | .close _ true => true
  | _ => false

/-- A call that changes the filesystem, the working directory or the set of
processes: `mkdir`, `chown`, `chdir`, `fork`, a file create or open, `unlink`,
`fchown`, `ftruncate`, `write`. -/
def Event.mutates : Event → Bool
  | .mkdir _ _ => true
  | .chown _ _ _ _ => true
  | .chdir _ _ => true
  | .fork _ => true
  | .openExcl _ _ => true
  | .openRdonly _ _ => true
  | .openNull _ => true
  | .unlink _ _ => true
  | .fchown _ _ _ _ => true
  | .setlk _ _ => true
  | .ftruncate _ _ => true
  | .write _ _ _ => true
  | _ => false

/-- Every call of the trace `t` that satisfies `q` comes after a call of `t`
that satisfies `p`. -/
def Precedes (p q : Event → Bool) (t : List (Nat × Event)) : Prop :=
  ∀ a e b, t = a ++ e :: b → q e.2 = true → ∃ x ∈ a, p x.2 = true

/-- The scan that decides `Precedes`: `seen` tells whether a call satisfying
`p` was met already. -/
def precedesB (p q : Event → Bool) : Bool → List (Nat × Event) → Bool
  | _, [] => true
  | seen, e :: t => (!(q e.2) || seen) && precedesB p q (seen || p e.2) t

/-- Whether the trace holds a call satisfying `p`. -/
def seenB (p : Event → Bool) (t : List (Nat × Event)) : Bool := t.any (fun e => p e.2)

/-- The trace `u` continues the trace `t` with calls of the class `K` only. -/
def TraceExt (K : Event → Bool) (t u : List (Nat × Event)) : Prop :=
  ∃ evs, u = t ++ evs ∧ ∀ e ∈ evs, K e.2 = true

/-- The state `w2` differs from `w` in the trace only. -/
def Frame (w w2 : World) : Prop :=
  w2.pid = w.pid ∧ w2.euid = w.euid ∧ w2.egid = w.egid ∧ w2.fds = w.fds ∧
  w2.nofile = w.nofile ∧ w2.pidfile_fd = w.pidfile_fd ∧ w2.pidfile_name = w.pidfile_name ∧
  w2.fs = w.fs

/-- The state `w2` differs from `w` at most in the trace and in `pidfile_name`. -/
def FrameName (w w2 : World) : Prop :=
  w2.pid = w.pid ∧ w2.euid = w.euid ∧ w2.egid = w.egid ∧ w2.fds = w.fds ∧
  w2.nofile = w.nofile ∧ w2.pidfile_fd = w.pidfile_fd ∧ w2.fs = w.fs

/-- A property of the result of a segment: `P` of the state of a failure
return, `Q` of what is handed to the next segment. -/
def Res.All {α : Type} (P : World → Prop) (Q : α → Prop) : Res α → Prop
  | .fail w => P w
  | .next a => Q a

/-- Calls of the identity lookup. -/
def Event.isLookup (e : Event) : Bool := e.phase == 1

/-- Calls on the pid directory. -/
def Event.isDirCall (e : Event) : Bool := e.phase == 2

/-- Calls of the fork step, the exit of the parent included. -/
def Event.isForkStep (e : Event) : Bool := e.phase == 3 || e.phase == 0

/-- Calls on the PID file, the `close` of a failure exit included. -/
def Event.isPidFileStep (e : Event) : Bool := e.phase == 4 || e.phase == 0

/-- A property of the result of the inspection of an existing PID file. -/
def Inspect.All (P U A : World → Prop) : Inspect → Prop
  | .fail w => P w
  | .undef w => U w
  | .again w => A w

/-- Calls of the detachment and of the privilege drop, the `close` of a
failure exit included. -/
def Event.isDetachStep (e : Event) : Bool := e.phase == 5 || e.phase == 6 || e.phase == 0

/-- Calls of the descriptor loop and of the redirections, the `close` of a
failure exit included. -/
def Event.isRedirectStep (e : Event) : Bool := e.phase == 7 || e.phase == 0

/-- What a descriptor-allocating call does to the state: it records the call
`ev fd`, and either fails (`fd = -1`) or stores `o` in the lowest free slot. -/
def Allocated (w : World) (ev : Int → Event) (o : Obj) (r : Int × World) : Prop :=
  r.2.pid = w.pid ∧ r.2.euid = w.euid ∧ r.2.egid = w.egid ∧ r.2.nofile = w.nofile ∧
  r.2.pidfile_name = w.pidfile_name ∧ r.2.pidfile_fd = w.pidfile_fd ∧ r.2.fs = w.fs ∧
  r.2.trace = w.trace ++ [(w.pid, ev r.1)] ∧
  ((r.1 = -1 ∧ r.2.fds = w.fds) ∨
    ∃ k : Nat, r.1 = (k : Int) ∧ w.lowestFree = some k ∧
      ∀ n, r.2.fds n = if n = k then some o else w.fds n)

/-- Every call of an activation is answered with success, nobody else touches
the PID path, and `write` stores all it is given. -/
structure Sys.Succeeds (s : Sys) : Prop where
  malloc : ∀ n, s.malloc n = true
  stat : s.stat = true
  mkdir : s.mkdir = true
  chown : s.chown = true
  chdir : s.chdir = true
  racer : s.racer = none
  creat : s.creat = true
  open_rdonly : s.open_rdonly = true
  read : s.read = true
  unlink : s.unlink = true
  fchown : s.fchown = true
  setlk : s.setlk = true
  ftruncate : s.ftruncate = true
  write : ∀ n, s.write n = (n : Int)
  setsid : s.setsid = true
  setresgid : s.setresgid = true
  setresuid : s.setresuid = true
  open_null : s.open_null = true
  dup_stdout : s.dup_stdout = true
  dup_stderr : s.dup_stderr = true

/-- The pid that the inspection branch probes: what the first bytes of the
file parse to. -/
def probed_pid (s : Sys) (content : List Nat) : Option Int :=
  parse_pid s.stack (content.take PID_BUF_SIZE)

/-- The order kept by every run of `cobalt_daemon`, as scans of the trace. -/
structure Ordered (t : List (Nat × Event)) : Prop where
  dir : precedesB Event.isResolved Event.isDirCall false t = true
  fork : precedesB Event.isChownOk Event.isFork false t = true
  pidfile : precedesB Event.isForkChild Event.isPidFileCall false t = true
  setsid_write : precedesB Event.isWriteDone Event.isSetsid false t = true
  setsid_lock : precedesB Event.isLockOk Event.isSetsid false t = true
  drop : precedesB Event.isSetsidOk Event.isPrivDrop false t = true
  uid : precedesB Event.isSetresgidOk Event.isSetresuid false t = true
  loop_log : precedesB Event.isOpenlog Event.isLoopClose false t = true
  loop_gid : precedesB Event.isSetresgidOk Event.isLoopClose false t = true
  loop_uid : precedesB Event.isSetresuidOk Event.isLoopClose false t = true

/-- The state in which an activation ended. -/
def Outcome.world : Outcome → World
  | .ret _ w => w
  | .undef w => w

/-- The value an activation returned, if it returned. -/
def Outcome.code : Outcome → Option Int
  | .ret c _ => some c
  | .undef _ => none

/-- The trace `u` continues the trace `t` with calls made by the process
`pid` only. -/
def TraceBy (pid : Nat) (t u : List (Nat × Event)) : Prop :=
  ∃ evs, u = t ++ evs ∧ ∀ e ∈ evs, e.1 = pid

/-- The successful `unlink` of a stale PID file, after which the function
calls itself and starts over. -/
def Event.isReclaim : Event → Bool
  | .unlink _ ok => ok
  | _ => false

/-- The phase reached after the calls `t`, `k` being the phase reached before
them: a `close` of a failure exit (phase 0) keeps it, the reclaim of a stale
file sets it back to 0, any other call sets it to its own phase. -/
def phaseAfter : Nat → List (Nat × Event) → Nat
  | k, [] => k
  | k, e :: t =>
    phaseAfter (if e.2.phase = 0 then k else if e.2.isReclaim then 0 else e.2.phase) t

/-- Whether the calls `t` come in the order of the phases, `k` being the
phase reached before them: no call belongs to a phase before the one reached. -/
def phasesInOrder : Nat → List (Nat × Event) → Bool
  | _, [] => true
  | k, e :: t =>
    (e.2.phase == 0 || decide (k ≤ e.2.phase)) &&
      phasesInOrder (if e.2.phase = 0 then k else if e.2.isReclaim then 0 else e.2.phase) t

/-- The trace `u` continues the trace `t` with calls that are in the order of
the phases from phase `k` on and end in phase `j` at most. -/
def ScanExt (k j : Nat) (t u : List (Nat × Event)) : Prop :=
  ∃ evs, u = t ++ evs ∧ phasesInOrder k evs = true ∧ phaseAfter k evs ≤ j

/-- The account database of the examples: `nobody` is 65534:65534 and `root`
is 0:0. -/
def passwd (name : String) (_size : Nat) : PwResult :=
  if name = "nobody" then .found 65534 65534
  else if name = "root" then .found 0 0
  else .notFound

/-- An activation in which every call succeeds, `fork` hands out the pid
`child`, and every probed pid is answered with `ESRCH`. -/
def sysOk (child : Nat) : Sys where
  sysconf := 1024
  malloc := fun _ => true
  getpwnam_r := passwd
  stat := true
  mkdir := true
  chown := true
  chdir := true
  fork := some child
  racer := none
  creat := true
  open_rdonly := true
  read := true
  stack := []
  probe := fun _ => .esrch
  unlink := true
  fchown := true
  setlk := true
  ftruncate := true
  write := fun n => (n : Int)
  setsid := true
  setresgid := true
  setresuid := true
  open_null := true
  dup_stdout := true
  dup_stderr := true

/-- The environment of the examples: the activation at depth `j` forks the
child `4821 + j`. -/
def envOk : Env := fun j => sysOk (4821 + j)

/-- As `envOk`, but every probed pid is alive. -/
def envAlive : Env := fun j => { sysOk (4821 + j) with probe := fun _ => .ok }

/-- As `envOk`, but `fchown` fails. -/
def envNoFchown : Env := fun j => { sysOk (4821 + j) with fchown := false }

/-- As `envOk`, but `pid_buf` holds the bytes `0, '7', 0` from an earlier use
of the stack. -/
def envStack : Env := fun j => { sysOk (4821 + j) with stack := [0, 55, 0] }

/-- A root process, pid 100, with the descriptors 0, 1 and 2 open and no
file at all. -/
def rootProcess : World where
  pid := 100
  euid := 0
  egid := 0
  fds := fun n => if n < 3 then some .other else none
  nofile := 128
  pidfile_fd := 0
  pidfile_name := ""
  fs := fun _ => none
  trace := []

/-- The PID path of the examples. -/
def examplePath : String := "/var/run/exampled.pid"

/-- The root process started with descriptor 0 closed. -/
def noStdin : World :=
  { rootProcess with fds := fun n => if n = 1 ∨ n = 2 then some .other else none }

/-- The root process with descriptor 100 open as well. -/
def extraDescriptor : World :=
  { rootProcess with fds := fun n => if n < 3 ∨ n = 100 then some .other else none }

/-- The root process next to a PID file with the given content. -/
def withPidFile (w : World) (content : List Nat) : World :=
  { w with fs := fun p => if p = examplePath then some content else none }

/-- A process of the user 1000. -/
def userProcess : World := { rootProcess with euid := 1000, egid := 1000 }

/-- The run of the examples: `cobalt_daemon ("nobody", "exampled")`. -/
def exampleRun (env : Env) (hook : AtExit) (fuel : Nat) (w : World) : Option Outcome :=
  cobalt_daemon env hook fuel 0 w (some "nobody") (some "exampled")

/-- As `envOk`, but the lock is refused. -/
def envNoLock : Env := fun j => { sysOk (4821 + j) with setlk := false }

/-! # Theorems -/

/-! ## Lemmas on the pid text -/

theorem strtoull_digits_append (l : List Nat) (t : Nat) (rest : List Nat) (a : Nat)
    (hl : ∀ c ∈ l, isdigit c = true) (ht : isdigit t = false) :
    strtoull_digits (l ++ t :: rest) a = some (digits_value a l) := by
  induction l generalizing a with
  | nil => simp [strtoull_digits, ht, digits_value]
  | cons c cs ih =>
    have hc : isdigit c = true := hl c (List.mem_cons_self _ _)
    have hcs : ∀ x ∈ cs, isdigit x = true := fun x hx => hl x (List.mem_cons_of_mem _ hx)
    have := ih (a * 10 + (c - 48)) hcs
    simpa [strtoull_digits, hc, digits_value] using this

theorem decimal_digits_value (fuel n : Nat) (acc : List Nat) (h : n ≤ fuel) :
    digits_value 0 (decimal_digits fuel n acc) = digits_value n acc := by
  induction fuel generalizing n acc with
  | zero =>
    have : n = 0 := by omega
    simp [decimal_digits, this]
  | succ fuel ih =>
    unfold decimal_digits
    split
    · simp [digits_value]
    · rw [ih (n / 10) _ (by omega)]
      have : n / 10 * 10 + n % 10 = n := by omega
      simp [digits_value, this]

theorem decimal_digits_isdigit (fuel n : Nat) (acc : List Nat)
    (h : ∀ c ∈ acc, isdigit c = true) : ∀ c ∈ decimal_digits fuel n acc, isdigit c = true := by
  induction fuel generalizing n acc with
  | zero => simpa [decimal_digits] using h
  | succ fuel ih =>
    unfold decimal_digits
    split
    · intro c hc
      rcases List.mem_cons.1 hc with rfl | hc
      · simp [isdigit]; omega
      · exact h c hc
    · apply ih
      intro c hc
      rcases List.mem_cons.1 hc with rfl | hc
      · simp [isdigit]; omega
      · exact h c hc

theorem decimal_digits_length (fuel n k : Nat) (acc : List Nat) (hk : 1 ≤ k) (h : n < 10 ^ k) :
    (decimal_digits fuel n acc).length ≤ acc.length + k := by
  induction fuel generalizing n acc k with
  | zero => simp [decimal_digits]
  | succ fuel ih =>
    unfold decimal_digits
    split
    · simp; omega
    · rename_i h10
      have hk2 : 2 ≤ k := by
        by_contra hlt
        have : k = 1 := by omega
        subst this
        simp at h
        omega
      have hdiv : n / 10 < 10 ^ (k - 1) := by
        have : 10 ^ k = 10 ^ (k - 1) * 10 := by
          rw [← pow_succ]; congr 1; omega
        rw [this] at h
        exact Nat.div_lt_of_lt_mul (by rwa [Nat.mul_comm] at h)
      have := ih (n / 10) (k - 1) ((48 + n % 10) :: acc) (by omega) hdiv
      simp at this
      omega

theorem decimal_digits_length_ge (fuel n : Nat) (acc : List Nat) :
    acc.length ≤ (decimal_digits fuel n acc).length := by
  induction fuel generalizing n acc with
  | zero => simp [decimal_digits]
  | succ fuel ih =>
    unfold decimal_digits
    split
    · simp
    · have := ih (n / 10) ((48 + n % 10) :: acc)
      simp at this
      omega

theorem decimal_head (p : Nat) : ∃ d ds, decimal p = d :: ds ∧ isdigit d = true := by
  have hd := decimal_digits_isdigit (p + 1) p [] (by simp)
  have hlen : 1 ≤ (decimal p).length := by
    unfold decimal decimal_digits
    split
    · simp
    · have := decimal_digits_length_ge p (p / 10) [48 + p % 10]
      simp at this
      exact this
  change ∀ c ∈ decimal p, isdigit c = true at hd
  cases hp : decimal p with
  | nil => simp [hp] at hlen
  | cons d ds => exact ⟨d, ds, rfl, hd d (by simp [hp])⟩

theorem list_getD_append_length (l : List Nat) (x : Nat) (r : List Nat) (d : Nat) :
    (l ++ x :: r).getD l.length d = x := by
  induction l with
  | nil => rfl
  | cons a l ih => simpa using ih

theorem list_set_append_length (l : List Nat) (x y : Nat) (r : List Nat) :
    (l ++ x :: r).set l.length y = l ++ y :: r := by
  induction l with
  | nil => rfl
  | cons a l ih => simp [ih]

/-- The buffer after reading a text `body ++ [10]` that fits in the buffer and
trimming: the body, the terminator, and a rest. -/
theorem trim_read_into (stack body : List Nat) (h : body.length + 1 ≤ PID_BUF_SIZE) :
    ∃ rest, trim_newline (read_into stack (body ++ [10])) (body ++ [10]).length
      = body ++ 0 :: rest := by
  refine ⟨(stack.drop (body.length + 1)).take (PID_BUF_SIZE - (body.length + 1)), ?_⟩
  have hr : read_into stack (body ++ [10])
      = body ++ 10 :: (stack.drop (body.length + 1)).take (PID_BUF_SIZE - (body.length + 1)) := by
    unfold read_into
    rw [List.take_append_eq_append_take]
    have h1 : (body ++ [10]).length = body.length + 1 := by simp
    rw [h1, List.take_of_length_le (by simp; omega)]
    simp
  rw [hr]
  unfold trim_newline
  have h1 : (body ++ [10]).length - 1 = body.length := by simp
  rw [h1, list_getD_append_length, if_pos rfl, list_set_append_length]

/-- Parsing a digit string that is followed by the terminator. -/
theorem strtoull_decimal (p : Nat) (rest : List Nat) (hp : p ≤ ULLONG_MAX) :
    strtoull (decimal p ++ 0 :: rest) = some p := by
  obtain ⟨d, ds, hd, hdig⟩ := decimal_head p
  have hall := decimal_digits_isdigit (p + 1) p [] (by simp)
  change ∀ c ∈ decimal p, isdigit c = true at hall
  have hval : digits_value 0 (decimal p) = p := by
    have := decimal_digits_value (p + 1) p [] (by omega)
    simpa [digits_value, decimal] using this
  have hparse := strtoull_digits_append (decimal p) 0 rest 0 hall (by decide)
  have hsp : isspace d = false := by
    simp [isdigit] at hdig
    simp [isspace]; omega
  have h45 : d ≠ 45 := by simp [isdigit] at hdig; omega
  have h43 : d ≠ 43 := by simp [isdigit] at hdig; omega
  unfold strtoull
  rw [hd] at hparse
  rw [hd] at hval
  rw [hd]
  have hparse2 : strtoull_digits (d :: (ds ++ 0 :: rest)) 0 = some p := by
    rw [← hval]; exact hparse
  simp only [List.cons_append, skip_space, hsp, Bool.false_eq_true, if_false, h45, h43]
  show Option.map (strtoull_value false) (strtoull_digits (d :: (ds ++ 0 :: rest)) 0) = some p
  rw [hparse2]
  simp [strtoull_value]
  omega

/-- The text written for a pid of `pid_t` fits in `pid_buf` and reads back as
the same pid, whatever the buffer held before. -/
theorem parse_pid_snprintf_pid (p : Nat) (stack : List Nat) (h : p < 2 ^ 31) :
    (snprintf_pid p).length < PID_BUF_SIZE ∧ parse_pid stack (snprintf_pid p) = some (p : Int) := by
  have hlen : (decimal p).length ≤ 10 := by
    have := decimal_digits_length (p + 1) p 10 [] (by omega) (by omega)
    simpa [decimal] using this
  have hfit : (decimal p).length + 1 < PID_BUF_SIZE := by
    simp only [PID_BUF_SIZE]; omega
  refine ⟨by simpa [snprintf_pid] using hfit, ?_⟩
  obtain ⟨rest, hrest⟩ := trim_read_into stack (decimal p) (Nat.le_of_lt hfit)
  unfold parse_pid snprintf_pid
  rw [hrest, strtoull_decimal p rest (by simp only [ULLONG_MAX]; omega)]
  simp only [Option.map_some', to_pid_t]
  have h32 : p % 2 ^ 32 = p := Nat.mod_eq_of_lt (by omega)
  rw [h32, if_pos h]

theorem strtoull_digits_extend (l rest : List Nat) (acc v : Nat)
    (h : strtoull_digits l acc = some v) : strtoull_digits (l ++ rest) acc = some v := by
  induction l generalizing acc with
  | nil => simp [strtoull_digits] at h
  | cons c cs ih =>
    simp only [List.cons_append, strtoull_digits] at h ⊢
    split
    · rename_i hc
      rw [if_pos hc] at h
      exact ih _ h
    · rename_i hc
      rw [if_neg hc] at h
      exact h

theorem skip_space_extend (l rest : List Nat) (c : Nat) (cs : List Nat)
    (h : skip_space l = c :: cs) : skip_space (l ++ rest) = c :: (cs ++ rest) := by
  induction l with
  | nil => simp [skip_space] at h
  | cons x xs ih =>
    simp only [List.cons_append, skip_space] at h ⊢
    split
    · rename_i hx
      rw [if_pos hx] at h
      exact ih h
    · rename_i hx
      rw [if_neg hx] at h
      obtain ⟨rfl, rfl⟩ := List.cons.inj h
      rfl

/-- A parse of `strtoull` that ended within the bytes `l` is the same with
more bytes behind them. -/
theorem strtoull_extend (l rest : List Nat) (v : Nat) (h : strtoull l = some v) :
    strtoull (l ++ rest) = some v := by
  unfold strtoull at h
  cases hl : skip_space l with
  | nil => rw [hl] at h; cases h
  | cons c cs =>
    rw [hl] at h
    unfold strtoull
    rw [skip_space_extend l rest c cs hl]
    simp only at h ⊢
    split
    · rename_i h45
      rw [if_pos h45] at h
      cases hd : strtoull_digits cs 0 with
      | none => rw [hd] at h; cases h
      | some a => rw [hd] at h; rw [strtoull_digits_extend cs rest 0 a hd]; exact h
    · rename_i h45
      rw [if_neg h45] at h
      split
      · rename_i h43
        rw [if_pos h43] at h
        cases hd : strtoull_digits cs 0 with
        | none => rw [hd] at h; cases h
        | some a => rw [hd] at h; rw [strtoull_digits_extend cs rest 0 a hd]; exact h
      · rename_i h43
        rw [if_neg h43] at h
        cases hd : strtoull_digits (c :: cs) 0 with
        | none => rw [hd] at h; cases h
        | some a =>
          rw [hd] at h
          have := strtoull_digits_extend (c :: cs) rest 0 a hd
          simp only [List.cons_append] at this
          rw [this]; exact h

theorem list_getD_append_left (l r : List Nat) (i d : Nat) (h : i < l.length) :
    (l ++ r).getD i d = l.getD i d := by
  simp [List.getD, List.getElem?_append_left h]

theorem list_set_append_left (l r : List Nat) (i x : Nat) (h : i < l.length) :
    (l ++ r).set i x = l.set i x ++ r := by
  induction l generalizing i with
  | nil => simp at h
  | cons a l ih =>
    cases i with
    | zero => rfl
    | succ i =>
      simp only [List.cons_append, List.set_cons_succ, List.cons.injEq, true_and]
      exact ih i (by simpa using h)

/-- The buffer after `read` stored the bytes `data` and the trim: the bytes
read, trimmed, and behind them what the buffer held before. -/
theorem trim_read_into_data (stack data : List Nat) (hne : data ≠ [])
    (hfit : data.length ≤ PID_BUF_SIZE) :
    ∃ rest, trim_newline (read_into stack data) data.length
      = trim_newline data data.length ++ rest := by
  refine ⟨(stack.drop data.length).take (PID_BUF_SIZE - data.length), ?_⟩
  have hpos : 0 < data.length := List.length_pos.2 hne
  have hr : read_into stack data
      = data ++ (stack.drop data.length).take (PID_BUF_SIZE - data.length) := by
    unfold read_into
    rw [List.take_append_eq_append_take, List.take_of_length_le hfit]
  rw [hr]
  unfold trim_newline
  rw [list_getD_append_left _ _ _ _ (by omega)]
  split
  · exact list_set_append_left _ _ _ _ (by omega)
  · rfl

/-- The existing-file routine on bytes within which the parse of `strtoull`
ends: what the buffer held before does not matter. -/
theorem parse_pid_of_scan (stack data : List Nat) (v : Nat) (hne : data ≠ [])
    (hfit : data.length ≤ PID_BUF_SIZE)
    (h : strtoull (trim_newline data data.length) = some v) :
    parse_pid stack data = some (to_pid_t v) := by
  obtain ⟨rest, hrest⟩ := trim_read_into_data stack data hne hfit
  unfold parse_pid
  rw [hrest, strtoull_extend _ rest v h]
  rfl

/-! ## Lemmas on the state operations -/

namespace World

@[simp] theorem log_trace (w : World) (e : Event) : (w.log e).trace = w.trace ++ [(w.pid, e)] := rfl
@[simp] theorem log_pid (w : World) (e : Event) : (w.log e).pid = w.pid := rfl
@[simp] theorem log_euid (w : World) (e : Event) : (w.log e).euid = w.euid := rfl
@[simp] theorem log_egid (w : World) (e : Event) : (w.log e).egid = w.egid := rfl
@[simp] theorem log_fds (w : World) (e : Event) : (w.log e).fds = w.fds := rfl
@[simp] theorem log_nofile (w : World) (e : Event) : (w.log e).nofile = w.nofile := rfl
@[simp] theorem log_pidfile_fd (w : World) (e : Event) : (w.log e).pidfile_fd = w.pidfile_fd := rfl
@[simp] theorem log_pidfile_name (w : World) (e : Event) :
    (w.log e).pidfile_name = w.pidfile_name := rfl
@[simp] theorem log_fs (w : World) (e : Event) : (w.log e).fs = w.fs := rfl

@[simp] theorem setFd_trace (w : World) (fd : Int) :
    (w.setFd fd).trace = w.trace := rfl
@[simp] theorem setFd_pid (w : World) (fd : Int) :
    (w.setFd fd).pid = w.pid := rfl
@[simp] theorem setFd_euid (w : World) (fd : Int) :
    (w.setFd fd).euid = w.euid := rfl
@[simp] theorem setFd_egid (w : World) (fd : Int) :
    (w.setFd fd).egid = w.egid := rfl
@[simp] theorem setFd_fds (w : World) (fd : Int) :
    (w.setFd fd).fds = w.fds := rfl
@[simp] theorem setFd_nofile (w : World) (fd : Int) :
    (w.setFd fd).nofile = w.nofile := rfl
@[simp] theorem setFd_pidfile_fd (w : World) (fd : Int) :
    (w.setFd fd).pidfile_fd = fd := rfl
@[simp] theorem setFd_pidfile_name (w : World) (fd : Int) :
    (w.setFd fd).pidfile_name = w.pidfile_name := rfl
@[simp] theorem setFd_fs (w : World) (fd : Int) :
    (w.setFd fd).fs = w.fs := rfl
@[simp] theorem setName_trace (w : World) (name : String) :
    (w.setName name).trace = w.trace := rfl
@[simp] theorem setName_pid (w : World) (name : String) :
    (w.setName name).pid = w.pid := rfl
@[simp] theorem setName_euid (w : World) (name : String) :
    (w.setName name).euid = w.euid := rfl
@[simp] theorem setName_egid (w : World) (name : String) :
    (w.setName name).egid = w.egid := rfl
@[simp] theorem setName_fds (w : World) (name : String) :
    (w.setName name).fds = w.fds := rfl
@[simp] theorem setName_nofile (w : World) (name : String) :
    (w.setName name).nofile = w.nofile := rfl
@[simp] theorem setName_pidfile_fd (w : World) (name : String) :
    (w.setName name).pidfile_fd = w.pidfile_fd := rfl
@[simp] theorem setName_pidfile_name (w : World) (name : String) :
    (w.setName name).pidfile_name = name := rfl
@[simp] theorem setName_fs (w : World) (name : String) :
    (w.setName name).fs = w.fs := rfl
@[simp] theorem setEuid_trace (w : World) (uid : Nat) :
    (w.setEuid uid).trace = w.trace := rfl
@[simp] theorem setEuid_pid (w : World) (uid : Nat) :
    (w.setEuid uid).pid = w.pid := rfl
@[simp] theorem setEuid_euid (w : World) (uid : Nat) :
    (w.setEuid uid).euid = uid := rfl
@[simp] theorem setEuid_egid (w : World) (uid : Nat) :
    (w.setEuid uid).egid = w.egid := rfl
@[simp] theorem setEuid_fds (w : World) (uid : Nat) :
    (w.setEuid uid).fds = w.fds := rfl
@[simp] theorem setEuid_nofile (w : World) (uid : Nat) :
    (w.setEuid uid).nofile = w.nofile := rfl
@[simp] theorem setEuid_pidfile_fd (w : World) (uid : Nat) :
    (w.setEuid uid).pidfile_fd = w.pidfile_fd := rfl
@[simp] theorem setEuid_pidfile_name (w : World) (uid : Nat) :
    (w.setEuid uid).pidfile_name = w.pidfile_name := rfl
@[simp] theorem setEuid_fs (w : World) (uid : Nat) :
    (w.setEuid uid).fs = w.fs := rfl
@[simp] theorem setEgid_trace (w : World) (gid : Nat) :
    (w.setEgid gid).trace = w.trace := rfl
@[simp] theorem setEgid_pid (w : World) (gid : Nat) :
    (w.setEgid gid).pid = w.pid := rfl
@[simp] theorem setEgid_euid (w : World) (gid : Nat) :
    (w.setEgid gid).euid = w.euid := rfl
@[simp] theorem setEgid_egid (w : World) (gid : Nat) :
    (w.setEgid gid).egid = gid := rfl
@[simp] theorem setEgid_fds (w : World) (gid : Nat) :
    (w.setEgid gid).fds = w.fds := rfl
@[simp] theorem setEgid_nofile (w : World) (gid : Nat) :
    (w.setEgid gid).nofile = w.nofile := rfl
@[simp] theorem setEgid_pidfile_fd (w : World) (gid : Nat) :
    (w.setEgid gid).pidfile_fd = w.pidfile_fd := rfl
@[simp] theorem setEgid_pidfile_name (w : World) (gid : Nat) :
    (w.setEgid gid).pidfile_name = w.pidfile_name := rfl
@[simp] theorem setEgid_fs (w : World) (gid : Nat) :
    (w.setEgid gid).fs = w.fs := rfl
@[simp] theorem asChild_trace (w : World) (c : Nat) (parent : World) :
    (w.asChild c parent).trace = parent.trace := rfl
@[simp] theorem asChild_pid (w : World) (c : Nat) (parent : World) :
    (w.asChild c parent).pid = c := rfl
@[simp] theorem asChild_euid (w : World) (c : Nat) (parent : World) :
    (w.asChild c parent).euid = w.euid := rfl
@[simp] theorem asChild_egid (w : World) (c : Nat) (parent : World) :
    (w.asChild c parent).egid = w.egid := rfl
@[simp] theorem asChild_fds (w : World) (c : Nat) (parent : World) :
    (w.asChild c parent).fds = w.fds := rfl
@[simp] theorem asChild_nofile (w : World) (c : Nat) (parent : World) :
    (w.asChild c parent).nofile = w.nofile := rfl
@[simp] theorem asChild_pidfile_fd (w : World) (c : Nat) (parent : World) :
    (w.asChild c parent).pidfile_fd = w.pidfile_fd := rfl
@[simp] theorem asChild_pidfile_name (w : World) (c : Nat) (parent : World) :
    (w.asChild c parent).pidfile_name = w.pidfile_name := rfl
@[simp] theorem asChild_fs (w : World) (c : Nat) (parent : World) :
    (w.asChild c parent).fs = parent.fs := rfl

@[simp] theorem install_trace (w : World) (k : Nat) (o : Option Obj) :
    (w.install k o).trace = w.trace := rfl
@[simp] theorem install_pid (w : World) (k : Nat) (o : Option Obj) :
    (w.install k o).pid = w.pid := rfl
@[simp] theorem install_euid (w : World) (k : Nat) (o : Option Obj) :
    (w.install k o).euid = w.euid := rfl
@[simp] theorem install_egid (w : World) (k : Nat) (o : Option Obj) :
    (w.install k o).egid = w.egid := rfl
@[simp] theorem install_fds (w : World) (k : Nat) (o : Option Obj) (n : Nat) :
    (w.install k o).fds n = if n = k then o else w.fds n := rfl
@[simp] theorem install_nofile (w : World) (k : Nat) (o : Option Obj) :
    (w.install k o).nofile = w.nofile := rfl
@[simp] theorem install_pidfile_fd (w : World) (k : Nat) (o : Option Obj) :
    (w.install k o).pidfile_fd = w.pidfile_fd := rfl
@[simp] theorem install_pidfile_name (w : World) (k : Nat) (o : Option Obj) :
    (w.install k o).pidfile_name = w.pidfile_name := rfl
@[simp] theorem install_fs (w : World) (k : Nat) (o : Option Obj) :
    (w.install k o).fs = w.fs := rfl

@[simp] theorem setFile_trace (w : World) (p : String) (c : Option (List Nat)) :
    (w.setFile p c).trace = w.trace := rfl
@[simp] theorem setFile_pid (w : World) (p : String) (c : Option (List Nat)) :
    (w.setFile p c).pid = w.pid := rfl
@[simp] theorem setFile_euid (w : World) (p : String) (c : Option (List Nat)) :
    (w.setFile p c).euid = w.euid := rfl
@[simp] theorem setFile_egid (w : World) (p : String) (c : Option (List Nat)) :
    (w.setFile p c).egid = w.egid := rfl
@[simp] theorem setFile_fds (w : World) (p : String) (c : Option (List Nat)) :
    (w.setFile p c).fds = w.fds := rfl
@[simp] theorem setFile_nofile (w : World) (p : String) (c : Option (List Nat)) :
    (w.setFile p c).nofile = w.nofile := rfl
@[simp] theorem setFile_pidfile_fd (w : World) (p : String) (c : Option (List Nat)) :
    (w.setFile p c).pidfile_fd = w.pidfile_fd := rfl
@[simp] theorem setFile_pidfile_name (w : World) (p : String) (c : Option (List Nat)) :
    (w.setFile p c).pidfile_name = w.pidfile_name := rfl
@[simp] theorem setFile_fs (w : World) (p : String) (c : Option (List Nat)) (q : String) :
    (w.setFile p c).fs q = if q = p then c else w.fs q := rfl

@[simp] theorem close_trace (w : World) (fd : Int) (b : Bool) :
    (w.close fd b).trace = w.trace ++ [(w.pid, .close fd b)] := by
  unfold close; split <;> rfl
@[simp] theorem close_pid (w : World) (fd : Int) (b : Bool) : (w.close fd b).pid = w.pid := by
  unfold close; split <;> rfl
@[simp] theorem close_euid (w : World) (fd : Int) (b : Bool) : (w.close fd b).euid = w.euid := by
  unfold close; split <;> rfl
@[simp] theorem close_egid (w : World) (fd : Int) (b : Bool) : (w.close fd b).egid = w.egid := by
  unfold close; split <;> rfl
@[simp] theorem close_nofile (w : World) (fd : Int) (b : Bool) :
    (w.close fd b).nofile = w.nofile := by
  unfold close; split <;> rfl
@[simp] theorem close_pidfile_fd (w : World) (fd : Int) (b : Bool) :
    (w.close fd b).pidfile_fd = w.pidfile_fd := by
  unfold close; split <;> rfl
@[simp] theorem close_pidfile_name (w : World) (fd : Int) (b : Bool) :
    (w.close fd b).pidfile_name = w.pidfile_name := by
  unfold close; split <;> rfl
@[simp] theorem close_fs (w : World) (fd : Int) (b : Bool) : (w.close fd b).fs = w.fs := by
  unfold close; split <;> rfl
theorem close_fds (w : World) (fd : Int) (b : Bool) (n : Nat) :
    (w.close fd b).fds n = if (n : Int) = fd then none else w.fds n := by
  unfold close
  by_cases h : 0 ≤ fd
  · simp only [h, if_true, install_fds, log_fds]
    by_cases hn : (n : Int) = fd
    · have : n = fd.toNat := by omega
      simp [hn, this, h]
    · have : n ≠ fd.toNat := by omega
      simp [hn, this]
  · have : (n : Int) ≠ fd := by omega
    simp [h, this]

@[simp] theorem unlink_fst (w : World) (p : String) (ok : Bool) :
    (w.unlink p ok).1 = (ok && (w.fs p).isSome) := rfl
@[simp] theorem unlink_trace (w : World) (p : String) (ok : Bool) :
    (w.unlink p ok).2.trace = w.trace ++ [(w.pid, .unlink p (ok && (w.fs p).isSome))] := by
  unfold unlink; dsimp only; split <;> rfl
@[simp] theorem unlink_pid (w : World) (p : String) (ok : Bool) :
    (w.unlink p ok).2.pid = w.pid := by
  unfold unlink; dsimp only; split <;> rfl
@[simp] theorem unlink_euid (w : World) (p : String) (ok : Bool) :
    (w.unlink p ok).2.euid = w.euid := by
  unfold unlink; dsimp only; split <;> rfl
@[simp] theorem unlink_egid (w : World) (p : String) (ok : Bool) :
    (w.unlink p ok).2.egid = w.egid := by
  unfold unlink; dsimp only; split <;> rfl
@[simp] theorem unlink_fds (w : World) (p : String) (ok : Bool) :
    (w.unlink p ok).2.fds = w.fds := by
  unfold unlink; dsimp only; split <;> rfl
@[simp] theorem unlink_nofile (w : World) (p : String) (ok : Bool) :
    (w.unlink p ok).2.nofile = w.nofile := by
  unfold unlink; dsimp only; split <;> rfl
@[simp] theorem unlink_pidfile_fd (w : World) (p : String) (ok : Bool) :
    (w.unlink p ok).2.pidfile_fd = w.pidfile_fd := by
  unfold unlink; dsimp only; split <;> rfl
@[simp] theorem unlink_pidfile_name (w : World) (p : String) (ok : Bool) :
    (w.unlink p ok).2.pidfile_name = w.pidfile_name := by
  unfold unlink; dsimp only; split <;> rfl
theorem unlink_fs (w : World) (p : String) (ok : Bool) (q : String) :
    (w.unlink p ok).2.fs q = if q = p ∧ ok = true then none else w.fs q := by
  unfold unlink; dsimp only
  by_cases hq : q = p
  · subst hq
    cases ok <;> cases h : w.fs q <;> simp [h]
  · cases ok <;> cases h : w.fs p <;> simp [h, hq]

end World

/-! ### The lowest free descriptor -/

theorem firstFree_spec (fds : Nat → Option Obj) (n k j : Nat) (h : firstFree fds n k = some j) :
    k ≤ j ∧ j < k + n ∧ fds j = none ∧ ∀ i, k ≤ i → i < j → fds i ≠ none := by
  induction n generalizing k with
  | zero => simp [firstFree] at h
  | succ n ih =>
    unfold firstFree at h
    by_cases hk : (fds k).isNone = true
    · simp only [hk, if_true, Option.some.injEq] at h
      subst h
      refine ⟨le_refl _, by omega, by simpa using hk, ?_⟩
      intro i h1 h2; omega
    · simp only [hk, if_false] at h
      obtain ⟨h1, h2, h3, h4⟩ := ih (k + 1) h
      refine ⟨by omega, by omega, h3, ?_⟩
      intro i hi1 hi2
      by_cases hik : i = k
      · subst hik
        intro hnone
        exact hk (by simp [hnone])
      · exact h4 i (by omega) hi2

theorem firstFree_none (fds : Nat → Option Obj) (n k : Nat) (h : firstFree fds n k = none) :
    ∀ i, k ≤ i → i < k + n → fds i ≠ none := by
  induction n generalizing k with
  | zero => intro i h1 h2; omega
  | succ n ih =>
    unfold firstFree at h
    by_cases hk : (fds k).isNone = true
    · simp [hk] at h
    · simp only [hk, if_false] at h
      intro i h1 h2
      by_cases hik : i = k
      · subst hik
        intro hnone
        exact hk (by simp [hnone])
      · exact ih (k + 1) h i (by omega) (by omega)

/-- The descriptor handed out is the least free one. -/
theorem firstFree_eq_some (fds : Nat → Option Obj) (n j : Nat) (hj : j < n)
    (hfree : fds j = none) (hlow : ∀ i, i < j → fds i ≠ none) : firstFree fds n 0 = some j := by
  cases h : firstFree fds n 0 with
  | none => exact absurd hfree (firstFree_none fds n 0 h j (by omega) (by omega))
  | some k =>
    obtain ⟨_, _, h3, h4⟩ := firstFree_spec fds n 0 k h
    have h1 : ¬ k < j := fun hlt => hlow k hlt h3
    have h2 : ¬ j < k := fun hlt => h4 j (by omega) hlt hfree
    have : k = j := by omega
    rw [this]

namespace World

theorem lowestFree_spec (w : World) (k : Nat) (h : w.lowestFree = some k) :
    k < w.nofile ∧ w.fds k = none ∧ ∀ i, i < k → w.fds i ≠ none := by
  obtain ⟨_, h2, h3, h4⟩ := firstFree_spec w.fds w.nofile 0 k h
  exact ⟨by omega, h3, fun i hi => h4 i (by omega) hi⟩

theorem lowestFree_eq_some (w : World) (j : Nat) (hj : j < w.nofile)
    (hfree : w.fds j = none) (hlow : ∀ i, i < j → w.fds i ≠ none) : w.lowestFree = some j :=
  firstFree_eq_some w.fds w.nofile j hj hfree hlow

/-- The two ways `allocate` can end. -/
theorem allocate_cases (w : World) (ok : Bool) (o : Obj) :
    w.allocate ok o = (-1, w) ∨
      ∃ k, w.lowestFree = some k ∧ w.allocate ok o = ((k : Int), w.install k (some o)) := by
  unfold allocate
  cases ok with
  | false => left; simp
  | true =>
    cases h : w.lowestFree with
    | none => left; simp
    | some k => right; exact ⟨k, rfl, by simp⟩

theorem allocate_ok (w : World) (o : Obj) (k : Nat) (h : w.lowestFree = some k) :
    w.allocate true o = ((k : Int), w.install k (some o)) := by
  unfold allocate; simp [h]

@[simp] theorem allocate_trace (w : World) (ok : Bool) (o : Obj) :
    (w.allocate ok o).2.trace = w.trace := by
  rcases allocate_cases w ok o with h | ⟨k, _, h⟩
  · rw [h]
  · rw [h]; rfl
@[simp] theorem allocate_pid (w : World) (ok : Bool) (o : Obj) :
    (w.allocate ok o).2.pid = w.pid := by
  rcases allocate_cases w ok o with h | ⟨k, _, h⟩
  · rw [h]
  · rw [h]; rfl
@[simp] theorem allocate_euid (w : World) (ok : Bool) (o : Obj) :
    (w.allocate ok o).2.euid = w.euid := by
  rcases allocate_cases w ok o with h | ⟨k, _, h⟩
  · rw [h]
  · rw [h]; rfl
@[simp] theorem allocate_egid (w : World) (ok : Bool) (o : Obj) :
    (w.allocate ok o).2.egid = w.egid := by
  rcases allocate_cases w ok o with h | ⟨k, _, h⟩
  · rw [h]
  · rw [h]; rfl
@[simp] theorem allocate_nofile (w : World) (ok : Bool) (o : Obj) :
    (w.allocate ok o).2.nofile = w.nofile := by
  rcases allocate_cases w ok o with h | ⟨k, _, h⟩
  · rw [h]
  · rw [h]; rfl
@[simp] theorem allocate_pidfile_fd (w : World) (ok : Bool) (o : Obj) :
    (w.allocate ok o).2.pidfile_fd = w.pidfile_fd := by
  rcases allocate_cases w ok o with h | ⟨k, _, h⟩
  · rw [h]
  · rw [h]; rfl
@[simp] theorem allocate_pidfile_name (w : World) (ok : Bool) (o : Obj) :
    (w.allocate ok o).2.pidfile_name = w.pidfile_name := by
  rcases allocate_cases w ok o with h | ⟨k, _, h⟩
  · rw [h]
  · rw [h]; rfl
@[simp] theorem allocate_fs (w : World) (ok : Bool) (o : Obj) :
    (w.allocate ok o).2.fs = w.fs := by
  rcases allocate_cases w ok o with h | ⟨k, _, h⟩
  · rw [h]
  · rw [h]; rfl

/-! ### The descriptor closing loop -/

theorem closeLoop_eq (w : World) : w.closeLoop = closeList (List.range (MAX_OPEN_FDS + 1)) w := rfl

theorem closeList_frame (l : List Nat) (w : World) :
    (closeList l w).pid = w.pid ∧ (closeList l w).euid = w.euid ∧ (closeList l w).egid = w.egid ∧
    (closeList l w).nofile = w.nofile ∧ (closeList l w).pidfile_fd = w.pidfile_fd ∧
    (closeList l w).pidfile_name = w.pidfile_name ∧ (closeList l w).fs = w.fs := by
  induction l generalizing w with
  | nil => simp [closeList]
  | cons a l ih =>
    have h := ih (if (a : Int) ≠ w.pidfile_fd then w.close a true else w)
    simp only [closeList, List.foldl_cons] at h ⊢
    by_cases ha : (a : Int) ≠ w.pidfile_fd
    · rw [if_pos ha] at h ⊢
      simpa using h
    · rw [if_neg ha] at h ⊢
      exact h

theorem closeList_trace (l : List Nat) (w : World) :
    (closeList l w).trace = w.trace ++
      (l.filter (fun i => decide ((i : Int) ≠ w.pidfile_fd))).map
        (fun i => (w.pid, Event.close (i : Int) true)) := by
  induction l generalizing w with
  | nil => simp [closeList]
  | cons a l ih =>
    have h := ih (if (a : Int) ≠ w.pidfile_fd then w.close a true else w)
    simp only [closeList, List.foldl_cons] at h ⊢
    by_cases ha : (a : Int) ≠ w.pidfile_fd
    · rw [if_pos ha] at h ⊢
      rw [h]
      simp [List.filter_cons, ha]
    · rw [if_neg ha] at h ⊢
      rw [h]
      simp [List.filter_cons, ha]

theorem closeList_fds (l : List Nat) (w : World) (n : Nat) :
    (closeList l w).fds n = if n ∈ l ∧ (n : Int) ≠ w.pidfile_fd then none else w.fds n := by
  induction l generalizing w with
  | nil => simp [closeList]
  | cons a l ih =>
    have h := ih (if (a : Int) ≠ w.pidfile_fd then w.close a true else w)
    simp only [closeList, List.foldl_cons] at h ⊢
    by_cases ha : (a : Int) ≠ w.pidfile_fd
    · rw [if_pos ha] at h ⊢
      rw [h]
      simp only [close_pidfile_fd, close_fds, List.mem_cons]
      by_cases hn : (n : Int) = w.pidfile_fd
      · have hna : n ≠ a := by intro h; apply ha; rw [← h]; exact hn
        have hna2 : ¬ (n : Int) = (a : Int) := by omega
        rw [if_neg (fun h => h.2 hn), if_neg hna2, if_neg (fun h => h.2 hn)]
      · by_cases hna : n = a
        · subst hna; simp [hn]
        · have hna2 : (n : Int) ≠ (a : Int) := by omega
          simp [hn, hna, hna2]
    · rw [if_neg ha] at h ⊢
      rw [h]
      simp only [List.mem_cons]
      have ha2 : (a : Int) = w.pidfile_fd := by simpa using ha
      by_cases hn : (n : Int) = w.pidfile_fd
      · simp [hn]
      · have hna : n ≠ a := by intro h; apply hn; rw [h]; exact ha2
        simp [hn, hna]

@[simp] theorem closeLoop_pid (w : World) : w.closeLoop.pid = w.pid :=
  (closeList_frame _ w).1
@[simp] theorem closeLoop_euid (w : World) : w.closeLoop.euid = w.euid :=
  (closeList_frame _ w).2.1
@[simp] theorem closeLoop_egid (w : World) : w.closeLoop.egid = w.egid :=
  (closeList_frame _ w).2.2.1
@[simp] theorem closeLoop_nofile (w : World) : w.closeLoop.nofile = w.nofile :=
  (closeList_frame _ w).2.2.2.1
@[simp] theorem closeLoop_pidfile_fd (w : World) : w.closeLoop.pidfile_fd = w.pidfile_fd :=
  (closeList_frame _ w).2.2.2.2.1
@[simp] theorem closeLoop_pidfile_name (w : World) :
    w.closeLoop.pidfile_name = w.pidfile_name :=
  (closeList_frame _ w).2.2.2.2.2.1
@[simp] theorem closeLoop_fs (w : World) : w.closeLoop.fs = w.fs :=
  (closeList_frame _ w).2.2.2.2.2.2

theorem closeLoop_trace (w : World) : w.closeLoop.trace = w.trace ++ w.loopEvents :=
  closeList_trace _ w

theorem closeLoop_fds (w : World) (n : Nat) :
    w.closeLoop.fds n = if n ≤ MAX_OPEN_FDS ∧ (n : Int) ≠ w.pidfile_fd then none else w.fds n := by
  rw [closeLoop_eq, closeList_fds]
  have : n ∈ List.range (MAX_OPEN_FDS + 1) ↔ n ≤ MAX_OPEN_FDS := by
    simp [List.mem_range]; omega
  simp only [this]

end World

/-! ## Order of the calls in a trace -/

theorem precedesB_sound (p q : Event → Bool) (seen : Bool) (t : List (Nat × Event))
    (h : precedesB p q seen t = true) :
    ∀ a e b, t = a ++ e :: b → q e.2 = true → seen = true ∨ ∃ x ∈ a, p x.2 = true := by
  induction t generalizing seen with
  | nil => intro a e b hab; simp at hab
  | cons x t ih =>
    intro a e b hab hq
    simp only [precedesB, Bool.and_eq_true, Bool.or_eq_true, Bool.not_eq_true'] at h
    cases a with
    | nil =>
      simp only [List.nil_append, List.cons.injEq] at hab
      obtain ⟨rfl, _⟩ := hab
      rcases h.1 with h1 | h1
      · rw [hq] at h1; cases h1
      · exact Or.inl h1
    | cons y a =>
      simp only [List.cons_append, List.cons.injEq] at hab
      obtain ⟨rfl, rfl⟩ := hab
      rcases ih _ h.2 a e b rfl hq with h1 | ⟨z, hz, hp⟩
      · simp only [Bool.or_eq_true] at h1
        rcases h1 with h1 | h1
        · exact Or.inl h1
        · exact Or.inr ⟨x, by simp, h1⟩
      · exact Or.inr ⟨z, by simp [hz], hp⟩

theorem Precedes_of_precedesB (p q : Event → Bool) (t : List (Nat × Event))
    (h : precedesB p q false t = true) : Precedes p q t := by
  intro a e b hab hq
  rcases precedesB_sound p q false t h a e b hab hq with h1 | h1
  · cases h1
  · exact h1

theorem precedesB_append (p q : Event → Bool) (seen : Bool) (t u : List (Nat × Event)) :
    precedesB p q seen (t ++ u) = (precedesB p q seen t && precedesB p q (seen || seenB p t) u) := by
  induction t generalizing seen with
  | nil => simp [precedesB, seenB]
  | cons x t ih =>
    have h := ih (seen || p x.2)
    simp only [seenB] at h
    show ((!(q x.2) || seen) && precedesB p q (seen || p x.2) (t ++ u)) = _
    rw [h]
    simp only [precedesB, seenB, List.any_cons, Bool.and_assoc, Bool.or_assoc]

theorem precedesB_seen (p q : Event → Bool) (t : List (Nat × Event)) :
    precedesB p q true t = true := by
  induction t with
  | nil => rfl
  | cons x t ih => simp [precedesB, ih]

theorem precedesB_no_q (p q : Event → Bool) (seen : Bool) (t : List (Nat × Event))
    (h : ∀ e ∈ t, q e.2 = false) : precedesB p q seen t = true := by
  induction t generalizing seen with
  | nil => rfl
  | cons x t ih =>
    simp only [precedesB, Bool.and_eq_true, Bool.or_eq_true, Bool.not_eq_true']
    exact ⟨Or.inl (h x (by simp)), ih _ (fun e he => h e (by simp [he]))⟩

theorem seenB_append (p : Event → Bool) (t u : List (Nat × Event)) :
    seenB p (t ++ u) = (seenB p t || seenB p u) := by
  simp [seenB]

theorem TraceExt.refl (K : Event → Bool) (t : List (Nat × Event)) : TraceExt K t t :=
  ⟨[], by simp, by simp⟩

theorem TraceExt.append (K : Event → Bool) (t evs : List (Nat × Event))
    (h : ∀ e ∈ evs, K e.2 = true) : TraceExt K t (t ++ evs) :=
  ⟨evs, rfl, h⟩

theorem TraceExt.trans {K : Event → Bool} {t u v : List (Nat × Event)}
    (h1 : TraceExt K t u) (h2 : TraceExt K u v) : TraceExt K t v := by
  obtain ⟨e1, rfl, h1⟩ := h1
  obtain ⟨e2, rfl, h2⟩ := h2
  refine ⟨e1 ++ e2, by simp, ?_⟩
  intro e he
  rcases List.mem_append.1 he with h | h
  · exact h1 e h
  · exact h2 e h

theorem TraceExt.mono {K L : Event → Bool} {t u : List (Nat × Event)}
    (h : TraceExt K t u) (hKL : ∀ e, K e = true → L e = true) : TraceExt L t u := by
  obtain ⟨evs, rfl, h⟩ := h
  exact ⟨evs, rfl, fun e he => hKL _ (h e he)⟩

/-- Calls of a class without `q` calls keep `Precedes p q`. -/
theorem TraceExt.precedesB {K : Event → Bool} {t u : List (Nat × Event)} (p q : Event → Bool)
    (h : TraceExt K t u) (hK : ∀ e, K e = true → q e = false)
    (ht : CobaltDaemon.precedesB p q false t = true) : CobaltDaemon.precedesB p q false u = true := by
  obtain ⟨evs, rfl, h⟩ := h
  rw [precedesB_append, ht, Bool.true_and]
  exact precedesB_no_q p q _ evs (fun e he => hK _ (h e he))

/-- Calls made after a call satisfying `p` keep `Precedes p q`. -/
theorem TraceExt.precedesB_of_seen {K : Event → Bool} {t u : List (Nat × Event)}
    (p q : Event → Bool) (h : TraceExt K t u) (hs : seenB p t = true)
    (ht : CobaltDaemon.precedesB p q false t = true) : CobaltDaemon.precedesB p q false u = true := by
  obtain ⟨evs, rfl, h⟩ := h
  rw [precedesB_append, ht, hs, Bool.true_and, Bool.or_true]
  exact precedesB_seen p q evs

theorem TraceExt.seenB {K : Event → Bool} {t u : List (Nat × Event)} (p : Event → Bool)
    (h : TraceExt K t u) (hs : CobaltDaemon.seenB p t = true) : CobaltDaemon.seenB p u = true := by
  obtain ⟨evs, rfl, h⟩ := h
  rw [seenB_append, hs, Bool.true_or]

theorem traceExt_append_iff (K : Event → Bool) (t evs : List (Nat × Event)) :
    TraceExt K t (t ++ evs) ↔ ∀ e ∈ evs, K e.2 = true := by
  constructor
  · rintro ⟨evs2, h, hK⟩
    rw [List.append_cancel_left h]
    exact hK
  · exact TraceExt.append K t evs

theorem traceExt_self_iff (K : Event → Bool) (t : List (Nat × Event)) :
    TraceExt K t t ↔ True :=
  ⟨fun _ => trivial, fun _ => TraceExt.refl K t⟩

/-! ## The segments of `cobalt_daemon`, one by one -/

theorem Res.All_fail {α : Type} {P : World → Prop} {Q : α → Prop} {r : Res α} {w : World}
    (h : r.All P Q) (hr : r = .fail w) : P w := by
  subst hr; exact h

theorem Res.All_next {α : Type} {P : World → Prop} {Q : α → Prop} {r : Res α} {a : α}
    (h : r.All P Q) (hr : r = .next a) : Q a := by
  subst hr; exact h

theorem resolve_identity_spec (s : Sys) (w : World) (username daemonname : Option String) :
    (resolve_identity s w username daemonname).All
      (fun w2 => Frame w w2 ∧ TraceExt Event.isLookup w.trace w2.trace)
      (fun a => Frame w a.1 ∧ TraceExt Event.isLookup w.trace a.1.trace ∧ w.euid = 0 ∧
        daemonname = some a.2.1 ∧ 1 ≤ a.2.2.uid ∧ seenB Event.isResolved a.1.trace = true ∧
        ∃ user size, username = some user ∧
          s.getpwnam_r user size = .found a.2.2.uid a.2.2.gid) := by
  simp only [resolve_identity]
  repeat' split
  all_goals simp [Res.All, Frame, traceExt_append_iff, traceExt_self_iff, Event.isLookup,
    Event.phase, seenB, Event.isResolved]
  all_goals first
    | done
    | (rename_i hfound huid
       refine ⟨by simp_all, by omega, ?_, _, hfound⟩
       simp [hfound]; omega)

theorem pid_directory_take :
    String.mk (PID_DIRECTORY.toList.take (PATH_MAX - 1)) = "/var/run" := by decide

theorem pid_directory_length : PID_DIRECTORY.length = 8 := by decide

theorem pid_directory_back : ("/var/run" : String).back ≠ DIRECTORY_SEPARATOR := by decide

theorem pid_directory_push : ("/var/run" : String).push DIRECTORY_SEPARATOR = "/var/run/" := by
  decide

theorem pid_directory_slash_length : ("/var/run/" : String).length = 9 := by decide

theorem pid_suffix_length (d : String) : (d ++ ".pid").length = d.length + 4 := by
  have : (".pid" : String).length = 4 := by decide
  simp [this]

theorem pid_name_take (d : String) (h : ¬ (d ++ ".pid").length ≥ PATH_MAX - 9) :
    "/var/run/" ++ String.mk ((d ++ ".pid").toList.take (PATH_MAX - 9 - 1))
      = "/var/run/" ++ d ++ ".pid" := by
  have hlen : (d ++ ".pid").toList.length ≤ PATH_MAX - 9 - 1 := by
    have h4 : (d ++ ".pid").toList.length = d.length + 4 := pid_suffix_length d
    rw [pid_suffix_length] at h
    rw [h4]
    simp only [PATH_MAX] at h ⊢
    omega
  rw [List.take_of_length_le hlen, String.append_assoc]
  rfl

theorem prepare_directory_spec (s : Sys) (w : World) (name : String) (id : Identity) :
    (prepare_directory s w name id).All
      (fun w2 => FrameName w w2 ∧ TraceExt Event.isDirCall w.trace w2.trace)
      (fun w2 => FrameName w w2 ∧ TraceExt Event.isDirCall w.trace w2.trace ∧
        w2.pidfile_name = "/var/run/" ++ name ++ ".pid" ∧
        (name ++ ".pid").length < PATH_MAX - 9 ∧
        seenB Event.isChownOk w2.trace = true) := by
  simp only [prepare_directory, pid_directory_take, pid_directory_length, pid_directory_back,
    pid_directory_push, pid_directory_slash_length, ne_eq, not_false_eq_true, if_true,
    World.setName_pidfile_name, World.log_pidfile_name]
  repeat' split
  all_goals simp [Res.All, FrameName, traceExt_append_iff, traceExt_self_iff, Event.isDirCall,
    Event.phase, seenB, Event.isChownOk]
  all_goals first
    | done
    | (have hlen : ¬ (name ++ ".pid").length ≥ PATH_MAX - 9 := by assumption
       have h4 := pid_suffix_length name
       have h44 : (".pid" : String).length = 4 := by decide
       refine ⟨pid_name_take name hlen, by omega, ?_⟩
       simp_all)

theorem clean_up_empty_name (ok : Bool) (w : World) (h : w.pidfile_name = "") :
    (clean_up ok w).fs = w.fs ∧
    TraceExt Event.isForkStep w.trace (clean_up ok w).trace := by
  simp only [clean_up]
  split <;> simp [h, traceExt_append_iff, Event.isForkStep, Event.phase]

theorem atexit_empty_name (hook : AtExit) (w : World) (h : w.pidfile_name = "") :
    (hook.run w).fs = w.fs ∧ TraceExt Event.isForkStep w.trace (hook.run w).trace := by
  cases hook with
  | nothing => exact ⟨rfl, TraceExt.refl _ _⟩
  | clean_up ok => exact clean_up_empty_name ok w h

theorem fork_child_spec (s : Sys) (hook : AtExit) (w : World) :
    (fork_child s hook w).All
      (fun w2 => Frame w w2 ∧ TraceExt Event.isForkStep w.trace w2.trace)
      (fun w2 => w2.pid ∈ s.fork ∧ w2.euid = w.euid ∧ w2.egid = w.egid ∧ w2.fds = w.fds ∧
        w2.nofile = w.nofile ∧ w2.pidfile_fd = w.pidfile_fd ∧
        w2.pidfile_name = w.pidfile_name ∧ w2.fs = w.fs ∧
        TraceExt Event.isForkStep w.trace w2.trace ∧
        seenB Event.isForkChild w2.trace = true) := by
  simp only [fork_child]
  split
  · simp [Res.All, Frame, traceExt_append_iff, Event.isForkStep, Event.phase]
  · rename_i c hc
    obtain ⟨hfs, htr⟩ := atexit_empty_name hook
      (((w.setName "").log (.fork c)).log (.procExit 0)) rfl
    have h1 : TraceExt Event.isForkStep w.trace
        (((w.setName "").log (.fork c)).log (.procExit 0)).trace := by
      simp [traceExt_append_iff, Event.isForkStep, Event.phase]
    have h2 := (h1.trans htr).trans (TraceExt.append Event.isForkStep _ [(c, Event.fork 0)]
      (by simp [Event.isForkStep, Event.phase]))
    simp only [Res.All, World.log_trace, World.log_pid, World.log_euid, World.log_egid,
      World.log_fds, World.log_nofile, World.log_pidfile_fd, World.log_pidfile_name,
      World.log_fs, World.asChild_trace, World.asChild_pid, World.asChild_euid,
      World.asChild_egid, World.asChild_fds, World.asChild_nofile, World.asChild_pidfile_fd,
      World.asChild_pidfile_name, World.asChild_fs, hc, Option.mem_def, true_and]
    refine ⟨by simpa using hfs, h2, ?_⟩
    simp [seenB_append, seenB, Event.isForkChild]

/-- The state after the exclusive create: either it failed (`pidfile_fd` is
`-1`, no descriptor was allocated), or the file was absent and now exists,
empty, open on the lowest free descriptor. -/
theorem create_pidfile_spec (s : Sys) (w : World) :
    (create_pidfile s w).pid = w.pid ∧ (create_pidfile s w).euid = w.euid ∧
    (create_pidfile s w).egid = w.egid ∧ (create_pidfile s w).nofile = w.nofile ∧
    (create_pidfile s w).pidfile_name = w.pidfile_name ∧
    (create_pidfile s w).trace
      = w.trace ++ [(w.pid, .openExcl w.pidfile_name (create_pidfile s w).pidfile_fd)] ∧
    (((create_pidfile s w).pidfile_fd = -1 ∧ (create_pidfile s w).fds = w.fds ∧
        (s.racer = none → (create_pidfile s w).fs = w.fs) ∧
        (∀ c, s.racer = some c → (create_pidfile s w).fs w.pidfile_name = some c) ∧
        ∀ q, q ≠ w.pidfile_name → (create_pidfile s w).fs q = w.fs q) ∨
     (∃ k : Nat, (create_pidfile s w).pidfile_fd = (k : Int) ∧ w.lowestFree = some k ∧
        (∀ n, (create_pidfile s w).fds n
          = if n = k then some (.file w.pidfile_name) else w.fds n) ∧
        s.racer = none ∧ w.fs w.pidfile_name = none ∧
        ∀ q, (create_pidfile s w).fs q = if q = w.pidfile_name then some [] else w.fs q)) := by
  unfold create_pidfile
  cases hr : s.racer with
  | some c =>
    simp only [World.setFile_fs, World.setFile_pidfile_name, if_true, Option.isSome_some]
    refine ⟨rfl, rfl, rfl, rfl, rfl, rfl, Or.inl ⟨rfl, rfl, ?_, ?_, ?_⟩⟩
    · intro h; cases h
    · intro c2 h; cases h; simp
    · intro q hq; simp [hq]
  | none =>
    simp only []
    cases hf : w.fs w.pidfile_name with
    | some c =>
      simp only [Option.isSome_some, if_true]
      refine ⟨rfl, rfl, rfl, rfl, rfl, rfl, Or.inl ⟨rfl, rfl, ?_, ?_, ?_⟩⟩
      · intro _; rfl
      · intro c2 h; cases h
      · intro q _; rfl
    | none =>
      simp only [Option.isSome_none, Bool.false_eq_true, if_false]
      rcases World.allocate_cases w s.creat (.file w.pidfile_name) with h | ⟨k, hk, h⟩
      · rw [h]
        simp only [if_true]
        refine ⟨rfl, rfl, rfl, rfl, rfl, rfl, Or.inl ⟨rfl, rfl, ?_, ?_, ?_⟩⟩
        · intro _; rfl
        · intro c2 h; cases h
        · intro q _; rfl
      · rw [h]
        have hne : ¬ ((k : Int) = -1) := by omega
        simp only [hne, if_false]
        refine ⟨rfl, rfl, rfl, rfl, rfl, rfl, Or.inr ⟨k, rfl, hk, ?_, trivial, trivial, ?_⟩⟩
        · intro n; rfl
        · intro q; rfl

/-- The inspection branch gives back every descriptor it opened, leaves the
files alone unless it unlinks the stale PID file, and makes PID file calls
only. -/
theorem inspect_existing_spec (s : Sys) (w : World) :
    (inspect_existing s w).All
      (fun w2 => w2.pid = w.pid ∧ w2.euid = w.euid ∧ w2.egid = w.egid ∧ w2.nofile = w.nofile ∧
        w2.pidfile_name = w.pidfile_name ∧ w2.fs = w.fs ∧ (∀ n, w2.fds n = w.fds n) ∧
        TraceExt Event.isPidFileStep w.trace w2.trace)
      (fun w2 => TraceExt Event.isPidFileStep w.trace w2.trace)
      (fun w2 => w2.pid = w.pid ∧ w2.euid = w.euid ∧ w2.egid = w.egid ∧ w2.nofile = w.nofile ∧
        w2.pidfile_name = w.pidfile_name ∧ w2.pidfile_fd = -1 ∧
        (∀ q, w2.fs q = if q = w.pidfile_name then none else w.fs q) ∧
        (∀ n, w2.fds n = w.fds n) ∧
        TraceExt Event.isPidFileStep w.trace w2.trace) := by
  by_cases hex : (w.fs w.pidfile_name).isSome = true
  · rcases World.allocate_cases w s.open_rdonly (.file w.pidfile_name) with h | ⟨k, hk, h⟩
    · simp [inspect_existing, hex, h, Inspect.All, traceExt_append_iff, Event.isPidFileStep,
        Event.phase]
    · obtain ⟨_, hfree, _⟩ := World.lowestFree_spec w k hk
      have hne : ¬ ((k : Int) = -1) := by omega
      have hfd : ∀ n : Nat, (if n = k then none
          else if n = k then some (Obj.file w.pidfile_name) else w.fds n) = w.fds n := by
        intro n
        by_cases hn : n = k
        · subst hn; simp [hfree]
        · simp [hn]
      simp only [inspect_existing, hex, if_true, h, World.log_pidfile_fd, World.setFd_pidfile_fd,
        World.log_fs, World.setFd_fs, World.install_fs, World.log_pidfile_name,
        World.setFd_pidfile_name, World.install_pidfile_name, World.unlink_fst,
        World.close_fs, World.close_pidfile_name, hne, if_false]
      repeat' split
      all_goals simp_all [Inspect.All, traceExt_append_iff, Event.isPidFileStep, Event.phase,
        World.close_fds, World.unlink_fs]
      funext q
      simp [World.unlink_fs]
  · simp [inspect_existing, hex, Inspect.All, traceExt_append_iff, Event.isPidFileStep,
      Event.phase]

theorem lock_and_write_spec (s : Sys) (w : World) (id : Identity) :
    (lock_and_write s w id).All
      (fun w2 => w2.pid = w.pid ∧ w2.euid = w.euid ∧ w2.egid = w.egid ∧ w2.nofile = w.nofile ∧
        w2.pidfile_name = w.pidfile_name ∧ w2.pidfile_fd = w.pidfile_fd ∧
        TraceExt Event.isPidFileStep w.trace w2.trace ∧
        ((s.fchown = false ∧ w2.fds = w.fds) ∨
          ∀ n : Nat, w2.fds n = if (n : Int) = w.pidfile_fd then none else w.fds n))
      (fun w2 => w2.pid = w.pid ∧ w2.euid = w.euid ∧ w2.egid = w.egid ∧ w2.nofile = w.nofile ∧
        w2.pidfile_name = w.pidfile_name ∧ w2.pidfile_fd = w.pidfile_fd ∧
        TraceExt Event.isPidFileStep w.trace w2.trace ∧ w2.fds = w.fds ∧
        (∀ q, w2.fs q = if q = w.pidfile_name then some (snprintf_pid w.pid) else w.fs q) ∧
        seenB Event.isLockOk w2.trace = true ∧ seenB Event.isWriteDone w2.trace = true) := by
  simp only [lock_and_write]
  repeat' split
  all_goals simp_all [Res.All, traceExt_append_iff, Event.isPidFileStep, Event.phase,
    World.close_fds, seenB, Event.isLockOk, Event.isWriteDone]

theorem detach_and_drop_spec (s : Sys) (w : World) (name : String) (id : Identity) :
    (detach_and_drop s w name id).All
      (fun w2 => w2.pid = w.pid ∧ w2.nofile = w.nofile ∧
        w2.pidfile_name = w.pidfile_name ∧ w2.pidfile_fd = w.pidfile_fd ∧ w2.fs = w.fs ∧
        TraceExt Event.isDetachStep w.trace w2.trace ∧
        (∀ n : Nat, w2.fds n = if (n : Int) = w.pidfile_fd then none else w.fds n) ∧
        (precedesB Event.isSetsidOk Event.isPrivDrop false w.trace = true →
          precedesB Event.isSetsidOk Event.isPrivDrop false w2.trace = true) ∧
        (precedesB Event.isSetresgidOk Event.isSetresuid false w.trace = true →
          precedesB Event.isSetresgidOk Event.isSetresuid false w2.trace = true))
      (fun w2 => w2.pid = w.pid ∧ w2.nofile = w.nofile ∧
        w2.pidfile_name = w.pidfile_name ∧ w2.pidfile_fd = w.pidfile_fd ∧ w2.fs = w.fs ∧
        w2.fds = w.fds ∧ w2.euid = id.uid ∧ w2.egid = id.gid ∧
        w2.trace = w.trace ++ [(w.pid, .setsid true), (w.pid, .umask DAEMON_UMASK),
          (w.pid, .openlog name), (w.pid, .setresgid id.gid id.gid id.gid true),
          (w.pid, .setresuid id.uid id.uid id.uid true)]) := by
  simp only [detach_and_drop]
  repeat' split
  all_goals simp_all [Res.All, traceExt_append_iff, Event.isDetachStep, Event.phase,
    World.close_fds, precedesB_append, precedesB, seenB, Event.isSetsidOk, Event.isPrivDrop,
    Event.isSetresgidOk, Event.isSetresuid]

theorem open_null_spec (s : Sys) (w : World) :
    Allocated w Event.openNull .devnull (open_null s w) := by
  unfold open_null Allocated
  rcases World.allocate_cases w s.open_null .devnull with h | ⟨k, hk, h⟩
  · rw [h]; simp
  · rw [h]; simp [hk]

theorem dup0_spec (w : World) (ok : Bool) :
    Allocated w (Event.dup 0) ((w.fds 0).getD .other) (dup0 w ok) := by
  unfold dup0 Allocated
  by_cases h0 : (w.fds 0).isSome = true
  · rcases World.allocate_cases w ok ((w.fds 0).getD .other) with h | ⟨k, hk, h⟩
    · simp only [h0, if_true]; rw [h]; simp
    · simp only [h0, if_true]; rw [h]; simp [hk]
  · simp [h0]

theorem redirect_streams_spec (s : Sys) (w : World) :
    (redirect_streams s w).All
      (fun w2 => w2.pid = w.pid ∧ w2.euid = w.euid ∧ w2.egid = w.egid ∧ w2.nofile = w.nofile ∧
        w2.pidfile_name = w.pidfile_name ∧ w2.pidfile_fd = w.pidfile_fd ∧ w2.fs = w.fs ∧
        TraceExt Event.isRedirectStep w.trace w2.trace ∧
        (∀ n : Nat, (n : Int) = w.pidfile_fd → w2.fds n = none))
      (fun w2 => w2.pid = w.pid ∧ w2.euid = w.euid ∧ w2.egid = w.egid ∧ w2.nofile = w.nofile ∧
        w2.pidfile_name = w.pidfile_name ∧ w2.pidfile_fd = w.pidfile_fd ∧ w2.fs = w.fs ∧
        TraceExt Event.isRedirectStep w.trace w2.trace ∧
        w.closeLoop.fds 0 = none ∧ w.closeLoop.fds 1 = none ∧ w.closeLoop.fds 2 = none ∧
        (∀ n : Nat, w2.fds n = if n < 3 then some Obj.devnull else w.closeLoop.fds n)) := by
  have hloop : ∀ e ∈ w.loopEvents, Event.isRedirectStep e.2 = true := by
    intro e he
    simp only [World.loopEvents, List.mem_map] at he
    obtain ⟨i, _, rfl⟩ := he
    rfl
  have h0 : TraceExt Event.isRedirectStep w.trace w.closeLoop.trace := by
    rw [World.closeLoop_trace]; exact TraceExt.append _ _ _ hloop
  have h1 := open_null_spec s w.closeLoop
  simp only [redirect_streams]
  generalize open_null s w.closeLoop = r1 at h1 ⊢
  obtain ⟨fd1, w1⟩ := r1
  obtain ⟨a1, a2, a3, a4, a5, a6, a7, a8, a9⟩ := h1
  simp only at a1 a2 a3 a4 a5 a6 a7 a8 a9
  simp only [World.closeLoop_pid, World.closeLoop_euid, World.closeLoop_egid,
    World.closeLoop_nofile, World.closeLoop_pidfile_name, World.closeLoop_pidfile_fd,
    World.closeLoop_fs] at a1 a2 a3 a4 a5 a6 a7 a8
  have t1 : TraceExt Event.isRedirectStep w.trace w1.trace := by
    rw [a8]; exact h0.trans (TraceExt.append _ _ _ (by simp [Event.isRedirectStep, Event.phase]))
  by_cases hfd1 : fd1 ≠ 0
  · rw [if_pos hfd1]
    simp only [Res.All, redirect_failed, if_pos hfd1]
    refine ⟨by simp [a1], by simp [a2], by simp [a3], by simp [a4], by simp [a5], by simp [a6],
      by simp [a7], t1.trans ?_, ?_⟩
    · simp [traceExt_append_iff, Event.isRedirectStep, Event.phase]
    · intro n hn
      simp [World.close_fds, hn, a6]
  rw [if_neg hfd1]
  have hfd1 : fd1 = 0 := by simpa using hfd1
  subst hfd1
  have f1 : w.closeLoop.lowestFree = some 0 ∧
      ∀ n, w1.fds n = if n = 0 then some Obj.devnull else w.closeLoop.fds n := by
    rcases a9 with ⟨hneg, _⟩ | ⟨k, hk, hlow, hfds⟩
    · exact absurd hneg (by decide)
    · have : k = 0 := by omega
      subst this
      exact ⟨hlow, hfds⟩
  have c0 := (World.lowestFree_spec _ _ f1.1).2.1
  have h2 := dup0_spec w1 s.dup_stdout
  generalize dup0 w1 s.dup_stdout = r2 at h2 ⊢
  obtain ⟨fd2, w2⟩ := r2
  obtain ⟨b1, b2, b3, b4, b5, b6, b7, b8, b9⟩ := h2
  simp only at b1 b2 b3 b4 b5 b6 b7 b8 b9 ⊢
  have t2 : TraceExt Event.isRedirectStep w.trace w2.trace := by
    rw [b8]; exact t1.trans (TraceExt.append _ _ _ (by simp [Event.isRedirectStep, Event.phase]))
  by_cases hfd2 : fd2 ≠ 1
  · rw [if_pos hfd2]
    simp only [Res.All, redirect_failed]
    refine ⟨?_, ?_, ?_, ?_, ?_, ?_, ?_, t2.trans ?_, ?_⟩
    · split <;> simp [b1, a1]
    · split <;> simp [b2, a2]
    · split <;> simp [b3, a3]
    · split <;> simp [b4, a4]
    · split <;> simp [b5, a5]
    · split <;> simp [b6, a6]
    · split <;> simp [b7, a7]
    · split <;> simp [traceExt_append_iff, Event.isRedirectStep, Event.phase]
    · intro n hn
      split <;> simp [World.close_fds, hn, a6, b6]
  rw [if_neg hfd2]
  have hfd2 : fd2 = 1 := by simpa using hfd2
  subst hfd2
  have hw10 : (w1.fds 0).getD Obj.other = Obj.devnull := by simp [f1.2 0]
  rw [hw10] at b9
  have f2 : w1.lowestFree = some 1 ∧
      ∀ n, w2.fds n = if n = 1 then some Obj.devnull else w1.fds n := by
    rcases b9 with ⟨hneg, _⟩ | ⟨k, hk, hlow, hfds⟩
    · exact absurd hneg (by decide)
    · have : k = 1 := by omega
      subst this
      exact ⟨hlow, hfds⟩
  have c1 : w.closeLoop.fds 1 = none := by
    have := (World.lowestFree_spec _ _ f2.1).2.1
    rw [f1.2 1] at this
    simpa using this
  have h3 := dup0_spec w2 s.dup_stderr
  generalize dup0 w2 s.dup_stderr = r3 at h3 ⊢
  obtain ⟨fd3, w3⟩ := r3
  obtain ⟨d1, d2, d3, d4, d5, d6, d7, d8, d9⟩ := h3
  simp only at d1 d2 d3 d4 d5 d6 d7 d8 d9 ⊢
  have t3 : TraceExt Event.isRedirectStep w.trace w3.trace := by
    rw [d8]; exact t2.trans (TraceExt.append _ _ _ (by simp [Event.isRedirectStep, Event.phase]))
  by_cases hfd3 : fd3 ≠ 2
  · rw [if_pos hfd3]
    simp only [Res.All, redirect_failed]
    refine ⟨?_, ?_, ?_, ?_, ?_, ?_, ?_, t3.trans ?_, ?_⟩
    · split <;> simp [b1, a1, d1]
    · split <;> simp [b2, a2, d2]
    · split <;> simp [b3, a3, d3]
    · split <;> simp [b4, a4, d4]
    · split <;> simp [b5, a5, d5]
    · split <;> simp [b6, a6, d6]
    · split <;> simp [b7, a7, d7]
    · split <;> simp [traceExt_append_iff, Event.isRedirectStep, Event.phase]
    · intro n hn
      split <;> simp [World.close_fds, hn, a6, b6, d6]
  rw [if_neg hfd3]
  have hfd3 : fd3 = 2 := by simpa using hfd3
  subst hfd3
  have hw20 : (w2.fds 0).getD Obj.other = Obj.devnull := by simp [f2.2 0, f1.2 0]
  rw [hw20] at d9
  have f3 : w2.lowestFree = some 2 ∧
      ∀ n, w3.fds n = if n = 2 then some Obj.devnull else w2.fds n := by
    rcases d9 with ⟨hneg, _⟩ | ⟨k, hk, hlow, hfds⟩
    · exact absurd hneg (by decide)
    · have : k = 2 := by omega
      subst this
      exact ⟨hlow, hfds⟩
  have c2 : w.closeLoop.fds 2 = none := by
    have := (World.lowestFree_spec _ _ f3.1).2.1
    rw [f2.2 2, f1.2 2] at this
    simpa using this
  simp only [Res.All]
  refine ⟨by simp [d1, b1, a1], by simp [d2, b2, a2], by simp [d3, b3, a3],
    by simp [d4, b4, a4], by simp [d5, b5, a5], by simp [d6, b6, a6], by simp [d7, b7, a7],
    t3, c0, c1, c2, ?_⟩
  intro n
  rw [f3.2 n, f2.2 n, f1.2 n]
  by_cases h2 : n = 2
  · simp [h2]
  · by_cases h1 : n = 1
    · simp [h1]
    · by_cases h0 : n = 0
      · simp [h0]
      · have : ¬ n < 3 := by omega
        simp [h2, h1, h0, this]

/-! ## The segments when every call succeeds -/

theorem string_length_ne_zero (x : String) (h : x ≠ "") : ¬ x.length = 0 := by
  intro h0
  apply h
  cases x with
  | mk data =>
    have : data = [] := by simpa [String.length] using h0
    subst this
    rfl

theorem resolve_identity_ok (s : Sys) (w : World) (user name : String) (uid gid : Nat)
    (hs : s.Succeeds) (hu : user ≠ "") (hd : name ≠ "") (he : w.euid = 0)
    (hpw : ∀ n, s.getpwnam_r user n = .found uid gid) (huid : 1 ≤ uid) :
    ∃ w2, resolve_identity s w (some user) (some name) = .next (w2, name, ⟨uid, gid⟩) := by
  have h1 := string_length_ne_zero user hu
  have h2 := string_length_ne_zero name hd
  have h3 : ¬ uid < 1 := by omega
  simp [resolve_identity, h1, h2, he, hs.malloc, hpw, h3]

theorem pid_path_length (name : String) :
    ("/var/run/" ++ name ++ ".pid").length = 9 + name.length + 4 := by
  have h9 : ("/var/run/" : String).length = 9 := by decide
  have h4 : (".pid" : String).length = 4 := by decide
  simp [h9, h4]

theorem prepare_directory_ok (s : Sys) (w : World) (name : String) (id : Identity)
    (hs : s.Succeeds) (hlen : ("/var/run/" ++ name ++ ".pid").length < PATH_MAX) :
    ∃ w2, prepare_directory s w name id = .next w2 := by
  rw [pid_path_length] at hlen
  have h4 := pid_suffix_length name
  have hl : ¬ (name ++ ".pid").length ≥ PATH_MAX - 9 := by omega
  have h8 : ("/var/run" : String).length = 8 := by decide
  simp only [prepare_directory, pid_directory_take, pid_directory_length, pid_directory_back,
    pid_directory_push, pid_directory_slash_length, ne_eq, not_false_eq_true, if_true,
    World.setName_pidfile_name, World.log_pidfile_name, hs.stat, hs.chown, hs.chdir, hl]
  simp [PATH_MAX, h8]

theorem fork_child_ok (s : Sys) (hook : AtExit) (w : World) (c : Nat) (hf : s.fork = some c) :
    ∃ w2, fork_child s hook w = .next w2 := by
  simp [fork_child, hf]

theorem create_pidfile_ok (s : Sys) (w : World) (k : Nat) (hs : s.Succeeds)
    (habs : w.fs w.pidfile_name = none) (hk : w.lowestFree = some k) :
    (create_pidfile s w).pidfile_fd = (k : Int) := by
  have hne : ¬ ((k : Int) = -1) := by omega
  simp [create_pidfile, hs.racer, habs, hs.creat, World.allocate_ok w _ k hk, hne]

theorem lock_and_write_ok (s : Sys) (w : World) (id : Identity) (hs : s.Succeeds)
    (hpid : w.pid < 2 ^ 31) : ∃ w2, lock_and_write s w id = .next w2 := by
  have hfit := (parse_pid_snprintf_pid w.pid [] hpid).1
  have h1 : ¬ (snprintf_pid w.pid).length ≥ PID_BUF_SIZE := by omega
  have h2 : (snprintf_pid w.pid).length > 0 := by simp [snprintf_pid]
  simp [lock_and_write, hs.fchown, hs.setlk, hs.ftruncate, hs.write, h1, h2]

theorem detach_and_drop_ok (s : Sys) (w : World) (name : String) (id : Identity)
    (hs : s.Succeeds) : ∃ w2, detach_and_drop s w name id = .next w2 := by
  simp [detach_and_drop, hs.setsid, hs.setresgid, hs.setresuid]

theorem redirect_streams_ok (s : Sys) (w : World) (k : Nat) (hs : s.Succeeds)
    (hfd : w.pidfile_fd = (k : Int)) (hk3 : 3 ≤ k) (hkn : k < w.nofile) :
    ∃ w2, redirect_streams s w = .next w2 := by
  have hc : ∀ n : Nat, n < 3 → w.closeLoop.fds n = none := by
    intro n hn
    rw [World.closeLoop_fds, hfd]
    have h1 : n ≤ MAX_OPEN_FDS := by simp only [MAX_OPEN_FDS]; omega
    have h2 : (n : Int) ≠ (k : Int) := by omega
    simp [h1, h2]
  have l0 : w.closeLoop.lowestFree = some 0 :=
    World.lowestFree_eq_some _ 0 (by simp; omega) (hc 0 (by omega)) (by intro i hi; omega)
  have e1 : open_null s w.closeLoop
      = (0, (w.closeLoop.install 0 (some .devnull)).log (.openNull 0)) := by
    simp [open_null, hs.open_null, World.allocate_ok _ _ 0 l0]
  have l1 : ((w.closeLoop.install 0 (some .devnull)).log (.openNull 0)).lowestFree = some 1 := by
    apply World.lowestFree_eq_some _ 1 (by simp; omega)
    · simp [hc 1 (by omega)]
    · intro i hi
      have : i = 0 := by omega
      simp [this]
  have e2 : dup0 ((w.closeLoop.install 0 (some .devnull)).log (.openNull 0)) s.dup_stdout
      = (1, ((((w.closeLoop.install 0 (some .devnull)).log (.openNull 0)).install 1
          (some .devnull))).log (.dup 0 1)) := by
    simp [dup0, hs.dup_stdout, World.allocate_ok _ _ 1 l1]
  have l2 : (((((w.closeLoop.install 0 (some .devnull)).log (.openNull 0)).install 1
      (some .devnull))).log (.dup 0 1)).lowestFree = some 2 := by
    apply World.lowestFree_eq_some _ 2 (by simp; omega)
    · simp [hc 2 (by omega)]
    · intro i hi
      have : i = 0 ∨ i = 1 := by omega
      rcases this with h | h <;> simp [h]
  have e3 : dup0 (((((w.closeLoop.install 0 (some .devnull)).log (.openNull 0)).install 1
      (some .devnull))).log (.dup 0 1)) s.dup_stderr
      = (2, ((((((w.closeLoop.install 0 (some .devnull)).log (.openNull 0)).install 1
          (some .devnull))).log (.dup 0 1)).install 2 (some .devnull)).log (.dup 0 2)) := by
    simp [dup0, hs.dup_stderr, World.allocate_ok _ _ 2 l2]
  simp [redirect_streams, e1, e2, e3]

/-- The inspection of a PID file whose owner is alive: `open`, `read`, the
probe, `close`, return `-1`; no file is touched. -/
theorem inspect_existing_alive (s : Sys) (w : World) (content : List Nat) (pid : Int) (k : Nat)
    (hfile : w.fs w.pidfile_name = some content) (hne : content ≠ [])
    (hopen : s.open_rdonly = true) (hread : s.read = true) (hk : w.lowestFree = some k)
    (hpid : probed_pid s content = some pid) (hkill : kill s pid = .ok) :
    ∃ w2, inspect_existing s w = .fail w2 ∧ w2.fs = w.fs ∧ w2.pid = w.pid ∧
      w2.pidfile_name = w.pidfile_name ∧
      w2.trace = w.trace ++ [(w.pid, .openRdonly w.pidfile_name k),
        (w.pid, .read k ((content.take PID_BUF_SIZE).length : Nat)),
        (w.pid, .kill pid 0 .ok), (w.pid, .close k false)] := by
  have hne1 : ¬ ((k : Int) = -1) := by omega
  have hpos : 0 < content.length := List.length_pos.2 hne
  have hbuf : 0 < PID_BUF_SIZE := by decide
  unfold probed_pid at hpid
  simp [inspect_existing, hfile, hopen, hread, World.allocate_ok w _ k hk, hne1, hpid, hkill,
    hpos, hbuf]

/-- The inspection of a stale PID file: `open`, `read`, the probe answered
`ESRCH`, `close`, `unlink`, then the self call. -/
theorem inspect_existing_stale (s : Sys) (w : World) (content : List Nat) (pid : Int) (k : Nat)
    (hfile : w.fs w.pidfile_name = some content) (hne : content ≠ [])
    (hopen : s.open_rdonly = true) (hread : s.read = true) (hunlink : s.unlink = true)
    (hk : w.lowestFree = some k)
    (hpid : probed_pid s content = some pid) (hkill : kill s pid = .esrch) :
    ∃ w2, inspect_existing s w = .again w2 ∧
      w2.trace = w.trace ++ [(w.pid, .openRdonly w.pidfile_name k),
        (w.pid, .read k ((content.take PID_BUF_SIZE).length : Nat)),
        (w.pid, .kill pid 0 .esrch), (w.pid, .close k false),
        (w.pid, .unlink w.pidfile_name true)] := by
  have hne1 : ¬ ((k : Int) = -1) := by omega
  have hpos : 0 < content.length := List.length_pos.2 hne
  have hbuf : 0 < PID_BUF_SIZE := by decide
  unfold probed_pid at hpid
  simp [inspect_existing, hfile, hopen, hread, World.allocate_ok w _ k hk, hne1, hpid, hkill,
    hpos, hbuf, hunlink]

/-! ## The order of the calls of a whole run -/

theorem phase_of_isFork (e : Event) (h : e.isFork = true) : e.phase = 3 := by
  cases e <;> simp_all [Event.isFork, Event.phase]

theorem phase_of_isPidFileCall (e : Event) (h : e.isPidFileCall = true) : e.phase = 4 := by
  cases e <;> simp_all [Event.isPidFileCall, Event.phase]

theorem phase_of_isSetsid (e : Event) (h : e.isSetsid = true) : e.phase = 5 := by
  cases e <;> simp_all [Event.isSetsid, Event.phase]

theorem phase_of_isPrivDrop (e : Event) (h : e.isPrivDrop = true) : e.phase = 6 := by
  cases e <;> simp_all [Event.isPrivDrop, Event.phase]

theorem phase_of_isSetresuid (e : Event) (h : e.isSetresuid = true) : e.phase = 6 := by
  cases e <;> simp_all [Event.isSetresuid, Event.phase]

theorem phase_of_isLoopClose (e : Event) (h : e.isLoopClose = true) : e.phase = 7 := by
  cases e with
  | close fd b => cases b <;> simp_all [Event.isLoopClose, Event.phase]
  | _ => simp_all [Event.isLoopClose]

theorem phase_of_isDirCall (e : Event) (h : e.isDirCall = true) : e.phase = 2 := by
  simpa [Event.isDirCall] using h

/-- A class of calls whose phases differ from `k` holds no call of a kind
that belongs to phase `k`. -/
theorem class_excludes (K q : Event → Bool) (k : Nat)
    (hq : ∀ e, q e = true → e.phase = k) (hK : ∀ e, K e = true → e.phase ≠ k) :
    ∀ e, K e = true → q e = false := by
  intro e he
  cases hqe : q e with
  | false => rfl
  | true => exact absurd (hq e hqe) (hK e he)

theorem ordered_nil : Ordered [] :=
  ⟨rfl, rfl, rfl, rfl, rfl, rfl, rfl, rfl, rfl, rfl⟩

/-- One pair of `Ordered` across a continuation of the trace: the new calls
hold no `q` call, or a `p` call was made before. -/
theorem precedesB_ext (K p q : Event → Bool) (t u : List (Nat × Event)) (h : TraceExt K t u)
    (hc : (∀ e, K e = true → q e = false) ∨ seenB p t = true)
    (ht : precedesB p q false t = true) : precedesB p q false u = true := by
  rcases hc with hc | hc
  · exact h.precedesB p q hc ht
  · exact h.precedesB_of_seen p q hc ht

theorem ordered_lookup (t u : List (Nat × Event)) (h : TraceExt Event.isLookup t u)
    (ht : Ordered t) : Ordered u := by
  have hK : ∀ k, k ≠ 1 → ∀ e, Event.isLookup e = true → e.phase ≠ k := by
    intro k hk e he; simp [Event.isLookup] at he; omega
  exact
   ⟨precedesB_ext _ _ _ t u h (Or.inl (class_excludes _ _ 2 phase_of_isDirCall (hK 2 (by omega)))) ht.dir,
    precedesB_ext _ _ _ t u h (Or.inl (class_excludes _ _ 3 phase_of_isFork (hK 3 (by omega)))) ht.fork,
    precedesB_ext _ _ _ t u h (Or.inl (class_excludes _ _ 4 phase_of_isPidFileCall (hK 4 (by omega)))) ht.pidfile,
    precedesB_ext _ _ _ t u h (Or.inl (class_excludes _ _ 5 phase_of_isSetsid (hK 5 (by omega)))) ht.setsid_write,
    precedesB_ext _ _ _ t u h (Or.inl (class_excludes _ _ 5 phase_of_isSetsid (hK 5 (by omega)))) ht.setsid_lock,
    precedesB_ext _ _ _ t u h (Or.inl (class_excludes _ _ 6 phase_of_isPrivDrop (hK 6 (by omega)))) ht.drop,
    precedesB_ext _ _ _ t u h (Or.inl (class_excludes _ _ 6 phase_of_isSetresuid (hK 6 (by omega)))) ht.uid,
    precedesB_ext _ _ _ t u h (Or.inl (class_excludes _ _ 7 phase_of_isLoopClose (hK 7 (by omega)))) ht.loop_log,
    precedesB_ext _ _ _ t u h (Or.inl (class_excludes _ _ 7 phase_of_isLoopClose (hK 7 (by omega)))) ht.loop_gid,
    precedesB_ext _ _ _ t u h (Or.inl (class_excludes _ _ 7 phase_of_isLoopClose (hK 7 (by omega)))) ht.loop_uid⟩

theorem ordered_directory (t u : List (Nat × Event)) (h : TraceExt Event.isDirCall t u)
    (hs : seenB Event.isResolved t = true) (ht : Ordered t) : Ordered u := by
  have hK : ∀ k, k ≠ 2 → ∀ e, Event.isDirCall e = true → e.phase ≠ k := by
    intro k hk e he; simp [Event.isDirCall] at he; omega
  exact
   ⟨precedesB_ext _ _ _ t u h (Or.inr hs) ht.dir,
    precedesB_ext _ _ _ t u h (Or.inl (class_excludes _ _ 3 phase_of_isFork (hK 3 (by omega)))) ht.fork,
    precedesB_ext _ _ _ t u h (Or.inl (class_excludes _ _ 4 phase_of_isPidFileCall (hK 4 (by omega)))) ht.pidfile,
    precedesB_ext _ _ _ t u h (Or.inl (class_excludes _ _ 5 phase_of_isSetsid (hK 5 (by omega)))) ht.setsid_write,
    precedesB_ext _ _ _ t u h (Or.inl (class_excludes _ _ 5 phase_of_isSetsid (hK 5 (by omega)))) ht.setsid_lock,
    precedesB_ext _ _ _ t u h (Or.inl (class_excludes _ _ 6 phase_of_isPrivDrop (hK 6 (by omega)))) ht.drop,
    precedesB_ext _ _ _ t u h (Or.inl (class_excludes _ _ 6 phase_of_isSetresuid (hK 6 (by omega)))) ht.uid,
    precedesB_ext _ _ _ t u h (Or.inl (class_excludes _ _ 7 phase_of_isLoopClose (hK 7 (by omega)))) ht.loop_log,
    precedesB_ext _ _ _ t u h (Or.inl (class_excludes _ _ 7 phase_of_isLoopClose (hK 7 (by omega)))) ht.loop_gid,
    precedesB_ext _ _ _ t u h (Or.inl (class_excludes _ _ 7 phase_of_isLoopClose (hK 7 (by omega)))) ht.loop_uid⟩

theorem ordered_fork (t u : List (Nat × Event)) (h : TraceExt Event.isForkStep t u)
    (hs : seenB Event.isChownOk t = true) (ht : Ordered t) : Ordered u := by
  have hK : ∀ k, k ≠ 3 → k ≠ 0 → ∀ e, Event.isForkStep e = true → e.phase ≠ k := by
    intro k hk hk0 e he; simp [Event.isForkStep] at he; omega
  exact
   ⟨precedesB_ext _ _ _ t u h (Or.inl (class_excludes _ _ 2 phase_of_isDirCall (hK 2 (by omega) (by omega)))) ht.dir,
    precedesB_ext _ _ _ t u h (Or.inr hs) ht.fork,
    precedesB_ext _ _ _ t u h (Or.inl (class_excludes _ _ 4 phase_of_isPidFileCall (hK 4 (by omega) (by omega)))) ht.pidfile,
    precedesB_ext _ _ _ t u h (Or.inl (class_excludes _ _ 5 phase_of_isSetsid (hK 5 (by omega) (by omega)))) ht.setsid_write,
    precedesB_ext _ _ _ t u h (Or.inl (class_excludes _ _ 5 phase_of_isSetsid (hK 5 (by omega) (by omega)))) ht.setsid_lock,
    precedesB_ext _ _ _ t u h (Or.inl (class_excludes _ _ 6 phase_of_isPrivDrop (hK 6 (by omega) (by omega)))) ht.drop,
    precedesB_ext _ _ _ t u h (Or.inl (class_excludes _ _ 6 phase_of_isSetresuid (hK 6 (by omega) (by omega)))) ht.uid,
    precedesB_ext _ _ _ t u h (Or.inl (class_excludes _ _ 7 phase_of_isLoopClose (hK 7 (by omega) (by omega)))) ht.loop_log,
    precedesB_ext _ _ _ t u h (Or.inl (class_excludes _ _ 7 phase_of_isLoopClose (hK 7 (by omega) (by omega)))) ht.loop_gid,
    precedesB_ext _ _ _ t u h (Or.inl (class_excludes _ _ 7 phase_of_isLoopClose (hK 7 (by omega) (by omega)))) ht.loop_uid⟩

theorem ordered_pidfile (t u : List (Nat × Event)) (h : TraceExt Event.isPidFileStep t u)
    (hs : seenB Event.isForkChild t = true) (ht : Ordered t) : Ordered u := by
  have hK : ∀ k, k ≠ 4 → k ≠ 0 → ∀ e, Event.isPidFileStep e = true → e.phase ≠ k := by
    intro k hk hk0 e he; simp [Event.isPidFileStep] at he; omega
  exact
   ⟨precedesB_ext _ _ _ t u h (Or.inl (class_excludes _ _ 2 phase_of_isDirCall (hK 2 (by omega) (by omega)))) ht.dir,
    precedesB_ext _ _ _ t u h (Or.inl (class_excludes _ _ 3 phase_of_isFork (hK 3 (by omega) (by omega)))) ht.fork,
    precedesB_ext _ _ _ t u h (Or.inr hs) ht.pidfile,
    precedesB_ext _ _ _ t u h (Or.inl (class_excludes _ _ 5 phase_of_isSetsid (hK 5 (by omega) (by omega)))) ht.setsid_write,
    precedesB_ext _ _ _ t u h (Or.inl (class_excludes _ _ 5 phase_of_isSetsid (hK 5 (by omega) (by omega)))) ht.setsid_lock,
    precedesB_ext _ _ _ t u h (Or.inl (class_excludes _ _ 6 phase_of_isPrivDrop (hK 6 (by omega) (by omega)))) ht.drop,
    precedesB_ext _ _ _ t u h (Or.inl (class_excludes _ _ 6 phase_of_isSetresuid (hK 6 (by omega) (by omega)))) ht.uid,
    precedesB_ext _ _ _ t u h (Or.inl (class_excludes _ _ 7 phase_of_isLoopClose (hK 7 (by omega) (by omega)))) ht.loop_log,
    precedesB_ext _ _ _ t u h (Or.inl (class_excludes _ _ 7 phase_of_isLoopClose (hK 7 (by omega) (by omega)))) ht.loop_gid,
    precedesB_ext _ _ _ t u h (Or.inl (class_excludes _ _ 7 phase_of_isLoopClose (hK 7 (by omega) (by omega)))) ht.loop_uid⟩

theorem ordered_detach (t u : List (Nat × Event)) (h : TraceExt Event.isDetachStep t u)
    (hw : seenB Event.isWriteDone t = true) (hl : seenB Event.isLockOk t = true)
    (hdrop : precedesB Event.isSetsidOk Event.isPrivDrop false u = true)
    (huid : precedesB Event.isSetresgidOk Event.isSetresuid false u = true)
    (ht : Ordered t) : Ordered u := by
  have hK : ∀ k, k ≠ 5 → k ≠ 6 → k ≠ 0 → ∀ e, Event.isDetachStep e = true → e.phase ≠ k := by
    intro k hk hk6 hk0 e he; simp [Event.isDetachStep] at he; omega
  exact
   ⟨precedesB_ext _ _ _ t u h (Or.inl (class_excludes _ _ 2 phase_of_isDirCall (hK 2 (by omega) (by omega) (by omega)))) ht.dir,
    precedesB_ext _ _ _ t u h (Or.inl (class_excludes _ _ 3 phase_of_isFork (hK 3 (by omega) (by omega) (by omega)))) ht.fork,
    precedesB_ext _ _ _ t u h (Or.inl (class_excludes _ _ 4 phase_of_isPidFileCall (hK 4 (by omega) (by omega) (by omega)))) ht.pidfile,
    precedesB_ext _ _ _ t u h (Or.inr hw) ht.setsid_write,
    precedesB_ext _ _ _ t u h (Or.inr hl) ht.setsid_lock,
    hdrop, huid,
    precedesB_ext _ _ _ t u h (Or.inl (class_excludes _ _ 7 phase_of_isLoopClose (hK 7 (by omega) (by omega) (by omega)))) ht.loop_log,
    precedesB_ext _ _ _ t u h (Or.inl (class_excludes _ _ 7 phase_of_isLoopClose (hK 7 (by omega) (by omega) (by omega)))) ht.loop_gid,
    precedesB_ext _ _ _ t u h (Or.inl (class_excludes _ _ 7 phase_of_isLoopClose (hK 7 (by omega) (by omega) (by omega)))) ht.loop_uid⟩

theorem ordered_redirect (t u : List (Nat × Event)) (h : TraceExt Event.isRedirectStep t u)
    (hlog : seenB Event.isOpenlog t = true) (hgid : seenB Event.isSetresgidOk t = true)
    (huid : seenB Event.isSetresuidOk t = true) (ht : Ordered t) : Ordered u := by
  have hK : ∀ k, k ≠ 7 → k ≠ 0 → ∀ e, Event.isRedirectStep e = true → e.phase ≠ k := by
    intro k hk hk0 e he; simp [Event.isRedirectStep] at he; omega
  exact
   ⟨precedesB_ext _ _ _ t u h (Or.inl (class_excludes _ _ 2 phase_of_isDirCall (hK 2 (by omega) (by omega)))) ht.dir,
    precedesB_ext _ _ _ t u h (Or.inl (class_excludes _ _ 3 phase_of_isFork (hK 3 (by omega) (by omega)))) ht.fork,
    precedesB_ext _ _ _ t u h (Or.inl (class_excludes _ _ 4 phase_of_isPidFileCall (hK 4 (by omega) (by omega)))) ht.pidfile,
    precedesB_ext _ _ _ t u h (Or.inl (class_excludes _ _ 5 phase_of_isSetsid (hK 5 (by omega) (by omega)))) ht.setsid_write,
    precedesB_ext _ _ _ t u h (Or.inl (class_excludes _ _ 5 phase_of_isSetsid (hK 5 (by omega) (by omega)))) ht.setsid_lock,
    precedesB_ext _ _ _ t u h (Or.inl (class_excludes _ _ 6 phase_of_isPrivDrop (hK 6 (by omega) (by omega)))) ht.drop,
    precedesB_ext _ _ _ t u h (Or.inl (class_excludes _ _ 6 phase_of_isSetresuid (hK 6 (by omega) (by omega)))) ht.uid,
    precedesB_ext _ _ _ t u h (Or.inr hlog) ht.loop_log,
    precedesB_ext _ _ _ t u h (Or.inr hgid) ht.loop_gid,
    precedesB_ext _ _ _ t u h (Or.inr huid) ht.loop_uid⟩

/-! ## The order of the calls: the whole function -/

theorem start_ordered (s : Sys) (hook : AtExit) (w : World) (u d : Option String)
    (ht : Ordered w.trace) :
    (start s hook w u d).All (fun w2 => Ordered w2.trace)
      (fun a => Ordered a.1.trace ∧ seenB Event.isForkChild a.1.trace = true) := by
  unfold start
  have h1 := resolve_identity_spec s w u d
  cases hr : resolve_identity s w u d with
  | fail w1 => exact ordered_lookup _ _ (Res.All_fail h1 hr).2 ht
  | next a =>
    obtain ⟨w1, name, id⟩ := a
    obtain ⟨-, he1, -, -, -, hres, -⟩ := Res.All_next h1 hr
    have ho1 : Ordered w1.trace := ordered_lookup _ _ he1 ht
    have h2 := prepare_directory_spec s w1 name id
    dsimp only
    cases hp : prepare_directory s w1 name id with
    | fail w2 => exact ordered_directory _ _ (Res.All_fail h2 hp).2 hres ho1
    | next w2 =>
      obtain ⟨-, he2, -, -, hch⟩ := Res.All_next h2 hp
      have ho2 : Ordered w2.trace := ordered_directory _ _ he2 hres ho1
      have h3 := fork_child_spec s hook w2
      dsimp only
      cases hf : fork_child s hook w2 with
      | fail w3 => exact ordered_fork _ _ (Res.All_fail h3 hf).2 hch ho2
      | next w3 =>
        obtain ⟨-, -, -, -, -, -, -, -, he3, hfc⟩ := Res.All_next h3 hf
        have ho3 : Ordered w3.trace := ordered_fork _ _ he3 hch ho2
        obtain ⟨-, -, -, -, -, htr, -⟩ := create_pidfile_spec s w3
        have he4 : TraceExt Event.isPidFileStep w3.trace (create_pidfile s w3).trace := by
          rw [htr]
          exact TraceExt.append _ _ _ (by simp [Event.isPidFileStep, Event.phase])
        exact ⟨ordered_pidfile _ _ he4 hfc ho3, he4.seenB _ hfc⟩

theorem finish_ordered (s : Sys) (w : World) (name : String) (id : Identity)
    (ht : Ordered w.trace) (hfc : seenB Event.isForkChild w.trace = true) :
    (finish s w name id).All (fun w2 => Ordered w2.trace)
      (fun w2 => Ordered w2.trace) := by
  unfold finish
  have h1 := lock_and_write_spec s w id
  cases hl : lock_and_write s w id with
  | fail w1 =>
    obtain ⟨-, -, -, -, -, -, he1, -⟩ := Res.All_fail h1 hl
    exact ordered_pidfile _ _ he1 hfc ht
  | next w1 =>
    obtain ⟨-, -, -, -, -, -, he1, -, -, hlock, hwrite⟩ := Res.All_next h1 hl
    have ho1 : Ordered w1.trace := ordered_pidfile _ _ he1 hfc ht
    have h2 := detach_and_drop_spec s w1 name id
    dsimp only
    cases hd : detach_and_drop s w1 name id with
    | fail w2 =>
      obtain ⟨-, -, -, -, -, he2, -, hdrop, huid⟩ := Res.All_fail h2 hd
      exact ordered_detach _ _ he2 hwrite hlock (hdrop ho1.drop) (huid ho1.uid) ho1
    | next w2 =>
      obtain ⟨-, -, -, -, -, -, -, -, htr⟩ := Res.All_next h2 hd
      have he2 : TraceExt Event.isDetachStep w1.trace w2.trace := by
        rw [htr]
        exact TraceExt.append _ _ _ (by simp [Event.isDetachStep, Event.phase])
      have hdrop : precedesB Event.isSetsidOk Event.isPrivDrop false w2.trace = true := by
        rw [htr, precedesB_append, ho1.drop]
        simp [precedesB, Event.isSetsidOk, Event.isPrivDrop]
      have huid : precedesB Event.isSetresgidOk Event.isSetresuid false w2.trace = true := by
        rw [htr, precedesB_append, ho1.uid]
        simp [precedesB, Event.isSetresgidOk, Event.isSetresuid]
      have ho2 : Ordered w2.trace := ordered_detach _ _ he2 hwrite hlock hdrop huid ho1
      have hlog : seenB Event.isOpenlog w2.trace = true := by
        rw [htr, seenB_append]; simp [seenB, Event.isOpenlog]
      have hgid : seenB Event.isSetresgidOk w2.trace = true := by
        rw [htr, seenB_append]; simp [seenB, Event.isSetresgidOk]
      have hsuid : seenB Event.isSetresuidOk w2.trace = true := by
        rw [htr, seenB_append]; simp [seenB, Event.isSetresuidOk]
      have h3 := redirect_streams_spec s w2
      dsimp only
      cases hrd : redirect_streams s w2 with
      | fail w3 =>
        obtain ⟨-, -, -, -, -, -, -, he3, -⟩ := Res.All_fail h3 hrd
        exact ordered_redirect _ _ he3 hlog hgid hsuid ho2
      | next w3 =>
        obtain ⟨-, -, -, -, -, -, -, he3, -⟩ := Res.All_next h3 hrd
        exact ordered_redirect _ _ he3 hlog hgid hsuid ho2

/-- Every run of `cobalt_daemon` that ends keeps the call order `Ordered`,
whatever the environment answers and however often the stale-file branch
restarts the function. -/
theorem run_ordered (env : Env) (hook : AtExit) (u d : Option String) :
    ∀ (fuel depth : Nat) (w : World) (out : Outcome), Ordered w.trace →
      cobalt_daemon env hook fuel depth w u d = some out → Ordered out.world.trace := by
  intro fuel
  induction fuel with
  | zero => intro depth w out _ h; simp [cobalt_daemon] at h
  | succ fuel ih =>
    intro depth w out ht h
    unfold cobalt_daemon at h
    have h1 := start_ordered (env depth) hook w u d ht
    cases hs : start (env depth) hook w u d with
    | fail w1 =>
      rw [hs] at h
      simp only [Option.some.injEq] at h
      subst h
      exact Res.All_fail h1 hs
    | next a =>
      obtain ⟨w1, name, id⟩ := a
      obtain ⟨ho1, hfc⟩ := Res.All_next h1 hs
      rw [hs] at h
      simp only at h
      split at h
      · have h2 := inspect_existing_spec (env depth) w1
        cases hi : inspect_existing (env depth) w1 with
        | fail w2 =>
          rw [hi] at h
          simp only [Option.some.injEq] at h
          subst h
          have h2 := h2
          rw [hi] at h2
          exact ordered_pidfile _ _ h2.2.2.2.2.2.2.2 hfc ho1
        | undef w2 =>
          rw [hi] at h
          simp only [Option.some.injEq] at h
          subst h
          rw [hi] at h2
          exact ordered_pidfile _ _ h2 hfc ho1
        | again w2 =>
          rw [hi] at h
          simp only at h
          rw [hi] at h2
          exact ih (depth + 1) w2 out (ordered_pidfile _ _ h2.2.2.2.2.2.2.2.2 hfc ho1) h
      · have h2 := finish_ordered (env depth) w1 name id ho1 hfc
        cases hf : finish (env depth) w1 name id with
        | fail w2 =>
          rw [hf] at h
          simp only [Option.some.injEq] at h
          subst h
          exact Res.All_fail h2 hf
        | next w2 =>
          rw [hf] at h
          simp only [Option.some.injEq] at h
          subst h
          have h3 := Res.All_next h2 hf
          exact h3

/-! ## What an activation that reaches its end went through -/

theorem lowestFree_congr (w w2 : World) (hf : ∀ n, w2.fds n = w.fds n)
    (hn : w2.nofile = w.nofile) : w2.lowestFree = w.lowestFree := by
  have : w2.fds = w.fds := funext hf
  simp only [World.lowestFree, this, hn]

/-- The state handed from the first part of an activation to the rest: the
caller is root, the account is not, `pidfile_name` is the PID path, the
process is the child of the `fork`, and the exclusive create either failed or
put the new, empty file on the lowest free descriptor. -/
theorem start_next (s : Sys) (hook : AtExit) (w : World) (u d : Option String) (w1 : World)
    (name : String) (id : Identity) (h : start s hook w u d = .next (w1, name, id)) :
    w.euid = 0 ∧ d = some name ∧ 1 ≤ id.uid ∧
    (∃ user size, u = some user ∧ s.getpwnam_r user size = .found id.uid id.gid) ∧
    w1.pidfile_name = "/var/run/" ++ name ++ ".pid" ∧ w1.pid ∈ s.fork ∧ w1.euid = w.euid ∧
    w1.egid = w.egid ∧ w1.nofile = w.nofile ∧
    ((w1.pidfile_fd = -1 ∧ w1.fds = w.fds) ∨
     ∃ k : Nat, w1.pidfile_fd = (k : Int) ∧ w.lowestFree = some k ∧
       (∀ n, w1.fds n = if n = k then some (.file w1.pidfile_name) else w.fds n) ∧
       w.fs w1.pidfile_name = none ∧
       ∀ q, w1.fs q = if q = w1.pidfile_name then some [] else w.fs q) := by
  unfold start at h
  have h1 := resolve_identity_spec s w u d
  cases hr : resolve_identity s w u d with
  | fail wa => rw [hr] at h; cases h
  | next a =>
    obtain ⟨wa, na, ia⟩ := a
    rw [hr] at h
    dsimp only at h
    obtain ⟨hfa, -, he, hd, huid, -, hpw⟩ := Res.All_next h1 hr
    obtain ⟨-, hae, hag, haf, han, -, -, has⟩ := hfa
    have h2 := prepare_directory_spec s wa na ia
    cases hp : prepare_directory s wa na ia with
    | fail wb => rw [hp] at h; cases h
    | next wb =>
      rw [hp] at h
      dsimp only at h
      obtain ⟨hfb, -, hname, -, -⟩ := Res.All_next h2 hp
      obtain ⟨-, hbe, hbg, hbf, hbn, -, hbs⟩ := hfb
      have h3 := fork_child_spec s hook wb
      cases hf : fork_child s hook wb with
      | fail wc => rw [hf] at h; cases h
      | next wc =>
        rw [hf] at h
        dsimp only at h
        obtain ⟨hcp, hce, hcg, hcf, hcn, -, hcname, hcs, -, -⟩ := Res.All_next h3 hf
        have hw1 : create_pidfile s wc = w1 := by injection h with h; exact (Prod.mk.inj h).1
        have hna : na = name := by injection h with h; exact (Prod.mk.inj (Prod.mk.inj h).2).1
        have hia : ia = id := by injection h with h; exact (Prod.mk.inj (Prod.mk.inj h).2).2
        subst hw1 hna hia
        obtain ⟨kp, ke, kg, kn, kname, -, kcase⟩ := create_pidfile_spec s wc
        have hfds : wc.fds = w.fds := by rw [hcf, hbf, haf]
        have hfs : wc.fs = w.fs := by rw [hcs, hbs, has]
        have hlow : wc.lowestFree = w.lowestFree :=
          lowestFree_congr w wc (by intro n; rw [hfds]) (by rw [hcn, hbn, han])
        refine ⟨he, hd, huid, hpw, by rw [kname, hcname, hname], by rw [kp]; exact hcp,
          by rw [ke, hce, hbe, hae], by rw [kg, hcg, hbg, hag], by rw [kn, hcn, hbn, han], ?_⟩
        rcases kcase with ⟨k1, k2, -⟩ | ⟨k, k1, k2, k3, -, k5, k6⟩
        · exact Or.inl ⟨k1, by rw [k2, hfds]⟩
        · refine Or.inr ⟨k, k1, by rw [← hlow]; exact k2, ?_, ?_, ?_⟩
          · intro n; rw [k3, kname, hfds]
          · rw [kname, ← hfs]; exact k5
          · intro q; rw [k6, kname, hfs]

/-- The state after the second part of an activation went through: the PID
file holds the pid text, the identity is the target one, the two privilege
drops are adjacent calls of the trace, and the descriptor table is the one the
loop and the three redirections leave. -/
theorem finish_next (s : Sys) (w : World) (name : String) (id : Identity) (w2 : World)
    (h : finish s w name id = .next w2) :
    w2.pid = w.pid ∧ w2.nofile = w.nofile ∧ w2.pidfile_name = w.pidfile_name ∧
    w2.pidfile_fd = w.pidfile_fd ∧ w2.euid = id.uid ∧ w2.egid = id.gid ∧
    (∀ q, w2.fs q = if q = w.pidfile_name then some (snprintf_pid w.pid) else w.fs q) ∧
    (∀ n : Nat, n < 3 → (n : Int) = w.pidfile_fd → w.fds n = none) ∧
    (∀ n : Nat, w2.fds n = if n < 3 then some Obj.devnull
      else if n ≤ MAX_OPEN_FDS ∧ (n : Int) ≠ w.pidfile_fd then none else w.fds n) ∧
    ∃ pre post, w2.trace = pre ++ [(w.pid, .setresgid id.gid id.gid id.gid true),
      (w.pid, .setresuid id.uid id.uid id.uid true)] ++ post := by
  unfold finish at h
  have h1 := lock_and_write_spec s w id
  cases hl : lock_and_write s w id with
  | fail wa => rw [hl] at h; cases h
  | next wa =>
    rw [hl] at h
    dsimp only at h
    obtain ⟨ap, -, -, an, aname, afd, ⟨ea, hea, -⟩, afds, afs, -, -⟩ := Res.All_next h1 hl
    have h2 := detach_and_drop_spec s wa name id
    cases hd : detach_and_drop s wa name id with
    | fail wb => rw [hd] at h; cases h
    | next wb =>
      rw [hd] at h
      dsimp only at h
      obtain ⟨bp, bn, bname, bfd, bfs, bfds, be, bg, btr⟩ := Res.All_next h2 hd
      have h3 := redirect_streams_spec s wb
      obtain ⟨cp, ce, cg, cn, cname, cfd, cfs, ⟨ec, hec, -⟩, c0, c1, c2, cfds⟩ :=
        Res.All_next h3 h
      have hloop : ∀ n : Nat, wb.closeLoop.fds n
          = if n ≤ MAX_OPEN_FDS ∧ (n : Int) ≠ w.pidfile_fd then none else w.fds n := by
        intro n; rw [World.closeLoop_fds, bfd, afd, bfds, afds]
      refine ⟨by rw [cp, bp, ap], by rw [cn, bn, an], by rw [cname, bname, aname],
        by rw [cfd, bfd, afd], by rw [ce, be], by rw [cg, bg], ?_, ?_, ?_, ?_⟩
      · intro q; rw [cfs, bfs, afs]
      · intro n hn hfd
        have hz : wb.closeLoop.fds n = none := by
          rcases (by omega : n = 0 ∨ n = 1 ∨ n = 2) with rfl | rfl | rfl
          · exact c0
          · exact c1
          · exact c2
        rw [hloop n] at hz
        simpa [hfd] using hz
      · intro n; rw [cfds, hloop]
      · refine ⟨w.trace ++ ea ++ [(w.pid, .setsid true), (w.pid, .umask DAEMON_UMASK),
          (w.pid, .openlog name)], ec, ?_⟩
        rw [hec, btr, hea, ap]
        simp

/-- A run that returns 0: its last activation started from a state with the
descriptors, the limit and the identity of the first one, created the PID
file, and went through to the end. -/
theorem run_returns_zero (env : Env) (hook : AtExit) (u d : Option String) :
    ∀ (fuel depth : Nat) (w w2 : World),
      cobalt_daemon env hook fuel depth w u d = some (.ret 0 w2) →
      ∃ (j : Nat) (ws w1 : World) (name : String) (id : Identity),
        (∀ n, ws.fds n = w.fds n) ∧ ws.nofile = w.nofile ∧ ws.euid = w.euid ∧
        start (env j) hook ws u d = .next (w1, name, id) ∧ w1.pidfile_fd ≠ -1 ∧
        finish (env j) w1 name id = .next w2 := by
  intro fuel
  induction fuel with
  | zero => intro depth w w2 h; simp [cobalt_daemon] at h
  | succ fuel ih =>
    intro depth w w2 h
    unfold cobalt_daemon at h
    cases hs : start (env depth) hook w u d with
    | fail w1 => rw [hs] at h; simp at h
    | next a =>
      obtain ⟨w1, name, id⟩ := a
      rw [hs] at h
      simp only at h
      split at h
      · rename_i hfd
        have h2 := inspect_existing_spec (env depth) w1
        cases hi : inspect_existing (env depth) w1 with
        | fail wa => rw [hi] at h; simp at h
        | undef wa => rw [hi] at h; simp at h
        | again wa =>
          rw [hi] at h h2
          simp only at h
          obtain ⟨-, ae, -, an, -, -, -, afds, -⟩ := h2
          obtain ⟨-, -, -, -, -, -, se, -, sn, scase⟩ := start_next _ _ _ _ _ _ _ _ hs
          have sfds : w1.fds = w.fds := by
            rcases scase with ⟨-, hf⟩ | ⟨k, hk, -⟩
            · exact hf
            · rw [hfd] at hk; omega
          obtain ⟨j, ws, wb, nb, ib, b1, b2, b3, b4⟩ := ih (depth + 1) wa w2 h
          exact ⟨j, ws, wb, nb, ib, by intro n; rw [b1, afds, sfds], by rw [b2, an, sn],
            by rw [b3, ae, se], b4⟩
      · rename_i hfd
        cases hf : finish (env depth) w1 name id with
        | fail wa => rw [hf] at h; simp at h
        | next wa =>
          rw [hf] at h
          simp only [Option.some.injEq, Outcome.ret.injEq, true_and] at h
          subst h
          exact ⟨depth, w, w1, name, id, fun _ => rfl, rfl, rfl, hs, hfd, hf⟩

/-! ## Consequences for whole runs -/

theorem precedes_weaken {p p2 q : Event → Bool} {t : List (Nat × Event)} (h : Precedes p q t)
    (hp : ∀ e, p e = true → p2 e = true) : Precedes p2 q t := by
  intro a e b hab hq
  obtain ⟨x, hx, hpx⟩ := h a e b hab hq
  exact ⟨x, hx, hp _ hpx⟩

theorem lookup_not_mutating (e : Event) (h : e.isLookup = true) : e.mutates = false := by
  cases e with
  | close fd b => cases b <;> simp [Event.isLookup, Event.phase] at h
  | _ => first | rfl | simp [Event.isLookup, Event.phase] at h

/-- A caller that is not root, or an account that is root, is turned away by
the first segment. -/
theorem resolve_identity_rejects (s : Sys) (w : World) (u d : Option String)
    (h : w.euid ≠ 0 ∨
      ∃ user, u = some user ∧ ∀ size, ∃ gid, s.getpwnam_r user size = .found 0 gid) :
    ∃ w2, resolve_identity s w u d = .fail w2 := by
  have h1 := resolve_identity_spec s w u d
  cases hr : resolve_identity s w u d with
  | fail w2 => exact ⟨w2, rfl⟩
  | next a =>
    exfalso
    obtain ⟨-, -, he, -, huid, -, user, size, hu, hpw⟩ := Res.All_next h1 hr
    rcases h with h | ⟨user2, hu2, hroot⟩
    · exact h he
    · rw [hu] at hu2
      cases hu2
      obtain ⟨gid, hg⟩ := hroot size
      rw [hpw] at hg
      have h0 : a.2.2.uid = 0 := by injection hg
      omega

/-! ## Who makes the calls -/

theorem traceBy_append_iff (pid : Nat) (t evs : List (Nat × Event)) :
    TraceBy pid t (t ++ evs) ↔ ∀ e ∈ evs, e.1 = pid := by
  constructor
  · rintro ⟨evs2, h, hK⟩
    rw [List.append_cancel_left h]
    exact hK
  · exact fun h => ⟨evs, rfl, h⟩

/-- The calls of the PID file part that lead to the next part are all made by
the process itself. -/
theorem lock_and_write_owner (s : Sys) (w : World) (id : Identity) :
    (lock_and_write s w id).All (fun _ => True) (fun w2 => TraceBy w.pid w.trace w2.trace) := by
  simp only [lock_and_write]
  repeat' split
  all_goals simp_all [Res.All, traceBy_append_iff]

/-- The parent of a successful `fork` leaves through `exit (EXIT_SUCCESS)`. -/
theorem fork_child_exit (s : Sys) (hook : AtExit) (w w2 : World)
    (h : fork_child s hook w = .next w2) :
    ∃ evs, w2.trace = w.trace ++ evs ∧ (w.pid, Event.procExit 0) ∈ evs ∧
      ∀ e ∈ evs, e.2.isForkStep = true := by
  unfold fork_child at h
  cases hf : s.fork with
  | none => rw [hf] at h; cases h
  | some c =>
    rw [hf] at h
    simp only [Res.next.injEq] at h
    subst h
    obtain ⟨-, evs, hevs, hK⟩ := atexit_empty_name hook
      (((w.setName "").log (.fork c)).log (.procExit 0)) rfl
    refine ⟨[(w.pid, .fork c), (w.pid, .procExit 0)] ++ evs ++ [(c, .fork 0)], ?_, by simp, ?_⟩
    · simp only [World.log_trace, World.asChild_trace, World.asChild_pid, hevs,
        World.setName_trace, World.log_pid, World.setName_pid]
      simp
    · intro e he
      simp only [List.mem_append, List.mem_cons, List.mem_singleton, List.not_mem_nil,
        or_false] at he
      rcases he with ((rfl | rfl) | he) | rfl
      · rfl
      · rfl
      · exact hK e he
      · rfl

/-- The first part of an activation that reaches the exclusive create: the
state `wc` in which `open` is called. -/
theorem start_reaches_create (s : Sys) (hook : AtExit) (w : World) (u d : Option String)
    (w1 : World) (name : String) (id : Identity)
    (h : start s hook w u d = .next (w1, name, id)) :
    ∃ wc, w1 = create_pidfile s wc ∧
      wc.pidfile_name = "/var/run/" ++ name ++ ".pid" ∧ wc.pid ∈ s.fork ∧
      wc.nofile = w.nofile ∧ wc.fds = w.fds ∧ wc.fs = w.fs ∧
      ∃ evs, wc.trace = w.trace ++ evs ∧ (w.pid, Event.procExit 0) ∈ evs ∧
        ∀ e ∈ evs, e.2.phase ≠ 4 := by
  unfold start at h
  have h1 := resolve_identity_spec s w u d
  cases hr : resolve_identity s w u d with
  | fail wa => rw [hr] at h; cases h
  | next a =>
    obtain ⟨wa, na, ia⟩ := a
    rw [hr] at h
    dsimp only at h
    obtain ⟨hfa, ⟨ea, hea, hKa⟩, -⟩ := Res.All_next h1 hr
    obtain ⟨hap, -, -, haf, han, -, -, has⟩ := hfa
    have h2 := prepare_directory_spec s wa na ia
    cases hp : prepare_directory s wa na ia with
    | fail wb => rw [hp] at h; cases h
    | next wb =>
      rw [hp] at h
      dsimp only at h
      obtain ⟨hfb, ⟨eb, heb, hKb⟩, hname, -, -⟩ := Res.All_next h2 hp
      obtain ⟨hbp, -, -, hbf, hbn, -, hbs⟩ := hfb
      have h3 := fork_child_spec s hook wb
      cases hf : fork_child s hook wb with
      | fail wc => rw [hf] at h; cases h
      | next wc =>
        rw [hf] at h
        dsimp only at h
        obtain ⟨hcp, -, -, hcf, hcn, -, hcname, hcs, -, -⟩ := Res.All_next h3 hf
        obtain ⟨ec, hec, hexit, hKc⟩ := fork_child_exit s hook wb wc hf
        have hw1 : create_pidfile s wc = w1 := by injection h with h; exact (Prod.mk.inj h).1
        have hna : na = name := by injection h with h; exact (Prod.mk.inj (Prod.mk.inj h).2).1
        subst hw1 hna
        refine ⟨wc, rfl, by rw [hcname, hname], hcp, by rw [hcn, hbn, han],
          by rw [hcf, hbf, haf], by rw [hcs, hbs, has], ea ++ eb ++ ec, ?_, ?_, ?_⟩
        · rw [hec, heb, hea]; simp
        · rw [hbp, hap] at hexit
          simp [hexit]
        · intro e he
          simp only [List.mem_append] at he
          rcases he with (he | he) | he
          · have := hKa e he
            simp only [Event.isLookup, beq_iff_eq] at this
            omega
          · have := hKb e he
            simp only [Event.isDirCall, beq_iff_eq] at this
            omega
          · have := hKc e he
            simp only [Event.isForkStep, Bool.or_eq_true, beq_iff_eq] at this
            omega

/-- The calls an activation makes up to and including the exclusive create:
the parent exits, and the only call on the PID file is the create, made by
the child. -/
theorem start_trace (s : Sys) (hook : AtExit) (w : World) (u d : Option String)
    (w1 : World) (name : String) (id : Identity)
    (h : start s hook w u d = .next (w1, name, id)) :
    ∃ evs, w1.trace = w.trace ++ evs ++ [(w1.pid, .openExcl w1.pidfile_name w1.pidfile_fd)] ∧
      (w.pid, Event.procExit 0) ∈ evs ∧ ∀ e ∈ evs, e.2.phase ≠ 4 := by
  obtain ⟨wc, rfl, -, -, -, -, -, evs, hevs, hexit, hK⟩ := start_reaches_create _ _ _ _ _ _ _ _ h
  obtain ⟨kp, -, -, -, kname, ktr, -⟩ := create_pidfile_spec s wc
  exact ⟨evs, by rw [ktr, hevs, kp, kname], hexit, hK⟩

/-- The exclusive create of an activation in which every call succeeds: with
no file at the PID path it gives the lowest free descriptor, with a file there
it fails and changes nothing. -/
theorem start_create (s : Sys) (hook : AtExit) (w : World) (u d : Option String)
    (w1 : World) (name : String) (id : Identity) (hs : s.Succeeds)
    (h : start s hook w u d = .next (w1, name, id)) :
    (w.fs w1.pidfile_name = none → ∀ k, w.lowestFree = some k → w1.pidfile_fd = (k : Int)) ∧
    (∀ c, w.fs w1.pidfile_name = some c →
      w1.pidfile_fd = -1 ∧ w1.fs = w.fs ∧ w1.fds = w.fds) := by
  obtain ⟨wc, rfl, -, -, hn, hfds, hfs, -⟩ := start_reaches_create _ _ _ _ _ _ _ _ h
  obtain ⟨-, -, -, -, kname, -, kcase⟩ := create_pidfile_spec s wc
  constructor
  · intro habs k hk
    apply create_pidfile_ok s wc k hs
    · rw [← kname, hfs]; exact habs
    · rw [lowestFree_congr w wc (by intro n; rw [hfds]) hn]; exact hk
  · intro c hc
    rcases kcase with ⟨k1, k2, k3, -⟩ | ⟨k, -, -, -, -, k5, -⟩
    · exact ⟨k1, by rw [k3 hs.racer, hfs], by rw [k2, hfds]⟩
    · rw [kname] at hc
      rw [hfs, hc] at k5
      cases k5

/-! ## The steps of `cobalt_daemon` after the first part -/

theorem cobalt_daemon_failed (env : Env) (hook : AtExit) (fuel depth : Nat) (w : World)
    (u d : Option String) (w1 : World) (name : String) (id : Identity) (w2 : World)
    (hs : start (env depth) hook w u d = .next (w1, name, id)) (hfd : w1.pidfile_fd = -1)
    (hi : inspect_existing (env depth) w1 = .fail w2) :
    cobalt_daemon env hook (fuel + 1) depth w u d = some (.ret (-1) w2) := by
  rw [cobalt_daemon, hs]
  simp only [hfd, if_true, hi]

theorem cobalt_daemon_again (env : Env) (hook : AtExit) (fuel depth : Nat) (w : World)
    (u d : Option String) (w1 : World) (name : String) (id : Identity) (w2 : World)
    (hs : start (env depth) hook w u d = .next (w1, name, id)) (hfd : w1.pidfile_fd = -1)
    (hi : inspect_existing (env depth) w1 = .again w2) :
    cobalt_daemon env hook (fuel + 1) depth w u d
      = cobalt_daemon env hook fuel (depth + 1) w2 u d := by
  rw [cobalt_daemon, hs]
  simp only [hfd, if_true, hi]

theorem cobalt_daemon_finished (env : Env) (hook : AtExit) (fuel depth : Nat) (w : World)
    (u d : Option String) (w1 : World) (name : String) (id : Identity) (w2 : World)
    (hs : start (env depth) hook w u d = .next (w1, name, id)) (hfd : w1.pidfile_fd ≠ -1)
    (hf : finish (env depth) w1 name id = .next w2) :
    cobalt_daemon env hook (fuel + 1) depth w u d = some (.ret 0 w2) := by
  rw [cobalt_daemon, hs]
  simp only [hfd, if_false, hf]

/-- In the second part of an activation every call on the PID file is made by
the process itself. -/
theorem finish_trace (s : Sys) (w : World) (name : String) (id : Identity) (w2 : World)
    (h : finish s w name id = .next w2) :
    ∃ evs, w2.trace = w.trace ++ evs ∧ ∀ e ∈ evs, e.2.phase = 4 → e.1 = w.pid := by
  unfold finish at h
  have h1 := lock_and_write_owner s w id
  cases hl : lock_and_write s w id with
  | fail wa => rw [hl] at h; cases h
  | next wa =>
    rw [hl] at h
    dsimp only at h
    obtain ⟨ea, hea, hKa⟩ := Res.All_next h1 hl
    have h2 := detach_and_drop_spec s wa name id
    cases hd : detach_and_drop s wa name id with
    | fail wb => rw [hd] at h; cases h
    | next wb =>
      rw [hd] at h
      dsimp only at h
      obtain ⟨-, -, -, -, -, -, -, -, btr⟩ := Res.All_next h2 hd
      obtain ⟨-, -, -, -, -, -, -, ⟨ec, hec, hKc⟩, -⟩ :=
        Res.All_next (redirect_streams_spec s wb) h
      refine ⟨ea ++ [(wa.pid, .setsid true), (wa.pid, .umask DAEMON_UMASK),
        (wa.pid, .openlog name), (wa.pid, .setresgid id.gid id.gid id.gid true),
        (wa.pid, .setresuid id.uid id.uid id.uid true)] ++ ec, ?_, ?_⟩
      · rw [hec, btr, hea]; simp
      · intro e he h4
        simp only [List.mem_append, List.mem_cons, List.mem_singleton, List.not_mem_nil,
          or_false] at he
        rcases he with (he | he) | he
        · exact hKa e he
        · rcases he with rfl | rfl | rfl | rfl | rfl <;> simp [Event.phase] at h4
        · have := hKc e he
          simp only [Event.isRedirectStep, Bool.or_eq_true, beq_iff_eq] at this
          omega

theorem start_ok (s : Sys) (hook : AtExit) (w : World) (user name : String) (uid gid c : Nat)
    (hs : s.Succeeds) (hu : user ≠ "") (hd : name ≠ "") (he : w.euid = 0)
    (hpw : ∀ n, s.getpwnam_r user n = .found uid gid) (huid : 1 ≤ uid)
    (hlen : ("/var/run/" ++ name ++ ".pid").length < PATH_MAX) (hf : s.fork = some c) :
    ∃ w1, start s hook w (some user) (some name) = .next (w1, name, ⟨uid, gid⟩) := by
  obtain ⟨wa, ha⟩ := resolve_identity_ok s w user name uid gid hs hu hd he hpw huid
  obtain ⟨wb, hb⟩ := prepare_directory_ok s wa name ⟨uid, gid⟩ hs hlen
  obtain ⟨wc, hc⟩ := fork_child_ok s hook wb c hf
  exact ⟨create_pidfile s wc, by simp [start, ha, hb, hc]⟩

theorem finish_ok (s : Sys) (w : World) (name : String) (id : Identity) (k : Nat)
    (hs : s.Succeeds) (hpid : w.pid < 2 ^ 31) (hfd : w.pidfile_fd = (k : Int)) (hk3 : 3 ≤ k)
    (hkn : k < w.nofile) : ∃ w2, finish s w name id = .next w2 := by
  obtain ⟨wa, ha⟩ := lock_and_write_ok s w id hs hpid
  obtain ⟨-, -, -, an, -, afd, -⟩ := Res.All_next (lock_and_write_spec s w id) ha
  obtain ⟨wb, hb⟩ := detach_and_drop_ok s wa name id hs
  obtain ⟨-, bn, -, bfd, -⟩ := Res.All_next (detach_and_drop_spec s wa name id) hb
  obtain ⟨wc, hc⟩ := redirect_streams_ok s wb k hs (by rw [bfd, afd, hfd]) hk3
    (by rw [bn, an]; exact hkn)
  exact ⟨wc, by simp [finish, ha, hb, hc]⟩

/-- An activation in which every call succeeds, started by root for an account
other than root, with no file at the PID path and the lowest free descriptor
above 2: it returns 0 in the child, the PID file holds the pid of the child,
the parent has left through `exit`, and every call on the PID file was made by
the child. -/
theorem activation_succeeds (env : Env) (hook : AtExit) (fuel depth : Nat) (w : World)
    (user name : String) (uid gid c k : Nat)
    (hs : (env depth).Succeeds) (hu : user ≠ "") (hd : name ≠ "") (he : w.euid = 0)
    (hpw : ∀ n, (env depth).getpwnam_r user n = .found uid gid) (huid : 1 ≤ uid)
    (hlen : ("/var/run/" ++ name ++ ".pid").length < PATH_MAX)
    (habs : w.fs ("/var/run/" ++ name ++ ".pid") = none)
    (hfork : (env depth).fork = some c) (hc : c < 2 ^ 31)
    (hk : w.lowestFree = some k) (hk3 : 3 ≤ k) :
    ∃ w2, cobalt_daemon env hook (fuel + 1) depth w (some user) (some name)
        = some (.ret 0 w2) ∧
      w2.pid = c ∧ w2.pidfile_name = "/var/run/" ++ name ++ ".pid" ∧
      w2.pidfile_fd = (k : Int) ∧ w2.euid = uid ∧ w2.egid = gid ∧
      (∀ q, w2.fs q = if q = "/var/run/" ++ name ++ ".pid" then some (snprintf_pid c)
        else w.fs q) ∧
      ∃ evs post, w2.trace
          = w.trace ++ evs ++ (c, .openExcl ("/var/run/" ++ name ++ ".pid") k) :: post ∧
        (w.pid, Event.procExit 0) ∈ evs ∧ (∀ e ∈ evs, e.2.phase ≠ 4) ∧
        ∀ e ∈ post, e.2.phase = 4 → e.1 = c := by
  obtain ⟨w1, h1⟩ := start_ok (env depth) hook w user name uid gid c hs hu hd he hpw huid
    hlen hfork
  obtain ⟨-, -, -, -, sname, spid, -, -, sn, scase⟩ := start_next _ _ _ _ _ _ _ _ h1
  have spid2 : w1.pid = c := by
    rw [hfork] at spid; exact (Option.some.inj spid).symm
  have sfd : w1.pidfile_fd = (k : Int) :=
    (start_create _ _ _ _ _ _ _ _ hs h1).1 (by rw [sname]; exact habs) k hk
  have hne : w1.pidfile_fd ≠ -1 := by rw [sfd]; omega
  obtain ⟨ev1, htr1, hexit, hK1⟩ := start_trace _ _ _ _ _ _ _ _ h1
  have sfs : ∀ q, w1.fs q = if q = w1.pidfile_name then some [] else w.fs q := by
    rcases scase with ⟨hbad, -⟩ | ⟨k2, -, -, -, -, hfs⟩
    · exact absurd hbad hne
    · exact hfs
  have hkn : k < w1.nofile := by
    rw [sn]; exact (World.lowestFree_spec w k hk).1
  obtain ⟨w2, h2⟩ := finish_ok (env depth) w1 name ⟨uid, gid⟩ k hs (by rw [spid2]; exact hc)
    sfd hk3 hkn
  obtain ⟨fp, -, fname, ffd, fe, fg, ffs, -, -, -⟩ := finish_next _ _ _ _ _ h2
  obtain ⟨ev2, htr2, hK2⟩ := finish_trace _ _ _ _ _ h2
  refine ⟨w2, cobalt_daemon_finished env hook fuel depth w _ _ w1 name _ w2 h1 hne h2,
    by rw [fp, spid2], by rw [fname, sname], by rw [ffd, sfd], fe, fg, ?_, ev1, ev2, ?_,
    hexit, hK1, ?_⟩
  · intro q
    rw [ffs, sfs, sname, spid2]
    by_cases hq : q = "/var/run/" ++ name ++ ".pid" <;> simp [hq]
  · rw [htr2, htr1, spid2, sname, sfd]; simp
  · intro e he h4
    rw [← spid2]
    exact hK2 e he h4

/-! ## The phases, call by call and process by process -/

theorem scanExt_append_iff (k j : Nat) (t evs : List (Nat × Event)) :
    ScanExt k j t (t ++ evs) ↔ phasesInOrder k evs = true ∧ phaseAfter k evs ≤ j := by
  constructor
  · rintro ⟨evs2, h, hK⟩
    rw [List.append_cancel_left h]
    exact hK
  · exact fun h => ⟨evs, rfl, h⟩

theorem scanExt_self_iff (k j : Nat) (t : List (Nat × Event)) :
    ScanExt k j t t ↔ k ≤ j := by
  have := scanExt_append_iff k j t []
  simpa [phasesInOrder, phaseAfter] using this

/-- C4 (validation before any side effect): when the effective uid of the
caller is not 0, or the account name resolves to uid 0, `cobalt_daemon`
returns `-1`, the state differs from the initial one in the trace only, and
none of the calls it made (`geteuid`, `sysconf`, `malloc`, `getpwnam_r`) is a
`mkdir`, `chown`, `chdir`, file create or open, `unlink`, truncate, `write` or
`fork`. -/
theorem validation_before_side_effects (env : Env) (hook : AtExit) (fuel depth : Nat)
    (w : World) (username daemonname : Option String)
    (h : w.euid ≠ 0 ∨ ∃ user, username = some user ∧
      ∀ size, ∃ gid, (env depth).getpwnam_r user size = .found 0 gid) :
    ∃ w2 evs, cobalt_daemon env hook (fuel + 1) depth w username daemonname
        = some (.ret (-1) w2) ∧
      Frame w w2 ∧ w2.trace = w.trace ++ evs ∧ ∀ e ∈ evs, e.2.mutates = false := by
  obtain ⟨w2, hw2⟩ := resolve_identity_rejects (env depth) w username daemonname h
  have hspec := resolve_identity_spec (env depth) w username daemonname
  obtain ⟨hframe, evs, hevs, hK⟩ := Res.All_fail hspec hw2
  refine ⟨w2, evs, ?_, hframe, hevs, fun e he => lookup_not_mutating _ (hK e he)⟩
  simp [cobalt_daemon, start, hw2]

/-- C6 (privilege-drop ordering): in the trace of every run of `cobalt_daemon`
that ends, a successful `setsid` comes before any `setresgid` or `setresuid`
call, a successful `setresgid` before any `setresuid` call, `openlog` and both
successful privilege drops before any `close` of the descriptor loop; and when
the run returns 0, `setresgid (gid, gid, gid)` and `setresuid (uid, uid, uid)`
succeeded, in that order, with the uid and gid that `getpwnam_r` gave for the
account, and these are the effective ids of the process. -/
theorem privilege_drop_ordering (env : Env) (hook : AtExit) (fuel depth : Nat) (w : World)
    (username daemonname : Option String) (out : Outcome) (ht : w.trace = [])
    (h : cobalt_daemon env hook fuel depth w username daemonname = some out) :
    Precedes Event.isSetsid Event.isPrivDrop out.world.trace ∧
    Precedes Event.isSetsidOk Event.isPrivDrop out.world.trace ∧
    Precedes Event.isSetresgidOk Event.isSetresuid out.world.trace ∧
    Precedes Event.isOpenlog Event.isLoopClose out.world.trace ∧
    Precedes Event.isSetresgidOk Event.isLoopClose out.world.trace ∧
    Precedes Event.isSetresuidOk Event.isLoopClose out.world.trace ∧
    (out.code = some 0 →
      ∃ (j : Nat) (user : String) (size uid gid p : Nat) (pre post : List (Nat × Event)),
        username = some user ∧ (env j).getpwnam_r user size = .found uid gid ∧
        out.world.trace = pre ++ [(p, .setresgid gid gid gid true),
          (p, .setresuid uid uid uid true)] ++ post ∧
        out.world.euid = uid ∧ out.world.egid = gid) := by
  have ho : Ordered out.world.trace :=
    run_ordered env hook username daemonname fuel depth w out (by rw [ht]; exact ordered_nil) h
  have hsid := Precedes_of_precedesB _ _ _ ho.drop
  refine ⟨precedes_weaken hsid ?_, hsid, Precedes_of_precedesB _ _ _ ho.uid,
    Precedes_of_precedesB _ _ _ ho.loop_log, Precedes_of_precedesB _ _ _ ho.loop_gid,
    Precedes_of_precedesB _ _ _ ho.loop_uid, ?_⟩
  · intro e he
    cases e <;> simp_all [Event.isSetsidOk, Event.isSetsid]
  · intro hc
    cases out with
    | undef w2 => simp [Outcome.code] at hc
    | ret c w2 =>
      simp only [Outcome.code, Option.some.injEq] at hc
      subst hc
      obtain ⟨j, ws, w1, name, id, -, -, -, hs, -, hf⟩ :=
        run_returns_zero env hook username daemonname fuel depth w w2 h
      obtain ⟨-, -, -, ⟨user, size, hu, hpw⟩, -⟩ := start_next _ _ _ _ _ _ _ _ hs
      obtain ⟨-, -, -, -, he, hg, -, -, -, pre, post, htr⟩ := finish_next _ _ _ _ _ hf
      exact ⟨j, user, size, id.uid, id.gid, w1.pid, pre, post, hu, hpw, htr, he, hg⟩

/-- C7, amended (descriptor table after success): whenever `cobalt_daemon`
returns 0, the descriptors 0, 1 and 2 refer to `/dev/null`, `pidfile_fd` is a
descriptor above them that refers to the PID file, every other descriptor up
to `MAX_OPEN_FDS` is closed, and a descriptor above `MAX_OPEN_FDS` is as it
was at the call; so when no descriptor above `MAX_OPEN_FDS` was open at the
call, `pidfile_fd` is the only open descriptor besides 0, 1 and 2. -/
theorem descriptor_table_after_success (env : Env) (hook : AtExit) (fuel depth : Nat)
    (w : World) (username daemonname : Option String) (w2 : World)
    (h : cobalt_daemon env hook fuel depth w username daemonname = some (.ret 0 w2)) :
    w2.fds 0 = some .devnull ∧ w2.fds 1 = some .devnull ∧ w2.fds 2 = some .devnull ∧
    ∃ k : Nat, w2.pidfile_fd = (k : Int) ∧ 3 ≤ k ∧ w2.fds k = some (.file w2.pidfile_name) ∧
      (∀ n, 3 ≤ n → n ≤ MAX_OPEN_FDS → n ≠ k → w2.fds n = none) ∧
      (∀ n, MAX_OPEN_FDS < n → n ≠ k → w2.fds n = w.fds n) ∧
      ((∀ n, MAX_OPEN_FDS < n → w.fds n = none) →
        ∀ n, w2.fds n ≠ none → n < 3 ∨ n = k) := by
  obtain ⟨j, ws, w1, name, id, hfds, -, -, hs, hne, hf⟩ :=
    run_returns_zero env hook username daemonname fuel depth w w2 h
  obtain ⟨-, -, -, -, -, -, -, -, -, scase⟩ := start_next _ _ _ _ _ _ _ _ hs
  obtain ⟨-, -, fname, ffd, -, -, -, flow, ffds, -⟩ := finish_next _ _ _ _ _ hf
  rcases scase with ⟨hbad, -⟩ | ⟨k, hk, -, hk3, -, -⟩
  · exact absurd hbad hne
  · have hopen : w1.fds k = some (.file w1.pidfile_name) := by rw [hk3]; simp
    have h3 : 3 ≤ k := by
      by_contra hlt
      have := flow k (by omega) hk.symm
      rw [hopen] at this
      cases this
    have hk64 : ∀ n : Nat, ((n : Int) ≠ w1.pidfile_fd) ↔ n ≠ k := by
      intro n; rw [hk]; omega
    have hrest : ∀ n, 3 ≤ n → n ≠ k → w2.fds n
        = if n ≤ MAX_OPEN_FDS then none else w.fds n := by
      intro n hn hnk
      have hn3 : ¬ n < 3 := by omega
      rw [ffds, if_neg hn3, hk3, if_neg hnk, hfds]
      by_cases h64 : n ≤ MAX_OPEN_FDS
      · simp [h64, (hk64 n).2 hnk]
      · simp [h64]
    refine ⟨by rw [ffds]; simp, by rw [ffds]; simp, by rw [ffds]; simp, k,
      by rw [ffd, hk], h3, ?_, ?_, ?_, ?_⟩
    · have hk3n : ¬ k < 3 := by omega
      rw [ffds, if_neg hk3n, fname, hopen]
      simp [hk]
    · intro n hn h64 hnk
      rw [hrest n hn hnk, if_pos h64]
    · intro n h64 hnk
      have : ¬ n ≤ MAX_OPEN_FDS := by omega
      rw [hrest n (by simp only [MAX_OPEN_FDS] at h64; omega) hnk, if_neg this]
    · intro habove n hopen2
      by_contra hcon
      have hn3 : 3 ≤ n := by omega
      have hnk : n ≠ k := by omega
      apply hopen2
      rw [hrest n hn3 hnk]
      by_cases h64 : n ≤ MAX_OPEN_FDS
      · simp [h64]
      · simp only [h64, if_false]
        exact habove n (by omega)

/-- C9 (PID text round trip): for a process id `p` with `1 ≤ p ≤ 2 ^ 31 - 1`
(and for `p = 0` as well) the text `snprintf` makes of it (`"%d\n"`) is
shorter than the 32-byte buffer, and the existing-file routine (`read` into
the buffer, trim the newline, `strtoull`, conversion to `pid_t`) gets `p` back
from it, whatever the buffer held before. -/
theorem pid_text_round_trip (p : Nat) (s : Sys) (h : p ≤ 2 ^ 31 - 1) :
    (snprintf_pid p).length < PID_BUF_SIZE ∧
    parse_pid s.stack (snprintf_pid p) = some (p : Int) ∧
    probed_pid s (snprintf_pid p) = some (p : Int) := by
  obtain ⟨hlen, hparse⟩ := parse_pid_snprintf_pid p s.stack (by omega)
  refine ⟨hlen, hparse, ?_⟩
  unfold probed_pid
  rw [List.take_of_length_le (by omega), hparse]

/-! ## Properties of the runs that reach the PID file -/

/-- C1, amended (first run): root calls `cobalt_daemon` for an account with
uid >= 1 and a daemon name whose PID path is shorter than `PATH_MAX`, no file
is at the PID path, every call succeeds, the pid of the child fits `pid_t`, and
the descriptors 0, 1 and 2 are open at the call (`k` being the lowest free
descriptor).  Then the call returns 0 in the child `c`; the files are those of
before and the PID file, which holds the decimal pid of the child and a
newline; the parent has left through `exit (EXIT_SUCCESS)`, and every call on
the PID file was made by the child. -/
theorem first_run_success (env : Env) (hook : AtExit) (fuel depth : Nat) (w : World)
    (user name : String) (uid gid c k : Nat)
    (hs : (env depth).Succeeds) (hu : user ≠ "") (hd : name ≠ "") (he : w.euid = 0)
    (hpw : ∀ n, (env depth).getpwnam_r user n = .found uid gid) (huid : 1 ≤ uid)
    (hlen : ("/var/run/" ++ name ++ ".pid").length < PATH_MAX)
    (habs : w.fs ("/var/run/" ++ name ++ ".pid") = none)
    (hfork : (env depth).fork = some c) (hc : c < 2 ^ 31)
    (h0 : w.fds 0 ≠ none) (h1 : w.fds 1 ≠ none) (h2 : w.fds 2 ≠ none)
    (hk : w.lowestFree = some k) :
    ∃ w2, cobalt_daemon env hook (fuel + 1) depth w (some user) (some name)
        = some (.ret 0 w2) ∧
      w2.pid = c ∧ w2.pidfile_name = "/var/run/" ++ name ++ ".pid" ∧
      (∀ q, w2.fs q = if q = "/var/run/" ++ name ++ ".pid" then some (decimal c ++ [10])
        else w.fs q) ∧
      ∃ evs, w2.trace = w.trace ++ evs ∧ (w.pid, Event.procExit 0) ∈ evs ∧
        ∀ e ∈ evs, e.2.phase = 4 → e.1 = c := by
  have hfree := (World.lowestFree_spec w k hk).2.1
  have hk3 : 3 ≤ k := by
    by_contra hlt
    rcases (by omega : k = 0 ∨ k = 1 ∨ k = 2) with rfl | rfl | rfl
    · exact h0 hfree
    · exact h1 hfree
    · exact h2 hfree
  obtain ⟨w2, hrun, hpid, hname, -, -, -, hfs, evs, post, htr, hexit, hK1, hK2⟩ :=
    activation_succeeds env hook fuel depth w user name uid gid c k hs hu hd he hpw huid hlen
      habs hfork hc hk hk3
  refine ⟨w2, hrun, hpid, hname, hfs, evs ++ (c, .openExcl ("/var/run/" ++ name ++ ".pid") k)
    :: post, by rw [htr]; simp, by simp [hexit], ?_⟩
  intro e he h4
  simp only [List.mem_append, List.mem_cons] at he
  rcases he with he | rfl | he
  · exact absurd h4 (hK1 e he)
  · rfl
  · exact hK2 e he h4

/-- C3, amended (stale PID file): as for the first run, but the PID path holds
the text of a pid `p` (decimal digits and a newline) that `kill (p, 0)` answers
with `ESRCH`, every call of the first and of the second activation succeeds,
and the descriptors 0, 1 and 2 are open.  Then the call returns 0: the child
`c1` of the first activation unlinks the stale file and calls the function
again, which forks once more; the new child `c2` creates the file at the same
path with the exclusive create, and the file holds the pid of `c2`, the
process in which the call returns, and a newline. -/
theorem stale_pid_file_reclaimed (env : Env) (hook : AtExit) (fuel depth : Nat) (w : World)
    (user name : String) (uid gid c1 c2 k p : Nat)
    (hs1 : (env depth).Succeeds) (hs2 : (env (depth + 1)).Succeeds)
    (hu : user ≠ "") (hd : name ≠ "") (he : w.euid = 0)
    (hpw1 : ∀ n, (env depth).getpwnam_r user n = .found uid gid)
    (hpw2 : ∀ n, (env (depth + 1)).getpwnam_r user n = .found uid gid) (huid : 1 ≤ uid)
    (hlen : ("/var/run/" ++ name ++ ".pid").length < PATH_MAX)
    (hfile : w.fs ("/var/run/" ++ name ++ ".pid") = some (decimal p ++ [10]))
    (hp : p < 2 ^ 31) (hprobe : kill (env depth) (p : Int) = .esrch)
    (hfork1 : (env depth).fork = some c1) (hfork2 : (env (depth + 1)).fork = some c2)
    (hc : c2 < 2 ^ 31)
    (h0 : w.fds 0 ≠ none) (h1 : w.fds 1 ≠ none) (h2 : w.fds 2 ≠ none)
    (hk : w.lowestFree = some k) :
    ∃ w2, cobalt_daemon env hook (fuel + 2) depth w (some user) (some name)
        = some (.ret 0 w2) ∧
      w2.pid = c2 ∧
      (∀ q, w2.fs q = if q = "/var/run/" ++ name ++ ".pid" then some (decimal c2 ++ [10])
        else w.fs q) ∧
      ∃ a b z, w2.trace = a ++ (c1, .unlink ("/var/run/" ++ name ++ ".pid") true) :: b ++
        (c2, .openExcl ("/var/run/" ++ name ++ ".pid") k) :: z := by
  have hfree := (World.lowestFree_spec w k hk).2.1
  have hk3 : 3 ≤ k := by
    by_contra hlt
    rcases (by omega : k = 0 ∨ k = 1 ∨ k = 2) with rfl | rfl | rfl
    · exact h0 hfree
    · exact h1 hfree
    · exact h2 hfree
  -- the first activation, up to the exclusive create, which fails
  obtain ⟨w1, hst⟩ := start_ok (env depth) hook w user name uid gid c1 hs1 hu hd he hpw1 huid
    hlen hfork1
  obtain ⟨-, -, -, -, sname, spid, se, -, sn, -⟩ := start_next _ _ _ _ _ _ _ _ hst
  have spid2 : w1.pid = c1 := by
    rw [hfork1] at spid; exact (Option.some.inj spid).symm
  obtain ⟨sfd, sfs, sfds⟩ := (start_create _ _ _ _ _ _ _ _ hs1 hst).2 (decimal p ++ [10])
    (by rw [sname]; exact hfile)
  -- the inspection of the stale file
  have hlow : w1.lowestFree = some k := by
    rw [lowestFree_congr w w1 (by intro n; rw [sfds]) sn]; exact hk
  have hprobed : probed_pid (env depth) (decimal p ++ [10]) = some (p : Int) := by
    obtain ⟨hl, hparse⟩ := parse_pid_snprintf_pid p (env depth).stack hp
    unfold probed_pid
    rw [List.take_of_length_le (by simp only [snprintf_pid] at hl; omega)]
    exact hparse
  obtain ⟨wa, hins, atr⟩ := inspect_existing_stale (env depth) w1 (decimal p ++ [10]) p k
    (by rw [sfs, sname]; exact hfile) (by simp) hs1.open_rdonly hs1.read hs1.unlink hlow
    hprobed hprobe
  have hspec := inspect_existing_spec (env depth) w1
  rw [hins] at hspec
  obtain ⟨-, ae, -, an, -, -, afs, afds, -⟩ := hspec
  -- the second activation
  obtain ⟨w2, hrun, hpid, -, -, -, -, hfs, evs, post, htr, -, -, -⟩ :=
    activation_succeeds env hook fuel (depth + 1) wa user name uid gid c2 k hs2 hu hd
      (by rw [ae, se, he]) hpw2 huid hlen (by rw [afs, sname]; simp) hfork2 hc
      (by rw [lowestFree_congr w1 wa afds an]; exact hlow) hk3
  refine ⟨w2, ?_, hpid, ?_, ?_⟩
  · rw [← hrun]
    exact cobalt_daemon_again env hook (fuel + 1) depth w _ _ w1 name _ wa hst sfd hins
  · intro q
    rw [hfs, afs, sname, sfs]
    by_cases hq : q = "/var/run/" ++ name ++ ".pid" <;> simp [hq, snprintf_pid]
  · refine ⟨w1.trace ++ [(w1.pid, .openRdonly w1.pidfile_name k),
      (w1.pid, .read k (((decimal p ++ [10]).take PID_BUF_SIZE).length : Nat)),
      (w1.pid, .kill p 0 .esrch), (w1.pid, .close k false)], evs, post, ?_⟩
    rw [htr, atr, spid2, sname]
    simp

/-- A PID file whose number is 0 and ends within the bytes read: every call
succeeds and the PID path holds a non-empty file such that the bytes `read`
returns (its first 32 at most), with a newline in the last of them replaced by
the terminator, parse to 0 under `strtoull` and the parse ends within them (as
for "\n", "0\n", "abc\n").  Then the probe is `kill (0, 0)`, which succeeds;
`cobalt_daemon` closes the descriptor and returns `-1` without calling itself
again; the files are untouched and no `unlink` is among the calls. -/
theorem unparsable_pid_file_is_alive (env : Env) (hook : AtExit) (fuel depth : Nat)
    (w : World) (user name : String) (uid gid c k : Nat) (content : List Nat)
    (hs : (env depth).Succeeds) (hu : user ≠ "") (hd : name ≠ "") (he : w.euid = 0)
    (hpw : ∀ n, (env depth).getpwnam_r user n = .found uid gid) (huid : 1 ≤ uid)
    (hlen : ("/var/run/" ++ name ++ ".pid").length < PATH_MAX)
    (hfile : w.fs ("/var/run/" ++ name ++ ".pid") = some content) (hne : content ≠ [])
    (hzero : strtoull (trim_newline (content.take PID_BUF_SIZE)
      (content.take PID_BUF_SIZE).length) = some 0)
    (hfork : (env depth).fork = some c) (hk : w.lowestFree = some k) :
    ∃ w2 evs, cobalt_daemon env hook (fuel + 1) depth w (some user) (some name)
        = some (.ret (-1) w2) ∧
      w2.fs = w.fs ∧
      w2.trace = w.trace ++ evs ++ [(c, .openExcl ("/var/run/" ++ name ++ ".pid") (-1)),
        (c, .openRdonly ("/var/run/" ++ name ++ ".pid") k),
        (c, .read k ((content.take PID_BUF_SIZE).length : Nat)), (c, .kill 0 0 .ok),
        (c, .close k false)] ∧
      ∀ e ∈ evs, e.2.phase ≠ 4 := by
  obtain ⟨w1, hst⟩ := start_ok (env depth) hook w user name uid gid c hs hu hd he hpw huid
    hlen hfork
  obtain ⟨-, -, -, -, sname, spid, -, -, sn, -⟩ := start_next _ _ _ _ _ _ _ _ hst
  have spid2 : w1.pid = c := by
    rw [hfork] at spid; exact (Option.some.inj spid).symm
  obtain ⟨sfd, sfs, sfds⟩ := (start_create _ _ _ _ _ _ _ _ hs hst).2 content
    (by rw [sname]; exact hfile)
  obtain ⟨evs, str, -, hK⟩ := start_trace _ _ _ _ _ _ _ _ hst
  have hlow : w1.lowestFree = some k := by
    rw [lowestFree_congr w w1 (by intro n; rw [sfds]) sn]; exact hk
  have hdata : content.take PID_BUF_SIZE ≠ [] := by
    cases content with
    | nil => exact absurd rfl hne
    | cons x xs => simp [PID_BUF_SIZE]
  have hprobed : probed_pid (env depth) content = some 0 := by
    unfold probed_pid
    rw [parse_pid_of_scan _ _ 0 hdata (by simp) hzero]
    rfl
  obtain ⟨w2, hins, afs, -, -, atr⟩ := inspect_existing_alive (env depth) w1 content 0 k
    (by rw [sfs, sname]; exact hfile) hne hs.open_rdonly hs.read hlow hprobed rfl
  refine ⟨w2, evs, cobalt_daemon_failed env hook fuel depth w _ _ w1 name _ w2 hst sfd hins,
    by rw [afs, sfs], ?_, hK⟩
  rw [atr, str, spid2, sname, sfd]
  simp

/-! ## The example runs -/

set_option maxRecDepth 100000

/-- In the activations of `sysOk` every call succeeds. -/
theorem sysOk_succeeds (c : Nat) : (sysOk c).Succeeds :=
  ⟨fun _ => rfl, rfl, rfl, rfl, rfl, rfl, rfl, rfl, rfl, rfl, rfl, rfl, rfl, fun _ => rfl,
    rfl, rfl, rfl, rfl, rfl, rfl⟩

/-- The first run of the example: root, descriptors 0, 1 and 2 open, no PID
file; the child 4821 returns 0 and `/var/run/exampled.pid` holds `4821\n`. -/
theorem first_run_success_witness :
    ∃ w2, cobalt_daemon envOk .nothing 1 0 rootProcess (some "nobody") (some "exampled")
        = some (.ret 0 w2) ∧
      w2.pid = 4821 ∧ w2.pidfile_name = "/var/run/" ++ "exampled" ++ ".pid" ∧
      (∀ q, w2.fs q = if q = "/var/run/" ++ "exampled" ++ ".pid"
        then some (decimal 4821 ++ [10]) else rootProcess.fs q) ∧
      ∃ evs, w2.trace = rootProcess.trace ++ evs ∧ (rootProcess.pid, Event.procExit 0) ∈ evs ∧
        ∀ e ∈ evs, e.2.phase = 4 → e.1 = 4821 :=
  first_run_success envOk .nothing 0 0 rootProcess "nobody" "exampled" 65534 65534 4821 3
    (sysOk_succeeds _) (by decide) (by decide) rfl (fun _ => rfl) (by decide) (by decide) rfl
    rfl (by decide) (by decide) (by decide) (by decide) rfl

/-- C1 as stated fails: root calls `cobalt_daemon ("nobody", "exampled")` with
descriptor 0 closed, no PID file exists and every call succeeds (the PID file
is opened on descriptor 0, so `/dev/null` lands on descriptor 1), yet the call
returns `-1`. -/
theorem first_run_needs_stdin :
    (envOk 0).Succeeds ∧ noStdin.euid = 0 ∧ noStdin.fs "/var/run/exampled.pid" = none ∧
    passwd "nobody" 1024 = .found 65534 65534 ∧
    (exampleRun envOk .nothing 1 noStdin).bind Outcome.code = some (-1) :=
  ⟨sysOk_succeeds _, rfl, rfl, rfl, by decide⟩

/-- C2 on the code: the PID file holds `77\n` and `kill (77, 0)` succeeds.
`cobalt_daemon` returns `-1` and the file is still there with its content;
then `main` leaves through `exit (EXIT_FAILURE)`, `clean_up` finds
`pidfile_name` set and unlinks the file of the live owner. -/
theorem live_owner_pid_file_removed :
    kill (envAlive 0) 77 = .ok ∧
    (exampleRun envAlive (.clean_up true) 1 (withPidFile rootProcess [55, 55, 10])).map
      (fun o => (o.code, o.world.fs examplePath)) = some (some (-1), some [55, 55, 10]) ∧
    (main envAlive true 1 (withPidFile rootProcess [55, 55, 10]) "exampled").map
      (fun o => (o.code, o.world.fs examplePath)) = some (some 1, none) := by
  decide

/-- The stale file `77\n` of the example: the child 4821 unlinks it, the
child 4822 of the second activation creates it anew and returns 0. -/
theorem stale_pid_file_reclaimed_witness :
    ∃ w2, cobalt_daemon envOk .nothing 2 0 (withPidFile rootProcess [55, 55, 10])
        (some "nobody") (some "exampled") = some (.ret 0 w2) ∧
      w2.pid = 4822 ∧
      (∀ q, w2.fs q = if q = "/var/run/" ++ "exampled" ++ ".pid"
        then some (decimal 4822 ++ [10]) else (withPidFile rootProcess [55, 55, 10]).fs q) ∧
      ∃ a b z, w2.trace = a ++ (4821, .unlink ("/var/run/" ++ "exampled" ++ ".pid") true) :: b
        ++ (4822, .openExcl ("/var/run/" ++ "exampled" ++ ".pid") (3 : Nat)) :: z :=
  stale_pid_file_reclaimed envOk .nothing 0 0 (withPidFile rootProcess [55, 55, 10]) "nobody"
    "exampled" 65534 65534 4821 4822 3 77 (sysOk_succeeds _) (sysOk_succeeds _) (by decide)
    (by decide) rfl (fun _ => rfl) (fun _ => rfl) (by decide) (by decide) (by decide)
    (by decide) rfl rfl rfl (by decide) (by decide) (by decide) (by decide) rfl

/-- C3 as stated fails: a stale PID file (`77\n`, `kill` answers `ESRCH`),
every other call succeeds, descriptor 0 is closed at the call; the call
returns `-1`. -/
theorem stale_reclaim_needs_stdin :
    (envOk 0).Succeeds ∧ (envOk 1).Succeeds ∧ kill (envOk 0) 77 = .esrch ∧
    (withPidFile noStdin [55, 55, 10]).fs examplePath = some (decimal 77 ++ [10]) ∧
    (exampleRun envOk .nothing 2 (withPidFile noStdin [55, 55, 10])).bind Outcome.code
      = some (-1) :=
  ⟨sysOk_succeeds _, sysOk_succeeds _, rfl, by decide, by decide⟩

/-- A caller with effective uid 1000 is turned away before any side effect. -/
theorem validation_before_side_effects_witness :
    ∃ w2 evs, cobalt_daemon envOk .nothing 1 0 userProcess (some "nobody") (some "exampled")
        = some (.ret (-1) w2) ∧
      Frame userProcess w2 ∧ w2.trace = userProcess.trace ++ evs ∧
      ∀ e ∈ evs, e.2.mutates = false :=
  validation_before_side_effects envOk .nothing 0 0 userProcess (some "nobody")
    (some "exampled") (Or.inl (by decide))

/-- C5 on the code: when `fchown` fails, `cobalt_daemon` returns `-1` and
descriptor 3, opened for the PID file, is still open; when the lock fails
instead, the descriptor has been closed. -/
theorem fchown_failure_leaks_descriptor :
    (exampleRun envNoFchown .nothing 1 rootProcess).map
      (fun o => (o.code, o.world.pidfile_fd, o.world.fds 3))
      = some (some (-1), 3, some (.file examplePath)) ∧
    (exampleRun envNoLock .nothing 1 rootProcess).map
      (fun o => (o.code, o.world.pidfile_fd, o.world.fds 3)) = some (some (-1), 3, none) := by
  decide

/-- The run of the examples in which every call succeeds. -/
theorem example_run_succeeds (w : World) (k : Nat) (he : w.euid = 0)
    (habs : w.fs ("/var/run/" ++ "exampled" ++ ".pid") = none) (hk : w.lowestFree = some k)
    (hk3 : 3 ≤ k) :
    ∃ w2, cobalt_daemon envOk .nothing 1 0 w (some "nobody") (some "exampled")
      = some (.ret 0 w2) := by
  obtain ⟨w2, h, -⟩ := activation_succeeds envOk .nothing 0 0 w "nobody" "exampled" 65534
    65534 4821 k (sysOk_succeeds _) (by decide) (by decide) he (fun _ => rfl) (by decide)
    (by decide) habs rfl (by decide) hk hk3
  exact ⟨w2, h⟩

/-- The order of the privilege drop in the first run of the example. -/
theorem privilege_drop_ordering_witness :
    ∃ out, cobalt_daemon envOk .nothing 1 0 rootProcess (some "nobody") (some "exampled")
        = some out ∧ out.code = some 0 ∧
      Precedes Event.isSetsid Event.isPrivDrop out.world.trace ∧
      Precedes Event.isSetresgidOk Event.isSetresuid out.world.trace ∧
      Precedes Event.isOpenlog Event.isLoopClose out.world.trace ∧
      Precedes Event.isSetresuidOk Event.isLoopClose out.world.trace := by
  obtain ⟨w2, h⟩ := example_run_succeeds rootProcess 3 rfl rfl rfl (by decide)
  have hc := privilege_drop_ordering envOk .nothing 1 0 rootProcess (some "nobody")
    (some "exampled") (.ret 0 w2) rfl h
  exact ⟨.ret 0 w2, h, rfl, hc.1, hc.2.2.1, hc.2.2.2.1, hc.2.2.2.2.2.1⟩

/-- The descriptor table after the first run of the example: 0, 1 and 2 on
`/dev/null`, and `pidfile_fd` the only other open descriptor. -/
theorem descriptor_table_after_success_witness :
    ∃ w2, cobalt_daemon envOk .nothing 1 0 rootProcess (some "nobody") (some "exampled")
        = some (.ret 0 w2) ∧
      w2.fds 0 = some .devnull ∧ w2.fds 1 = some .devnull ∧ w2.fds 2 = some .devnull ∧
      ∃ k : Nat, w2.pidfile_fd = (k : Int) ∧ 3 ≤ k ∧ w2.fds k = some (.file w2.pidfile_name) ∧
        ∀ n, w2.fds n ≠ none → n < 3 ∨ n = k := by
  obtain ⟨w2, h⟩ := example_run_succeeds rootProcess 3 rfl rfl rfl (by decide)
  obtain ⟨h0, h1, h2, k, hk, hk3, hfile, -, -, honly⟩ :=
    descriptor_table_after_success envOk .nothing 1 0 rootProcess (some "nobody")
      (some "exampled") w2 h
  refine ⟨w2, h, h0, h1, h2, k, hk, hk3, hfile, honly ?_⟩
  intro n hn
  simp only [MAX_OPEN_FDS] at hn
  have : ¬ n < 3 := by omega
  simp [rootProcess, this]

/-- C7 as stated fails: descriptor 100 is open at the call; the call returns
0 with `pidfile_fd = 3`, and descriptor 100 is still open. -/
theorem descriptor_above_ceiling_stays_open :
    extraDescriptor.fds 100 = some .other ∧
    (exampleRun envOk .nothing 1 extraDescriptor).map
      (fun o => (o.code, o.world.pidfile_fd, o.world.fds 100))
      = some (some 0, 3, some .other) := by
  decide

/-- The text of the pid 4821 read back into a buffer that held other bytes. -/
theorem pid_text_round_trip_witness :
    (snprintf_pid 4821).length < PID_BUF_SIZE ∧
    parse_pid (envStack 0).stack (snprintf_pid 4821) = some (4821 : Int) ∧
    probed_pid (envStack 0) (snprintf_pid 4821) = some (4821 : Int) :=
  pid_text_round_trip 4821 (envStack 0) (by decide)

/-- The PID file `0\n` of the example is probed with `kill (0, 0)` and left
alone. -/
theorem zero_line_pid_file_is_alive :
    ∃ w2 evs, cobalt_daemon envOk .nothing 1 0 (withPidFile rootProcess [48, 10])
        (some "nobody") (some "exampled") = some (.ret (-1) w2) ∧
      w2.fs = (withPidFile rootProcess [48, 10]).fs ∧
      w2.trace = (withPidFile rootProcess [48, 10]).trace ++ evs ++
        [(4821, .openExcl ("/var/run/" ++ "exampled" ++ ".pid") (-1)),
        (4821, .openRdonly ("/var/run/" ++ "exampled" ++ ".pid") (3 : Nat)),
        (4821, .read (3 : Nat) ((([48, 10] : List Nat).take PID_BUF_SIZE).length : Nat)),
        (4821, .kill 0 0 .ok), (4821, .close (3 : Nat) false)] ∧
      ∀ e ∈ evs, e.2.phase ≠ 4 :=
  unparsable_pid_file_is_alive envOk .nothing 0 0 (withPidFile rootProcess [48, 10]) "nobody"
    "exampled" 65534 65534 4821 3 [48, 10] (sysOk_succeeds _) (by decide) (by decide) rfl
    (fun _ => rfl) (by decide) (by decide) rfl (by decide) (by decide) rfl rfl

/-- C10 on the code: the PID file holds the single byte `0` (no newline),
which `strtoull` parses to 0.  `read` stores one byte and nothing terminates
`pid_buf` behind it (the trim writes the terminator only over a newline), so
`strtoull` goes on into what the buffer held before.  Where that was
`0, '7', 0` the text parsed is `07`: the probe is `kill (7, 0)`, answered
`ESRCH`, and the file is unlinked and replaced, the call returning 0.  Where
nothing stops the scan inside the buffer, `strtoull` reads past its end. -/
theorem unterminated_zero_is_stale :
    strtoull ([48] ++ [0]) = some 0 ∧ (envStack 0).Succeeds ∧
    (exampleRun envStack .nothing 2 (withPidFile rootProcess [48])).map
      (fun o => (o.code, decide ((4821, Event.kill 7 0 .esrch) ∈ o.world.trace),
        decide ((4821, Event.unlink examplePath true) ∈ o.world.trace),
        o.world.fs examplePath))
      = some (some 0, true, true, some [52, 56, 50, 50, 10]) ∧
    (exampleRun envOk .nothing 2 (withPidFile rootProcess [48])).map
      (fun o => (o.code, decide ((4821, Event.unlink examplePath true) ∈ o.world.trace)))
      = some (none, false) :=
  ⟨by decide, ⟨fun _ => rfl, rfl, rfl, rfl, rfl, rfl, rfl, rfl, rfl, rfl, rfl, rfl, rfl,
    fun _ => rfl, rfl, rfl, rfl, rfl, rfl, rfl⟩, by decide, by decide⟩

end CobaltDaemon
